import Mathlib

/-!
# Explicit-free-list allocator (`malloc_lab/mm.c`)

A shallow embedding of `mm.c`.  The managed range is a word-addressed memory
(one 64-bit word per 8-aligned byte address); the file-scope variables of
`mm.c` (`list`, `free_list_head`, the two `static` counters of `find_fit`)
are fields of an explicit state.  Every memory access is checked: an access
that is misaligned or lies outside `[lo, brk)` has no defined behaviour and
the operation yields `none`.
-/

namespace MM

/-- Size of the machine word: all `size_t` / pointer arithmetic is modulo `2^64`. -/
def W64 : Nat := 2 ^ 64

/-- The macro `WSIZE`, that is `sizeof(void *)`. -/
def WSIZE : Nat := 8

/-- The macro `DSIZE`, that is `2 * WSIZE`. -/
def DSIZE : Nat := 2 * WSIZE

/-- The macro `CHUNKSIZE`, that is `1 << 16`. -/
def CHUNKSIZE : Nat := 2 ^ 16

/-- The null pointer. -/
def NULL : Nat := 0

/-- Pointer / `size_t` addition, modulo `2^64`. -/
def padd (a b : Nat) : Nat := (a + b) % W64

/-- Pointer / `size_t` subtraction, modulo `2^64`. -/
def psub (a b : Nat) : Nat := (a + W64 - b % W64) % W64

/-- Multiplication of `size_t` values, modulo `2^64`. -/
def pmul (a b : Nat) : Nat := (a * b) % W64

/-- The macro `MAX(x, y)`. -/
def MAX (x y : Nat) : Nat := if x > y then x else y

/-- The macro `set(size, alloc)`, that is `size | alloc`. -/
def set (size alloc : Nat) : Nat := size ||| alloc

/-- The mask `~(DSIZE - 1)` as a 64-bit value. -/
def SIZE_MASK : Nat := W64 - DSIZE

/-- The size part of a tag word: `word & ~(DSIZE - 1)`. -/
def tagSize (w : Nat) : Nat := w &&& SIZE_MASK

/-- The allocation bit of a tag word: `word & 0x1`. -/
def tagAlloc (w : Nat) : Nat := w &&& 1

/-- Conversion of a `size_t` to `int` (two's complement truncation to 32 bits). -/
def toInt32 (n : Nat) : Int :=
  if n % 2 ^ 32 < 2 ^ 31 then ((n % 2 ^ 32 : Nat) : Int) else ((n % 2 ^ 32 : Nat) : Int) - 2 ^ 32

/-- Conversion of an `int` to `size_t`. -/
def ofInt (i : Int) : Nat := (i % (W64 : Int)).toNat

/-- The allocator state: the memory, the range of the provider and the
file-scope variables of `mm.c`. -/
structure Heap where
  /-- the word stored at each 8-aligned byte address -/
  mem : Nat → Nat
  /-- first byte of the range handed out by the provider -/
  lo : Nat
  /-- current end of the managed range -/
  brk : Nat
  /-- the provider refuses to grow the range beyond this address -/
  max_addr : Nat
  /-- the value the provider returns when it refuses -/
  failval : Nat
  /-- `static char *list` -/
  list : Nat
  /-- `static char *free_list_head` -/
  free_list_head : Nat
  /-- `static int l_s` of `find_fit` -/
  l_s : Int
  /-- `static int time` of `find_fit` -/
  time : Int

/-- A fresh process image: nothing granted yet, `list` and `free_list_head`
are `0`, the counters of `find_fit` hold their initialisers. -/
def Heap.fresh (m : Nat → Nat) (lo max_addr failval : Nat) : Heap :=
  { mem := m, lo := lo, brk := lo, max_addr := max_addr, failval := failval,
    list := 0, free_list_head := 0, l_s := 4, time := 0 }

/-- An access of one word at `a` is defined when `a` is 8-aligned and the word
lies inside the managed range. -/
def Heap.valid (σ : Heap) (a : Nat) : Bool :=
  a % 8 == 0 && decide (σ.lo ≤ a) && decide (a + 8 ≤ σ.brk)

/-- The macro `GET(a)`. -/
def GET (σ : Heap) (a : Nat) : Option Nat :=
  if σ.valid a then some (σ.mem a) else none

/-- The macro `PUT(a, val)`. -/
def PUT (σ : Heap) (a val : Nat) : Option Heap :=
  if σ.valid a then some { σ with mem := fun x => if x = a then val else σ.mem x } else none

/-- The macro `GET_SIZE(a)`. -/
def GET_SIZE (σ : Heap) (a : Nat) : Option Nat := (GET σ a).map tagSize

/-- The macro `GET_ALLOC(a)`. -/
def GET_ALLOC (σ : Heap) (a : Nat) : Option Nat := (GET σ a).map tagAlloc

/-- The macro `HDRP(block)`. -/
def HDRP (block : Nat) : Nat := psub block WSIZE

/-- The macro `FTRP(block)`. -/
def FTRP (σ : Heap) (block : Nat) : Option Nat :=
  (GET_SIZE σ (HDRP block)).map fun s => psub (padd block s) DSIZE

/-- The macro `NEXT_BLK(block)`. -/
def NEXT_BLK (σ : Heap) (block : Nat) : Option Nat :=
  (GET_SIZE σ (HDRP block)).map fun s => padd block s

/-- The macro `PREV_BLK(block)`. -/
def PREV_BLK (σ : Heap) (block : Nat) : Option Nat :=
  (GET_SIZE σ (psub block DSIZE)).map fun s => psub block s

/-- The macro `GET_NEXT_b(block)`. -/
def GET_NEXT_b (σ : Heap) (block : Nat) : Option Nat := GET σ (padd block WSIZE)

/-- The macro `GET_PREV_b(block)`. -/
def GET_PREV_b (σ : Heap) (block : Nat) : Option Nat := GET σ block

/-- The macro `SET_NEXT_b(block, qp)`. -/
def SET_NEXT_b (σ : Heap) (block qp : Nat) : Option Heap := PUT σ (padd block WSIZE) qp

/-- The macro `SET_PREV_b(block, qp)`. -/
def SET_PREV_b (σ : Heap) (block qp : Nat) : Option Heap := PUT σ block qp

/-- Modelled from the spec: the range-growth primitive `mem_sbrk` of `memlib`,
which is not part of the sources.  It grows the range by `incr` bytes and
returns the previous end address, or refuses and returns the failure value,
leaving the range as it was.  It never touches the contents of memory. -/
def mem_sbrk (σ : Heap) (incr : Nat) : Heap × Nat :=
  if σ.brk + incr ≤ σ.max_addr then ({ σ with brk := σ.brk + incr }, σ.brk)
  else (σ, σ.failval)

/-- The function `insert_in_free_list`. -/
def insert_in_free_list (σ : Heap) (block : Nat) : Option Heap :=
  (SET_NEXT_b σ block σ.free_list_head).bind fun σ1 =>
  (SET_PREV_b σ1 σ1.free_list_head block).bind fun σ2 =>
  (SET_PREV_b σ2 block NULL).map fun σ3 =>
  { σ3 with free_list_head := block }

/-- The function `remove_from_free_list`.  The assignment to the `prev` link of
the successor is outside the `if` / `else` of the source and always runs. -/
def remove_from_free_list (σ : Heap) (block : Nat) : Option Heap :=
  (GET_PREV_b σ block).bind fun p =>
  (GET_NEXT_b σ block).bind fun n =>
  (if p ≠ 0 then SET_NEXT_b σ p n
   else some { σ with free_list_head := n }).bind fun σ1 =>
  (GET_NEXT_b σ1 block).bind fun n1 =>
  (GET_PREV_b σ1 block).bind fun p1 =>
  SET_PREV_b σ1 n1 p1

/-- The two statements `PUT(HDRP(block), set(s, 0)); PUT(FTRP(block), set(s, 0));`
(with an arbitrary allocation bit), used by `coalesce`, `extend_heap`, `place`
and `mm_free`. -/
def put_tags (σ : Heap) (block s alloc : Nat) : Option Heap :=
  (PUT σ (HDRP block) (set s alloc)).bind fun σ1 =>
  (FTRP σ1 block).bind fun f =>
  PUT σ1 f (set s alloc)

/-- Case 1 of `coalesce`: the previous block is free and the next is not. -/
def coalesce_prev (σ : Heap) (block s : Nat) : Option (Heap × Nat) :=
  (PREV_BLK σ block).bind fun pb =>
  (GET_SIZE σ (HDRP pb)).bind fun ps =>
  (remove_from_free_list σ pb).bind fun σ1 =>
  (put_tags σ1 pb (padd s ps) 0).map fun σ2 => (σ2, pb)

/-- Case 2 of `coalesce`: the next block is free and the previous is not. -/
def coalesce_next (σ : Heap) (block s : Nat) : Option (Heap × Nat) :=
  (NEXT_BLK σ block).bind fun nb =>
  (GET_SIZE σ (HDRP nb)).bind fun ns =>
  (NEXT_BLK σ block).bind fun nb1 =>
  (remove_from_free_list σ nb1).bind fun σ1 =>
  (put_tags σ1 block (padd s ns) 0).map fun σ2 => (σ2, block)

/-- Case 3 of `coalesce`: both neighbours are free. -/
def coalesce_both (σ : Heap) (block s : Nat) : Option (Heap × Nat) :=
  (PREV_BLK σ block).bind fun pb =>
  (GET_SIZE σ (HDRP pb)).bind fun ps =>
  (NEXT_BLK σ block).bind fun nb =>
  (GET_SIZE σ (HDRP nb)).bind fun ns =>
  (remove_from_free_list σ pb).bind fun σ1 =>
  (NEXT_BLK σ1 block).bind fun nb1 =>
  (remove_from_free_list σ1 nb1).bind fun σ2 =>
  (PREV_BLK σ2 block).bind fun pb2 =>
  (put_tags σ2 pb2 (padd s (padd ps ns)) 0).map fun σ3 => (σ3, pb2)

/-- The three-way case distinction of `coalesce` on the two flags. -/
def coalesce_cases (σ : Heap) (block s : Nat) (NEXT_ALLOC PREV_ALLOC : Bool) :
    Option (Heap × Nat) :=
  if NEXT_ALLOC && !PREV_ALLOC then coalesce_prev σ block s
  else if !NEXT_ALLOC && PREV_ALLOC then coalesce_next σ block s
  else if !PREV_ALLOC && !NEXT_ALLOC then coalesce_both σ block s
  else some (σ, block)

/-- The function `coalesce`. -/
def coalesce (σ : Heap) (block : Nat) : Option (Heap × Nat) :=
  (NEXT_BLK σ block).bind fun nb =>
  (GET_ALLOC σ (HDRP nb)).bind fun na =>
  (PREV_BLK σ block).bind fun pb =>
  (FTRP σ pb).bind fun fp =>
  (GET_ALLOC σ fp).bind fun pa =>
  (GET_SIZE σ (HDRP block)).bind fun s =>
  (coalesce_cases σ block s (na != 0) (pa != 0 || pb == block)).bind fun r =>
  (insert_in_free_list r.1 r.2).map fun σ1 => (σ1, r.2)

/-- The number of bytes `extend_heap` requests for `words` words: `words`
rounded up to an even count, times `WSIZE`, and at least 16. -/
def extend_size (words : Nat) : Nat :=
  let s := if words % 2 ≠ 0 then pmul (padd words 1) WSIZE else pmul words WSIZE
  if s < 16 then 16 else s

/-- The part of `extend_heap` after a granted growth: tags of the new free
block, the new epilogue tag, and `coalesce`. -/
def extend_heap_init (σ : Heap) (block s : Nat) : Option (Heap × Nat) :=
  (put_tags σ block s 0).bind fun σ1 =>
  (NEXT_BLK σ1 block).bind fun nb =>
  (PUT σ1 (HDRP nb) (set 0 1)).bind fun σ2 =>
  coalesce σ2 block

/-- The function `extend_heap`.  The result `NULL` reports a refused growth. -/
def extend_heap (σ : Heap) (words : Nat) : Option (Heap × Nat) :=
  if toInt32 (mem_sbrk σ (extend_size words)).2 = -1
  then some ((mem_sbrk σ (extend_size words)).1, NULL)
  else extend_heap_init (mem_sbrk σ (extend_size words)).1 (mem_sbrk σ (extend_size words)).2
    (extend_size words)

/-- The search loop of `find_fit`; `fuel` bounds the number of iterations. -/
def find_fit_loop (asize : Nat) : Nat → Heap → Nat → Option (Heap × Nat)
  | 0, _, _ => none
  | fuel + 1, σ, block =>
    (GET_ALLOC σ (HDRP block)).bind fun a =>
    if a = 0 then
      (GET_SIZE σ (HDRP block)).bind fun s =>
      if asize ≤ s then some ({ σ with l_s := toInt32 asize }, block)
      else (GET_NEXT_b σ block).bind fun n => find_fit_loop asize fuel σ n
    else some (σ, NULL)

/-- The `for` statement of `find_fit`, started at the head of the free list.
The loop visits 8-aligned addresses of the managed range, so a walk of more
than `brk` steps repeats a block and the loop of the source does not end; the
model then yields `none`. -/
def find_fit_search (σ : Heap) (asize : Nat) : Option (Heap × Nat) :=
  find_fit_loop asize (σ.brk + 1) σ σ.free_list_head

/-- The function `find_fit`. -/
def find_fit (σ : Heap) (asize : Nat) : Option (Heap × Nat) :=
  if σ.l_s = toInt32 asize then
    if σ.time > 60 then
      extend_heap σ (ofInt (Int.tdiv (toInt32 (MAX asize (4 * WSIZE))) 8))
    else find_fit_search { σ with time := σ.time + 1 } asize
  else find_fit_search { σ with time := 0 } asize

/-- The function `place`. -/
def place (σ : Heap) (block asize : Nat) : Option Heap :=
  (GET_SIZE σ (HDRP block)).bind fun s =>
  if psub s asize ≥ 16 * WSIZE then
    (put_tags σ block asize 1).bind fun σ1 =>
    (remove_from_free_list σ1 block).bind fun σ2 =>
    (NEXT_BLK σ2 block).bind fun nb =>
    (put_tags σ2 nb (psub s asize) 0).bind fun σ3 =>
    (coalesce σ3 nb).map fun r => r.1
  else
    (put_tags σ block s 1).bind fun σ1 =>
    remove_from_free_list σ1 block

/-- The adjusted block size computed by `mm_malloc` for a request `size > 0`. -/
def adjust (size : Nat) : Nat :=
  if size ≤ DSIZE then 2 * DSIZE
  else pmul DSIZE (padd size (DSIZE + (DSIZE - 1)) / DSIZE)

/-- The function `mm_init`; the result is the `int` it returns. -/
def mm_init (σ : Heap) : Option (Heap × Int) :=
  let r := mem_sbrk σ (16 * WSIZE)
  let σ0 : Heap := { r.1 with list := r.2 }
  if r.2 = NULL then some (σ0, -1)
  else
    (PUT σ0 σ0.list 0).bind fun σ1 =>
    (PUT σ1 (padd σ1.list (1 * WSIZE)) (set DSIZE 1)).bind fun σ2 =>
    (PUT σ2 (padd σ2.list (2 * WSIZE)) (set DSIZE 1)).bind fun σ3 =>
    (PUT σ3 (padd σ3.list (3 * WSIZE)) (set 0 1)).bind fun σ4 =>
    (extend_heap { σ4 with free_list_head := padd σ4.list (2 * WSIZE) } 4).map fun e =>
    if e.2 = NULL then (e.1, -1) else (e.1, 0)

/-- The part of `mm_malloc` after the fit search has missed: grow the range
and place the block. -/
def malloc_extend (σ : Heap) (asize : Nat) : Option (Heap × Nat) :=
  (extend_heap σ (MAX asize CHUNKSIZE / WSIZE)).bind fun e =>
  if e.2 ≠ NULL then (place e.1 e.2 asize).map fun σ1 => (σ1, e.2)
  else some (e.1, NULL)

/-- The function `mm_malloc`. -/
def mm_malloc (σ : Heap) (size : Nat) : Option (Heap × Nat) :=
  if size = 0 then some (σ, NULL)
  else
    (find_fit σ (adjust size)).bind fun r =>
    if r.2 ≠ NULL then (place r.1 r.2 (adjust size)).map fun σ1 => (σ1, r.2)
    else malloc_extend r.1 (adjust size)

/-- The function `mm_free`. -/
def mm_free (σ : Heap) (ptr : Nat) : Option Heap :=
  if ptr = NULL then some σ
  else
    (GET_SIZE σ (HDRP ptr)).bind fun size =>
    (put_tags σ ptr size 0).bind fun σ1 =>
    (coalesce σ1 ptr).map fun r => r.1

/-- A client stores the word `v` at address `a` of the managed range. -/
def store (σ : Heap) (a v : Nat) : Option Heap := PUT σ a v

/-- The field `block_size` of `header_t` / `block_t`: the 31 bits above the
one-bit field `allocated` in the first `uint32_t` of the tag word. -/
def block_size (w : Nat) : Nat := w % 2 ^ 32 / 2

/-- Copy of `k` whole words from `src` to `dst`, lowest address first. -/
def copy_words : Nat → Heap → Nat → Nat → Option Heap
  | 0, σ, _, _ => some σ
  | k + 1, σ, dst, src =>
    (GET σ src).bind fun w =>
    (PUT σ dst w).bind fun σ1 =>
    copy_words k σ1 (padd dst 8) (padd src 8)

/-- The library function `memcpy(dst, src, n)` on the word memory: `n / 8`
whole words, then the low `n % 8` bytes of the next word (little endian). -/
def memcpy (σ : Heap) (dst src n : Nat) : Option Heap :=
  (copy_words (n / 8) σ dst src).bind fun σ1 =>
  if n % 8 = 0 then some σ1
  else
    (GET σ1 (padd src (n / 8 * 8))).bind fun sw =>
    (GET σ1 (padd dst (n / 8 * 8))).bind fun dw =>
    PUT σ1 (padd dst (n / 8 * 8)) (sw % 256 ^ (n % 8) + dw / 256 ^ (n % 8) * 256 ^ (n % 8))

/-- How a call of `mm_realloc` ends: the process is terminated by `exit(1)`,
or the call returns an address. -/
inductive Outcome where
  | exited (σ : Heap)
  | returned (σ : Heap) (p : Nat)

/-- The number of bytes `mm_realloc` copies: `block->block_size` of the old
block, or `size` if that is smaller. -/
def copySize (σ : Heap) (ptr size : Nat) : Option Nat :=
  (GET σ (psub ptr 8)).map fun w =>
  if size < block_size w then size else block_size w

/-- The function `mm_realloc`. -/
def mm_realloc (σ : Heap) (ptr size : Nat) : Option Outcome :=
  (mm_malloc σ size).bind fun r =>
  if r.2 = NULL then some (Outcome.exited r.1)
  else
    (copySize r.1 ptr size).bind fun n =>
    (memcpy r.1 r.2 ptr n).bind fun σ1 =>
    (mm_free σ1 ptr).map fun σ2 => Outcome.returned σ2 r.2

/-! ## Observations on a state and call sequences -/

/-- The free list as the loop of `find_fit` walks it: at most `k` entries,
starting at `block`, up to the first block whose header is tagged allocated
(or whose header cannot be read). -/
def free_list_take : Nat → Heap → Nat → List Nat
  | 0, _, _ => []
  | k + 1, σ, block =>
    match GET_ALLOC σ (HDRP block), GET_NEXT_b σ block with
    | some 0, some n => block :: free_list_take k σ n
    | some 0, none => [block]
    | _, _ => []

/-- The blocks of the managed range in address order: at most `k` entries
`(payload address, size, allocated)`, starting at `block` and stepping by
`NEXT_BLK`, up to and including the first tag of size zero. -/
def blocks_take : Nat → Heap → Nat → List (Nat × Nat × Nat)
  | 0, _, _ => []
  | k + 1, σ, block =>
    match GET σ (HDRP block) with
    | none => []
    | some w =>
      if tagSize w = 0 then [(block, 0, tagAlloc w)]
      else (block, tagSize w, tagAlloc w) :: blocks_take k σ (padd block (tagSize w))

/-- The payload address of the first block: the first address granted after
the sixteen bootstrap words of `mm_init`. -/
def first_block (σ : Heap) : Nat := padd σ.list (16 * WSIZE)

/-- A call of the client interface. -/
inductive Call where
  | malloc (size : Nat)
  | free (ptr : Nat)

/-- Run a sequence of calls; the result lists the addresses returned by the
`malloc` calls, in order. -/
def run_calls : List Call → Heap → List Nat → Option (Heap × List Nat)
  | [], σ, out => some (σ, out)
  | Call.malloc n :: cs, σ, out =>
    (mm_malloc σ n).bind fun r => run_calls cs r.1 (out ++ [r.2])
  | Call.free p :: cs, σ, out =>
    (mm_free σ p).bind fun σ1 => run_calls cs σ1 out

/-- A provider whose range starts at address `4096`, is zero-filled, may grow
by 16 MiB and reports refusal by `(void *)-1`. -/
def heap0 : Heap := Heap.fresh (fun _ => 0) 4096 (4096 + 2 ^ 24) (2 ^ 64 - 1)

/-- Run `mm_init` on `heap0`, then the calls `cs`. -/
def session (cs : List Call) : Option (Heap × List Nat) :=
  (mm_init heap0).bind fun r => run_calls cs r.1 []

/-- A provider like `heap0` whose range holds left-over data: the words at
offsets 48, 64, 88, 104 and 112 of the range are `80`, `4112`, `32`, `4152`
and `32`; every other word is zero. -/
def dirty_heap : Heap :=
  Heap.fresh (fun a => if a = 4144 then 80 else if a = 4160 then 4112 else if a = 4184 then 32
    else if a = 4200 then 4152 else if a = 4208 then 32 else 0) 4096 (4096 + 2 ^ 24) (2 ^ 64 - 1)

/-- The state in which a call of `mm_realloc` ends. -/
def Outcome.heap : Outcome → Heap
  | Outcome.exited σ => σ
  | Outcome.returned σ _ => σ

/-- The address a call of `mm_realloc` returns, if it returns. -/
def Outcome.addr : Outcome → Option Nat
  | Outcome.exited _ => none
  | Outcome.returned _ p => some p

/-- The client allocates 100 bytes at `4224`, stores the word `v` at offset 64
of that allocation and resizes the allocation to 100 bytes. -/
def realloc_session (v : Nat) : Option Outcome :=
  (session [Call.malloc 100]).bind fun r =>
  (store r.1 (4224 + 64) v).bind fun σ =>
  mm_realloc σ 4224 100

/-! ## Alignment of states -/

/-- Every word of a memory holds a tag whose size part is a multiple of 16, or
a 16-aligned address: its value is 0 or 1 modulo 16. -/
def words_ok (m : Nat → Nat) : Prop := ∀ a, m a % 16 ≤ 1

/-- The alignment invariant of a state: the end of the range and the head of
the free list are multiples of 16, every word is a tag of a 16-aligned size or
a 16-aligned address, and the failure value of the provider is `(void *)-1`
(as an `int`) or 16-aligned (as is `NULL`). -/
structure Aligned (σ : Heap) : Prop where
  brk : σ.brk % 16 = 0
  head : σ.free_list_head % 16 = 0
  mem : words_ok σ.mem
  fail : toInt32 σ.failval = -1 ∨ σ.failval % 16 = 0

/-- The state `mm_init` leaves on `heap0`. -/
def init_state : Heap := ((mm_init heap0).map fun r => r.1).getD heap0

/-- The state `mm_malloc(100)` leaves when called in `init_state`. -/
def malloc_state : Heap := ((mm_malloc init_state 100).map fun r => r.1).getD heap0

/-! ## The consistency checker -/

/-- The function `checkblock`, called with a pointer `block` to a `block_t`:
it reads the field `block_size` of the word at `block` and of the footer
`get_footer(block)`, that is the word at `block + block_size - 8`, and only
prints; the result tells whether it found the payload aligned and the two
sizes equal. -/
def checkblock (σ : Heap) (block : Nat) : Option Bool :=
  (GET σ block).bind fun w =>
  (GET σ (psub (padd block (block_size w)) 8)).map fun f =>
  decide (padd block 8 % 8 = 0) && decide (block_size w = block_size f)

/-- The function `mm_checkheap`.  It is declared `void` and executes `return 0`
and `return 1`; the result is that value.  Its local variable `block` is never
assigned: `block` is the value the variable happens to hold. -/
def mm_checkheap (σ : Heap) (block : Nat) : Option Bool :=
  (GET_ALLOC σ (HDRP σ.list)).bind fun a =>
  if a = 0 then some false
  else
    (GET_SIZE σ (HDRP σ.list)).bind fun s =>
    if s ≠ DSIZE then some false
    else
      (checkblock σ σ.list).bind fun _ =>
      (GET_SIZE σ (HDRP block)).bind fun es =>
      if es ≠ 0 then some false
      else
        (GET_ALLOC σ (HDRP block)).bind fun ea =>
        if ea = 0 then some false else some true

/-! ## Further concrete providers and states -/

/-- A zero-filled range at `4096` whose provider grants `room` bytes in all and
reports refusal by `failval`. -/
def small_heap (room failval : Nat) : Heap :=
  Heap.fresh (fun _ => 0) 4096 (4096 + room) failval

/-- The state after `mm_init`, `mm_malloc(100)`, `mm_malloc(2^64 - 31)` and the
release of the second allocation, on `heap0`. -/
def cyclic_state : Heap :=
  ((session [Call.malloc 100, Call.malloc (2 ^ 64 - 31), Call.free 4352]).map
    fun r => r.1).getD heap0

/-- The state after `mm_init`, `mm_malloc(100)`, `mm_malloc(200)` and the
release of the first allocation, on `heap0`: the free block at `4224`, of size
128, is the head of the free list. -/
def reuse_state : Heap :=
  ((session [Call.malloc 100, Call.malloc 200, Call.free 4224]).map fun r => r.1).getD heap0

/-- A client run on `heap0`: `mm_init`, allocations of 100, 240 and 1000
bytes (at 4224, 4352 and 4608), the release of 4352, the request
`mm_malloc(2^64 - 31)`, which returns 4352, four stores of the client into the
allocation it was handed at 4352 (the words at its offsets 8, 16, 24 and 32),
and the request `mm_malloc(496)`.  The result is the state and the address the
last request returns. -/
def client_store_run : Option (Heap × Nat) :=
  (session [Call.malloc 100, Call.malloc 240, Call.malloc 1000, Call.free 4352,
    Call.malloc (2 ^ 64 - 31)]).bind fun r =>
  (store r.1 (4352 + 8) 4376).bind fun σ1 =>
  (store σ1 (4352 + 16) 512).bind fun σ2 =>
  (store σ2 (4352 + 24) 0).bind fun σ3 =>
  (store σ3 (4352 + 32) 4112).bind fun σ4 =>
  mm_malloc σ4 496

/-! ## The free list as a list, and repeated request cycles -/

/-- The chain of `next` links from `block` is the finite list `L` of free
blocks: every entry has a readable header tagged free and a readable `next`
link, and the chain ends at a block whose header is readable and tagged
allocated (in the states the allocator builds, the prologue payload). -/
inductive FreeList (σ : Heap) : Nat → List Nat → Prop where
  | nil (block a : Nat) : GET_ALLOC σ (HDRP block) = some a → a ≠ 0 → FreeList σ block []
  | cons (block n : Nat) (L : List Nat) : GET_ALLOC σ (HDRP block) = some 0 →
      GET_NEXT_b σ block = some n → FreeList σ n L → FreeList σ block (block :: L)

/-- First fit as the specification words it: the first block of the list, in
list order, whose size is at least `a`; `none` when no block qualifies. -/
def first_fit (σ : Heap) (a : Nat) : List Nat → Option Nat
  | [] => none
  | b :: L => if a ≤ (GET_SIZE σ (HDRP b)).getD 0 then some b else first_fit σ a L

/-- One cycle `p = mm_malloc(n); mm_free(p);`. -/
def cycle (n : Nat) (σ : Heap) : Option Heap :=
  (mm_malloc σ n).bind fun r => mm_free r.1 r.2

/-- The loop `for k times: p = mm_malloc(n); mm_free(p);`. -/
def cycles (n : Nat) : Nat → Heap → Option Heap
  | 0, σ => some σ
  | k + 1, σ => (cycle n σ).bind fun σ1 => cycles n k σ1

/-- The state after `mm_init` and 62 cycles `p = mm_malloc(8); mm_free(p);` on
`heap0`. -/
def gate_state : Heap := (cycles 8 62 init_state).getD heap0

/-! ## Memory updates -/

/-- The memory `m` with the word at `a` replaced by `v`. -/
def upd (m : Nat → Nat) (a v : Nat) : Nat → Nat := fun x => if x = a then v else m x

/-- The memory `mm_init` leaves on a range that starts at `lo` with contents
`m`, when both growths are granted and the word at offset 112 has size 0. -/
def init_mem (m : Nat → Nat) (lo : Nat) : Nat → Nat :=
  upd (upd (upd (upd (upd (upd (upd (upd (upd (upd m lo 0) (lo + 8) 17) (lo + 16) 17)
    (lo + 24) 1) (lo + 120) 32) (lo + 144) 32) (lo + 152) 1) (lo + 136) (lo + 16))
    (lo + 16) (lo + 128)) (lo + 128) 0

/-! ## Steady heaps and runs of cycles -/

/-- The doubly linked chain of a free list in the memory `m`: starting at `h`,
whose `prev` link is `p`, the `next` links (at offset 8) visit the entries of
the list in order and end at `t`, and the `prev` link (at offset 0) of every
entry names the entry before it. -/
def dlist (m : Nat → Nat) (t : Nat) : Nat → Nat → List Nat → Prop
  | _, h, [] => h = t
  | p, h, y :: L => h = y ∧ m y = p ∧ dlist m t y (m (y + 8)) L

/-- A free block `x` as an entry of the free list: 16-aligned, inside the
range, above the block `t` that ends the list, with a header that holds its
size (a multiple of 16, at least 32, the room for two links and two tags) and
a footer equal to the header. -/
structure FreeNode (m : Nat → Nat) (lo B t x : Nat) : Prop where
  al : x % 16 = 0
  lo8 : lo + 8 ≤ x
  s16 : m (x - 8) % 16 = 0
  s32 : 32 ≤ m (x - 8)
  hi : x + m (x - 8) ≤ B
  ftr : m (x + m (x - 8) - 16) = m (x - 8)
  above : t + 16 ≤ x

/-- A well-formed free list: a doubly linked chain from the head `hd` over
the entries `L`, without repetition, of free blocks that do not overlap, ended
by the block `t`, whose header is tagged allocated. -/
structure ListOK (m : Nat → Nat) (lo B t hd : Nat) (L : List Nat) : Prop where
  links : dlist m t 0 hd L
  nodup : L.Nodup
  node : ∀ x ∈ L, FreeNode m lo B t x
  apart : ∀ x ∈ L, ∀ y ∈ L, x ≠ y → x + m (x - 8) ≤ y ∨ y + m (y - 8) ≤ x
  t16 : t % 16 = 0
  tlo : lo + 8 ≤ t
  thi : t + 8 ≤ B
  talloc : tagAlloc (m (t - 8)) = 1

/-- The block before `b` is free: the word before the header of `b` is the
footer of a block (its size part is not 0) and is tagged free. -/
def prev_free (σ : Heap) (b : Nat) : Bool :=
  tagSize (σ.mem (b - 16)) != 0 && tagAlloc (σ.mem (b - 16)) == 0

/-- The block after `b` is free: its header is tagged free. -/
def next_free (σ : Heap) (b : Nat) : Bool :=
  tagAlloc (σ.mem (b + tagSize (σ.mem (b - 8)) - 8)) == 0

/-- The address of the merged block as the specification words it: the
preceding block if that block is free, and `b` otherwise. -/
def merged_addr (σ : Heap) (b : Nat) : Nat :=
  if prev_free σ b then b - tagSize (σ.mem (b - 16)) else b

/-- The size of the merged block as the specification words it: the size of
`b`, plus the size of the preceding block if it is free, plus the size of the
following block if it is free. -/
def merged_size (σ : Heap) (b : Nat) : Nat :=
  tagSize (σ.mem (b - 8)) + (if prev_free σ b then tagSize (σ.mem (b - 16)) else 0) +
    (if next_free σ b then tagSize (σ.mem (b + tagSize (σ.mem (b - 8)) - 8)) else 0)

/-- The entries of the free list `L` that are left when the free neighbours
of `b` are taken off. -/
def merged_rest (σ : Heap) (b : Nat) (L : List Nat) : List Nat :=
  if next_free σ b then
    (if prev_free σ b then L.erase (b - tagSize (σ.mem (b - 16))) else L).erase
      (b + tagSize (σ.mem (b - 8)))
  else if prev_free σ b then L.erase (b - tagSize (σ.mem (b - 16))) else L

/-- A well-formed heap around a block `b` that is tagged free and not yet on
the free list `L`: the list is well formed and ends at `t`; `b` is a free block
with equal header and footer that overlaps no list entry; the block after `b`
is tagged allocated or is an entry of the list; and the word before the header
of `b` either has size part 0 (`b` is the first block) or is the footer of a
block that fits in the range, has the same word as header, and is tagged
allocated or is an entry of the list. -/
structure WellFormedAt (σ : Heap) (b t : Nat) (L : List Nat) : Prop where
  top : σ.brk + 16 < 2 ^ 64
  list : ListOK σ.mem σ.lo σ.brk t σ.free_list_head L
  blk : FreeNode σ.mem σ.lo σ.brk t b
  fresh : b ∉ L
  apart : ∀ y ∈ L, b + σ.mem (b - 8) ≤ y ∨ y + σ.mem (y - 8) ≤ b
  next : tagAlloc (σ.mem (b + σ.mem (b - 8) - 8)) = 0 → b + σ.mem (b - 8) ∈ L
  prev : tagSize (σ.mem (b - 16)) = 0 ∨
    (16 ≤ tagSize (σ.mem (b - 16)) ∧ σ.lo + 8 + tagSize (σ.mem (b - 16)) ≤ b ∧
      σ.mem (b - tagSize (σ.mem (b - 16)) - 8) = σ.mem (b - 16) ∧
      (tagAlloc (σ.mem (b - 16)) = 0 → b - tagSize (σ.mem (b - 16)) ∈ L))

/-- The state on `heap0` after `mm_init`, three allocations of 100 bytes (at
4224, 4352 and 4480), the release of the first and of the third, and the two
statements of `mm_free` that tag the second free: the block 4352 is tagged
free and not yet on the free list, and both its neighbours are free. -/
def merge_state : Heap :=
  ((session [Call.malloc 100, Call.malloc 100, Call.malloc 100, Call.free 4224,
      Call.free 4480]).bind fun r => put_tags r.1 4352 128 0).getD heap0

/-! ## The adjusted size -/

/-- For a request that does not overflow the rounding, the adjusted size is a
multiple of 16, at least the minimum block size and leaves room for the
request and both tags. -/
theorem adjust_in_range (n : Nat) (h0 : 0 < n) (h : n + 31 < 2 ^ 64) :
    adjust n % 16 = 0 ∧ 32 ≤ adjust n ∧ n + 16 ≤ adjust n := by
  unfold adjust pmul padd DSIZE WSIZE W64
  split
  · omega
  · have h1 : (n + (2 * 8 + (2 * 8 - 1))) % 2 ^ 64 = n + 31 := by
      rw [Nat.mod_eq_of_lt]; omega
    rw [h1]
    have h2 : 2 * 8 * ((n + 31) / (2 * 8)) < 2 ^ 64 := by omega
    rw [Nat.mod_eq_of_lt h2]
    omega

/-- The adjusted size is a multiple of 16 for every request. -/
theorem adjust_mod (n : Nat) : adjust n % 16 = 0 := by
  unfold adjust pmul padd DSIZE WSIZE W64
  split
  · rfl
  · omega

/-! ## The alignment invariant -/

theorem mask_bit (i : Nat) (hi : i < 4) : Nat.testBit (2 ^ 64 - 16) i = false := by
  interval_cases i <;> rfl

theorem tagSize_mod (w : Nat) : tagSize w % 16 = 0 := by
  have h : (w &&& (2 ^ 64 - 16)) % 2 ^ 4 = 0 := by
    apply Nat.eq_of_testBit_eq
    intro i
    rw [Nat.testBit_mod_two_pow, Nat.testBit_and, Nat.zero_testBit]
    by_cases hi : i < 4
    · rw [mask_bit i hi]; simp
    · simp [hi]
  simpa [tagSize, SIZE_MASK, W64, DSIZE, WSIZE] using h

theorem set_mod (s a : Nat) (hs : s % 16 = 0) (ha : a ≤ 1) : set s a % 16 ≤ 1 := by
  unfold set
  interval_cases a
  · simp [hs]
  · obtain ⟨k, rfl⟩ : ∃ k, s = 2 ^ 4 * k := ⟨s / 16, by omega⟩
    rw [← Nat.mul_add_lt_is_or (by norm_num : 1 < 2 ^ 4)]
    omega

theorem padd_mod (a b : Nat) (ha : a % 16 = 0) (hb : b % 16 = 0) : padd a b % 16 = 0 := by
  unfold padd W64; omega

theorem psub_mod (a b : Nat) (ha : a % 16 = 0) (hb : b % 16 = 0) : psub a b % 16 = 0 := by
  unfold psub W64; omega

theorem GET_some {σ : Heap} {a w : Nat} (h : GET σ a = some w) :
    a % 8 = 0 ∧ w = σ.mem a := by
  unfold GET at h
  split at h
  · rename_i hv
    simp only [Heap.valid, Bool.and_eq_true, beq_iff_eq, decide_eq_true_eq] at hv
    exact ⟨hv.1.1, (Option.some.inj h).symm⟩
  · exact absurd h (by simp)

theorem GET_words {σ : Heap} (hσ : Aligned σ) {a w : Nat} (h : GET σ a = some w) :
    w % 16 ≤ 1 := by
  rw [(GET_some h).2]; exact hσ.mem a

theorem GET_SIZE_mod {σ : Heap} {a s : Nat} (h : GET_SIZE σ a = some s) : s % 16 = 0 := by
  unfold GET_SIZE at h
  obtain ⟨w, _, rfl⟩ := Option.map_eq_some'.1 h
  exact tagSize_mod w

theorem PUT_some {σ σ1 : Heap} {a v : Nat} (h : PUT σ a v = some σ1) :
    a % 8 = 0 ∧ σ1 = { σ with mem := fun x => if x = a then v else σ.mem x } := by
  unfold PUT at h
  split at h
  · rename_i hv
    simp only [Heap.valid, Bool.and_eq_true, beq_iff_eq, decide_eq_true_eq] at hv
    exact ⟨hv.1.1, (Option.some.inj h).symm⟩
  · exact absurd h (by simp)

theorem PUT_aligned {σ σ1 : Heap} (hσ : Aligned σ) {a v : Nat} (hv : v % 16 ≤ 1)
    (h : PUT σ a v = some σ1) : Aligned σ1 := by
  obtain ⟨_, rfl⟩ := PUT_some h
  refine ⟨hσ.brk, hσ.head, ?_, hσ.fail⟩
  intro x
  show (if x = a then v else σ.mem x) % 16 ≤ 1
  split
  · exact hv
  · exact hσ.mem x

/-- A word that is 0 or 1 modulo 16 and a multiple of 8 is a multiple of 16. -/
theorem ptr_mod {w : Nat} (h1 : w % 16 ≤ 1) (h8 : w % 8 = 0) : w % 16 = 0 := by omega

theorem HDRP_mod8 {b : Nat} (h : HDRP b % 8 = 0) : b % 8 = 0 := by
  unfold HDRP psub WSIZE W64 at h; omega

theorem insert_aligned {σ σ1 : Heap} (hσ : Aligned σ) {block : Nat} (hb : block % 16 = 0)
    (h : insert_in_free_list σ block = some σ1) :
    Aligned σ1 ∧ σ1.free_list_head = block := by
  unfold insert_in_free_list SET_NEXT_b SET_PREV_b at h
  obtain ⟨s1, h1, h⟩ := Option.bind_eq_some.1 h
  obtain ⟨s2, h2, h⟩ := Option.bind_eq_some.1 h
  obtain ⟨s3, h3, rfl⟩ := Option.map_eq_some'.1 h
  have a1 := PUT_aligned hσ (by have := hσ.head; omega) h1
  have a2 := PUT_aligned a1 (by omega) h2
  have a3 := PUT_aligned a2 (by unfold NULL; omega) h3
  exact ⟨⟨a3.brk, hb, a3.mem, a3.fail⟩, rfl⟩

theorem remove_aligned {σ σ1 : Heap} (hσ : Aligned σ) {block : Nat}
    (h : remove_from_free_list σ block = some σ1) : Aligned σ1 := by
  unfold remove_from_free_list GET_PREV_b GET_NEXT_b SET_NEXT_b SET_PREV_b at h
  obtain ⟨p, hp, h⟩ := Option.bind_eq_some.1 h
  obtain ⟨n, hn, h⟩ := Option.bind_eq_some.1 h
  obtain ⟨s1, h1, h⟩ := Option.bind_eq_some.1 h
  obtain ⟨n1, hn1, h⟩ := Option.bind_eq_some.1 h
  obtain ⟨p1, hp1, h⟩ := Option.bind_eq_some.1 h
  have hnw := GET_words hσ hn
  by_cases hp0 : p ≠ 0
  · rw [if_pos hp0] at h1
    have a1 := PUT_aligned hσ hnw h1
    exact PUT_aligned a1 (GET_words a1 hp1) h
  · rw [if_neg hp0] at h1
    cases Option.some.inj h1
    have hn1' : n1 = n := by
      have e1 := (GET_some hn1).2
      have e2 := (GET_some hn).2
      rw [e1, e2]
    have h8 := (PUT_some h).1
    have a1 : Aligned { σ with free_list_head := n } :=
      ⟨hσ.brk, ptr_mod hnw (by rw [← hn1']; exact h8), hσ.mem, hσ.fail⟩
    exact PUT_aligned a1 (GET_words a1 hp1) h

theorem put_tags_aligned {σ σ1 : Heap} (hσ : Aligned σ) {block s alloc : Nat}
    (hs : s % 16 = 0) (ha : alloc ≤ 1) (h : put_tags σ block s alloc = some σ1) :
    Aligned σ1 := by
  unfold put_tags at h
  obtain ⟨s1, h1, h⟩ := Option.bind_eq_some.1 h
  obtain ⟨f, _, h⟩ := Option.bind_eq_some.1 h
  exact PUT_aligned (PUT_aligned hσ (set_mod s alloc hs ha) h1) (set_mod s alloc hs ha) h

theorem NEXT_BLK_mod {σ : Heap} {block nb : Nat} (hb : block % 16 = 0)
    (h : NEXT_BLK σ block = some nb) : nb % 16 = 0 := by
  unfold NEXT_BLK at h
  obtain ⟨s, hs, rfl⟩ := Option.map_eq_some'.1 h
  exact padd_mod _ _ hb (GET_SIZE_mod hs)

theorem PREV_BLK_mod {σ : Heap} {block pb : Nat} (hb : block % 16 = 0)
    (h : PREV_BLK σ block = some pb) : pb % 16 = 0 := by
  unfold PREV_BLK at h
  obtain ⟨s, hs, rfl⟩ := Option.map_eq_some'.1 h
  exact psub_mod _ _ hb (GET_SIZE_mod hs)

theorem coalesce_prev_aligned {σ : Heap} (hσ : Aligned σ) {block s : Nat}
    (hb : block % 16 = 0) (hs : s % 16 = 0) {r : Heap × Nat}
    (h : coalesce_prev σ block s = some r) : Aligned r.1 ∧ r.2 % 16 = 0 := by
  unfold coalesce_prev at h
  obtain ⟨pb, hpb, h⟩ := Option.bind_eq_some.1 h
  obtain ⟨ps, hps, h⟩ := Option.bind_eq_some.1 h
  obtain ⟨s1, h1, h⟩ := Option.bind_eq_some.1 h
  obtain ⟨s2, h2, rfl⟩ := Option.map_eq_some'.1 h
  exact ⟨put_tags_aligned (remove_aligned hσ h1) (padd_mod _ _ hs (GET_SIZE_mod hps))
    (Nat.zero_le 1) h2, PREV_BLK_mod hb hpb⟩

theorem coalesce_next_aligned {σ : Heap} (hσ : Aligned σ) {block s : Nat}
    (hb : block % 16 = 0) (hs : s % 16 = 0) {r : Heap × Nat}
    (h : coalesce_next σ block s = some r) : Aligned r.1 ∧ r.2 % 16 = 0 := by
  unfold coalesce_next at h
  obtain ⟨nb, _, h⟩ := Option.bind_eq_some.1 h
  obtain ⟨ns, hns, h⟩ := Option.bind_eq_some.1 h
  obtain ⟨nb1, _, h⟩ := Option.bind_eq_some.1 h
  obtain ⟨s1, h1, h⟩ := Option.bind_eq_some.1 h
  obtain ⟨s2, h2, rfl⟩ := Option.map_eq_some'.1 h
  exact ⟨put_tags_aligned (remove_aligned hσ h1) (padd_mod _ _ hs (GET_SIZE_mod hns))
    (Nat.zero_le 1) h2, hb⟩

theorem coalesce_both_aligned {σ : Heap} (hσ : Aligned σ) {block s : Nat}
    (hb : block % 16 = 0) (hs : s % 16 = 0) {r : Heap × Nat}
    (h : coalesce_both σ block s = some r) : Aligned r.1 ∧ r.2 % 16 = 0 := by
  unfold coalesce_both at h
  obtain ⟨pb, _, h⟩ := Option.bind_eq_some.1 h
  obtain ⟨ps, hps, h⟩ := Option.bind_eq_some.1 h
  obtain ⟨nb, _, h⟩ := Option.bind_eq_some.1 h
  obtain ⟨ns, hns, h⟩ := Option.bind_eq_some.1 h
  obtain ⟨s1, h1, h⟩ := Option.bind_eq_some.1 h
  obtain ⟨nb1, _, h⟩ := Option.bind_eq_some.1 h
  obtain ⟨s2, h2, h⟩ := Option.bind_eq_some.1 h
  obtain ⟨pb2, hpb2, h⟩ := Option.bind_eq_some.1 h
  obtain ⟨s3, h3, rfl⟩ := Option.map_eq_some'.1 h
  exact ⟨put_tags_aligned (remove_aligned (remove_aligned hσ h1) h2)
    (padd_mod _ _ hs (padd_mod _ _ (GET_SIZE_mod hps) (GET_SIZE_mod hns)))
    (Nat.zero_le 1) h3, PREV_BLK_mod hb hpb2⟩

theorem coalesce_aligned {σ : Heap} (hσ : Aligned σ) {block : Nat}
    (hb : block % 16 = 0) {r : Heap × Nat}
    (h : coalesce σ block = some r) : Aligned r.1 ∧ r.2 % 16 = 0 := by
  unfold coalesce at h
  obtain ⟨nb, _, h⟩ := Option.bind_eq_some.1 h
  obtain ⟨na, _, h⟩ := Option.bind_eq_some.1 h
  obtain ⟨pb, _, h⟩ := Option.bind_eq_some.1 h
  obtain ⟨fp, _, h⟩ := Option.bind_eq_some.1 h
  obtain ⟨pa, _, h⟩ := Option.bind_eq_some.1 h
  obtain ⟨s, hs, h⟩ := Option.bind_eq_some.1 h
  obtain ⟨c, hc, h⟩ := Option.bind_eq_some.1 h
  obtain ⟨s1, h1, rfl⟩ := Option.map_eq_some'.1 h
  have hs16 := GET_SIZE_mod hs
  have hcases : Aligned c.1 ∧ c.2 % 16 = 0 := by
    unfold coalesce_cases at hc
    split at hc
    · exact coalesce_prev_aligned hσ hb hs16 hc
    · split at hc
      · exact coalesce_next_aligned hσ hb hs16 hc
      · split at hc
        · exact coalesce_both_aligned hσ hb hs16 hc
        · cases Option.some.inj hc; exact ⟨hσ, hb⟩
  exact ⟨(insert_aligned hcases.1 hcases.2 h1).1, hcases.2⟩

theorem mem_sbrk_aligned {σ : Heap} (hσ : Aligned σ) {s : Nat} (hs : s % 16 = 0) :
    Aligned (mem_sbrk σ s).1 ∧
      (toInt32 (mem_sbrk σ s).2 = -1 ∨ (mem_sbrk σ s).2 % 16 = 0) := by
  unfold mem_sbrk
  split
  · refine ⟨⟨?_, hσ.head, hσ.mem, hσ.fail⟩, Or.inr hσ.brk⟩
    show (σ.brk + s) % 16 = 0
    have := hσ.brk
    omega
  · exact ⟨hσ, hσ.fail⟩

theorem extend_size_mod (words : Nat) : extend_size words % 16 = 0 := by
  unfold extend_size pmul padd WSIZE W64
  simp only
  split <;> split <;> omega

theorem extend_heap_aligned {σ : Heap} (hσ : Aligned σ) {words : Nat} {r : Heap × Nat}
    (h : extend_heap σ words = some r) : Aligned r.1 ∧ r.2 % 16 = 0 := by
  unfold extend_heap at h
  have hs := extend_size_mod words
  obtain ⟨ha, hp⟩ := mem_sbrk_aligned hσ hs
  split at h
  · cases Option.some.inj h
    exact ⟨ha, rfl⟩
  · rename_i hne
    have hp16 := hp.resolve_left hne
    unfold extend_heap_init at h
    obtain ⟨s1, h1, h⟩ := Option.bind_eq_some.1 h
    obtain ⟨nb, _, h⟩ := Option.bind_eq_some.1 h
    obtain ⟨s2, h2, h⟩ := Option.bind_eq_some.1 h
    have a1 := put_tags_aligned ha hs (Nat.zero_le 1) h1
    have a2 := PUT_aligned a1 (set_mod 0 1 rfl (Nat.le_refl 1)) h2
    exact coalesce_aligned a2 hp16 h

theorem find_fit_loop_aligned (asize : Nat) :
    ∀ (fuel : Nat) (σ : Heap) (block : Nat) (r : Heap × Nat), Aligned σ → block % 16 ≤ 1 →
      find_fit_loop asize fuel σ block = some r → Aligned r.1 ∧ r.2 % 16 = 0 := by
  intro fuel
  induction fuel with
  | zero =>
    intro σ block r _ _ h
    rw [find_fit_loop] at h
    exact absurd h (by simp)
  | succ k ih =>
    intro σ block r hσ hb h
    rw [find_fit_loop] at h
    unfold GET_ALLOC at h
    obtain ⟨a, ha, h⟩ := Option.bind_eq_some.1 h
    obtain ⟨w, hw, _⟩ := Option.map_eq_some'.1 ha
    have hb16 : block % 16 = 0 := ptr_mod hb (HDRP_mod8 (GET_some hw).1)
    split at h
    · obtain ⟨s, _, h⟩ := Option.bind_eq_some.1 h
      split at h
      · cases Option.some.inj h
        exact ⟨⟨hσ.brk, hσ.head, hσ.mem, hσ.fail⟩, hb16⟩
      · obtain ⟨n, hn, h⟩ := Option.bind_eq_some.1 h
        exact ih σ n r hσ (GET_words hσ hn) h
    · cases Option.some.inj h
      exact ⟨hσ, rfl⟩

theorem Aligned.of_eq {σ σ1 : Heap} (h : Aligned σ) (hb : σ1.brk = σ.brk)
    (hh : σ1.free_list_head = σ.free_list_head) (hm : σ1.mem = σ.mem)
    (hf : σ1.failval = σ.failval) : Aligned σ1 :=
  ⟨hb ▸ h.brk, hh ▸ h.head, hm ▸ h.mem, hf ▸ h.fail⟩

theorem find_fit_search_aligned {σ : Heap} (hσ : Aligned σ) {asize : Nat} {r : Heap × Nat}
    (h : find_fit_search σ asize = some r) :
    Aligned r.1 ∧ r.2 % 16 = 0 :=
  find_fit_loop_aligned asize (σ.brk + 1) σ σ.free_list_head r hσ
    (by have := hσ.head; omega) h

theorem find_fit_aligned {σ : Heap} (hσ : Aligned σ) {asize : Nat} {r : Heap × Nat}
    (h : find_fit σ asize = some r) : Aligned r.1 ∧ r.2 % 16 = 0 := by
  unfold find_fit at h
  split at h
  · split at h
    · exact extend_heap_aligned hσ h
    · have a : Aligned { σ with time := σ.time + 1 } := Aligned.of_eq hσ rfl rfl rfl rfl
      exact find_fit_search_aligned a h
  · have a : Aligned { σ with time := 0 } := Aligned.of_eq hσ rfl rfl rfl rfl
    exact find_fit_search_aligned a h

theorem place_aligned {σ σ1 : Heap} (hσ : Aligned σ) {block asize : Nat}
    (hb : block % 16 = 0) (ha : asize % 16 = 0) (h : place σ block asize = some σ1) :
    Aligned σ1 := by
  unfold place at h
  obtain ⟨s, hs, h⟩ := Option.bind_eq_some.1 h
  have hs16 := GET_SIZE_mod hs
  split at h
  · obtain ⟨s1, h1, h⟩ := Option.bind_eq_some.1 h
    obtain ⟨s2, h2, h⟩ := Option.bind_eq_some.1 h
    obtain ⟨nb, hnb, h⟩ := Option.bind_eq_some.1 h
    obtain ⟨s3, h3, h⟩ := Option.bind_eq_some.1 h
    obtain ⟨c, hc, rfl⟩ := Option.map_eq_some'.1 h
    have a1 := put_tags_aligned hσ ha (Nat.le_refl 1) h1
    have a2 := remove_aligned a1 h2
    have a3 := put_tags_aligned a2 (psub_mod _ _ hs16 ha) (Nat.zero_le 1) h3
    exact (coalesce_aligned a3 (NEXT_BLK_mod hb hnb) hc).1
  · obtain ⟨s1, h1, h⟩ := Option.bind_eq_some.1 h
    exact remove_aligned (put_tags_aligned hσ hs16 (Nat.le_refl 1) h1) h

theorem malloc_extend_aligned {σ : Heap} (hσ : Aligned σ) {asize : Nat}
    (ha : asize % 16 = 0) {r : Heap × Nat} (h : malloc_extend σ asize = some r) :
    Aligned r.1 ∧ r.2 % 16 = 0 := by
  unfold malloc_extend at h
  obtain ⟨e, he, h⟩ := Option.bind_eq_some.1 h
  obtain ⟨ae, hp⟩ := extend_heap_aligned hσ he
  split at h
  · obtain ⟨s1, h1, rfl⟩ := Option.map_eq_some'.1 h
    exact ⟨place_aligned ae hp ha h1, hp⟩
  · cases Option.some.inj h
    exact ⟨ae, rfl⟩

theorem mm_malloc_aligned {σ : Heap} (hσ : Aligned σ) {size : Nat} {r : Heap × Nat}
    (h : mm_malloc σ size = some r) : Aligned r.1 ∧ r.2 % 16 = 0 := by
  unfold mm_malloc at h
  split at h
  · cases Option.some.inj h
    exact ⟨hσ, rfl⟩
  · obtain ⟨f, hf, h⟩ := Option.bind_eq_some.1 h
    obtain ⟨af, hp⟩ := find_fit_aligned hσ hf
    split at h
    · obtain ⟨s1, h1, rfl⟩ := Option.map_eq_some'.1 h
      exact ⟨place_aligned af hp (adjust_mod size) h1, hp⟩
    · exact malloc_extend_aligned af (adjust_mod size) h

theorem mm_init_aligned {m : Nat → Nat} {lo max_addr failval : Nat} (hlo : lo % 16 = 0)
    (hm : words_ok m) (hf : toInt32 failval = -1 ∨ failval % 16 = 0) {r : Heap × Int}
    (h : mm_init (Heap.fresh m lo max_addr failval) = some r) (hr : r.2 = 0) :
    Aligned r.1 := by
  unfold mm_init at h
  simp only at h
  split at h
  · cases Option.some.inj h
    simp at hr
  · obtain ⟨s1, h1, h⟩ := Option.bind_eq_some.1 h
    obtain ⟨s2, h2, h⟩ := Option.bind_eq_some.1 h
    obtain ⟨s3, h3, h⟩ := Option.bind_eq_some.1 h
    obtain ⟨s4, h4, h⟩ := Option.bind_eq_some.1 h
    obtain ⟨e, he, rfl⟩ := Option.map_eq_some'.1 h
    have a0 : Aligned (Heap.fresh m lo max_addr failval) := ⟨hlo, rfl, hm, hf⟩
    obtain ⟨ab, hp⟩ := mem_sbrk_aligned a0 (show (16 * WSIZE) % 16 = 0 from rfl)
    have hlist : (mem_sbrk (Heap.fresh m lo max_addr failval) (16 * WSIZE)).2 % 16 = 0 := by
      rcases hp with hp | hp
      · have h8 := (PUT_some h1).1
        have hv : (mem_sbrk (Heap.fresh m lo max_addr failval) (16 * WSIZE)).2 % 8 = 0 := h8
        unfold toInt32 at hp
        split at hp <;> omega
      · exact hp
    have a00 : Aligned { (mem_sbrk (Heap.fresh m lo max_addr failval) (16 * WSIZE)).1 with
        list := (mem_sbrk (Heap.fresh m lo max_addr failval) (16 * WSIZE)).2 } :=
      Aligned.of_eq ab rfl rfl rfl rfl
    have a1 := PUT_aligned a00 (by omega) h1
    have a2 := PUT_aligned a1 (set_mod DSIZE 1 rfl (Nat.le_refl 1)) h2
    have a3 := PUT_aligned a2 (set_mod DSIZE 1 rfl (Nat.le_refl 1)) h3
    have a4 := PUT_aligned a3 (set_mod 0 1 rfl (Nat.le_refl 1)) h4
    have hl4 : s4.list % 16 = 0 := by
      rw [(PUT_some h4).2, (PUT_some h3).2, (PUT_some h2).2, (PUT_some h1).2]
      exact hlist
    have a5 : Aligned { s4 with free_list_head := padd s4.list (2 * WSIZE) } :=
      ⟨a4.brk, padd_mod _ _ hl4 rfl, a4.mem, a4.fail⟩
    have := (extend_heap_aligned a5 he).1
    split <;> exact this

theorem mm_free_aligned {σ σ1 : Heap} (hσ : Aligned σ) {ptr : Nat} (hp : ptr % 16 = 0)
    (h : mm_free σ ptr = some σ1) : Aligned σ1 := by
  unfold mm_free at h
  split at h
  · cases Option.some.inj h; exact hσ
  · obtain ⟨size, hs, h⟩ := Option.bind_eq_some.1 h
    obtain ⟨s1, h1, h⟩ := Option.bind_eq_some.1 h
    obtain ⟨c, hc, rfl⟩ := Option.map_eq_some'.1 h
    exact (coalesce_aligned (put_tags_aligned hσ (GET_SIZE_mod hs) (Nat.zero_le 1) h1) hp hc).1

theorem tag_size_of_word {w : Nat} (h : w % 16 ≤ 1) : (w - tagAlloc w) % 16 = 0 := by
  unfold tagAlloc
  rw [Nat.and_one_is_mod]
  omega

/-! ## Claims settled by running the code -/

/-- Claim C1 fails on the code: after `mm_init`, the request `2^64 - 1` has
adjusted size 16 (the rounding overflows), `mm_malloc` returns the non-null
address 4224, and the block there has size 32, a usable region of 16 bytes. -/
theorem malloc_size_max_block_too_small :
    adjust (2 ^ 64 - 1) = 16 ∧
    (session [Call.malloc (2 ^ 64 - 1)]).map (fun r => r.2) = some [4224] ∧
    (session [Call.malloc (2 ^ 64 - 1)]).bind (fun r => GET_SIZE r.1 (HDRP 4224)) = some 32 := by
  refine ⟨by rfl, by rfl, by rfl⟩

/-- Claim C2 fails on the code: the request `2^64 - 31` has adjusted size 0;
`mm_malloc` returns the address 4352 of a block that is still tagged free and
still is the head of the free list, so the link words of a free-list block lie
in a live payload, and the next `mm_malloc(8)` returns the same address. -/
theorem malloc_returns_block_on_free_list :
    adjust (2 ^ 64 - 31) = 0 ∧
    (session [Call.malloc 100, Call.malloc (2 ^ 64 - 31)]).map (fun r => r.2)
      = some [4224, 4352] ∧
    (session [Call.malloc 100, Call.malloc (2 ^ 64 - 31)]).map
      (fun r => (r.1.free_list_head, GET_ALLOC r.1 (HDRP 4352))) = some (4352, some 0) ∧
    (session [Call.malloc 100, Call.malloc (2 ^ 64 - 31), Call.malloc 8]).map (fun r => r.2)
      = some [4224, 4352, 4352] := by
  refine ⟨by rfl, by rfl, by rfl, by rfl⟩

/-- Claim C4 fails on the code: the block at 4224 has size 128, a payload of
112 bytes, yet `mm_realloc(4224, 100)` copies `block_size = 64` bytes, not
`min(100, 112) = 100`; the word the client stored at offset 64 is not in the
block at the returned address 4352. -/
theorem realloc_copies_half_the_block :
    (session [Call.malloc 100]).bind (fun r => GET_SIZE r.1 (HDRP 4224)) = some 128 ∧
    (session [Call.malloc 100]).bind (fun r => copySize r.1 4224 100) = some 64 ∧
    (realloc_session 43981).map Outcome.addr = some (some 4352) ∧
    (realloc_session 43981).bind (fun o => GET o.heap (4352 + 64)) = some 0 := by
  refine ⟨by rfl, by rfl, by rfl, by rfl⟩

/-- Claim C6: in every state `mm_malloc(0)` returns `NULL` and the state it
leaves is the state it was called in, all fields included. -/
theorem malloc_zero_is_noop (σ : Heap) : mm_malloc σ 0 = some (σ, NULL) := by
  simp [mm_malloc]

/-- Claim C7 fails on the code: after the block at 4352 has been returned
while on the free list, releasing it inserts it a second time; the free list
then runs from 4352 to 4352 again, without end. -/
theorem free_list_cycle_after_release :
    (session [Call.malloc 100, Call.malloc (2 ^ 64 - 31), Call.free 4352]).map
      (fun r => free_list_take 3 r.1 r.1.free_list_head) = some [4352, 4352, 4352] ∧
    (session [Call.malloc 100, Call.malloc (2 ^ 64 - 31), Call.free 4352]).map
      (fun r => blocks_take 5 r.1 (first_block r.1))
      = some [(4224, 128, 1), (4352, 65440, 0), (69792, 0, 1)] := by
  refine ⟨by rfl, by rfl⟩

/-- Claim C8 fails on the code: after this valid call sequence the blocks at
4448 and 69792 are adjacent in address order and both are tagged free. -/
theorem adjacent_free_blocks_reachable :
    (session [Call.malloc 65424, Call.malloc (2 ^ 64 - 31), Call.free 4224, Call.malloc 200,
        Call.free 69664, Call.malloc 65520]).map (fun r => r.2)
      = some [4224, 69664, 4224, 69664] ∧
    (session [Call.malloc 65424, Call.malloc (2 ^ 64 - 31), Call.free 4224, Call.malloc 200,
        Call.free 69664, Call.malloc 65520]).map (fun r => blocks_take 5 r.1 (first_block r.1))
      = some [(4224, 224, 1), (4448, 65344, 0), (69792, 65536, 0), (135328, 0, 1)] := by
  refine ⟨by rfl, by rfl⟩

/-- Claim C9 fails on the code: after the first call sequence the free list,
as `find_fit` walks it, has a third entry at 65424, inside the managed range,
whose header is tagged free and encodes the size 0; after the second call
sequence the walk over the blocks in address order meets, at 8736, inside the
managed range that ends at 69792, a header tagged free that encodes the size
0. -/
theorem free_block_of_size_zero :
    (session [Call.malloc 100, Call.malloc (2 ^ 64 - 31), Call.free 4352, Call.free 4224,
        Call.malloc 120]).map (fun r => r.2) = some [4224, 4352, 4224] ∧
    (session [Call.malloc 100, Call.malloc (2 ^ 64 - 31), Call.free 4352, Call.free 4224,
        Call.malloc 120]).map (fun r => free_list_take 5 r.1 r.1.free_list_head)
      = some [4368, 4352, 65424] ∧
    (session [Call.malloc 100, Call.malloc (2 ^ 64 - 31), Call.free 4352, Call.free 4224,
        Call.malloc 120]).map (fun r => (GET_SIZE r.1 (HDRP 65424), GET_ALLOC r.1 (HDRP 65424)))
      = some (some 0, some 0) ∧
    (session [Call.malloc 100, Call.malloc (2 ^ 64 - 31), Call.free 4224, Call.malloc 120,
        Call.free 4352]).map (fun r => r.2) = some [4224, 4352, 4224] ∧
    (session [Call.malloc 100, Call.malloc (2 ^ 64 - 31), Call.free 4224, Call.malloc 120,
        Call.free 4352]).map (fun r => (blocks_take 5 r.1 (first_block r.1), r.1.brk))
      = some ([(4224, 144, 1), (4368, 4368, 0), (8736, 0, 0)], 69792) := by
  refine ⟨by rfl, by rfl, by rfl, by rfl, by rfl⟩

/-- The scenario of claim C10 at its concrete sizes 100, 200 and 50: the third
allocation returns the address of the first. -/
theorem reuse_scenario_concrete :
    (session [Call.malloc 100, Call.malloc 200, Call.free 4224, Call.malloc 50]).map
      (fun r => r.2) = some [4224, 4352, 4224] := by
  rfl

/-- Claim C10 fails on the code for `y = 2^64 - 1`: with `x = 100` the block
given to `a` has size 128 and the adjusted size for `z = 50` is 80, but the
adjusted size for `y` is 16; `find_fit` returns the free block at 4352, `place`
writes the footer of a 16-byte block at 4352 itself, `remove_from_free_list`
reads that word, 17, as the `prev` link and stores through it, at address 25,
outside the managed range: the call `mm_malloc(y)` has no defined result. -/
theorem reuse_scenario_undefined :
    (session [Call.malloc 100]).bind (fun r => GET_SIZE r.1 (HDRP 4224)) = some 128 ∧
    adjust 50 = 80 ∧ adjust (2 ^ 64 - 1) = 16 ∧
    ((session [Call.malloc 100]).bind fun r => find_fit r.1 16).map (fun r => r.2)
      = some 4352 ∧
    (((session [Call.malloc 100]).bind fun r => find_fit r.1 16).bind fun r =>
      (put_tags r.1 4352 16 1).bind fun σ => GET_PREV_b σ 4352) = some 17 ∧
    (session [Call.malloc 100, Call.malloc (2 ^ 64 - 1)]).isNone = true := by
  refine ⟨by rfl, by rfl, by rfl, by rfl, by rfl, by rfl⟩

/-! ## Alignment of returned addresses (claim C3) -/

/-- Claim C3 fails on the code: on a range that starts at the 16-aligned
address 4096 but holds left-over data, `mm_init` succeeds (`coalesce` reads the
unwritten word before the first block as the footer of a free block) and
`mm_malloc(50)` returns 4152, which is 8 modulo 16. -/
theorem malloc_unaligned_on_dirty_range :
    dirty_heap.lo % 16 = 0 ∧
    (mm_init dirty_heap).map (fun r => r.2) = some 0 ∧
    ((mm_init dirty_heap).bind fun r => mm_malloc r.1 50).map (fun r => r.2) = some 4152 ∧
    4152 % 16 = 8 := by
  refine ⟨by rfl, by rfl, by rfl, by rfl⟩

/-- A second input on which the statement of claim C3 fails, on the zero-filled
range of `heap0`: the request `mm_malloc(2^64 - 31)` returns the address 4352
of a block that is still the head of the free list; the client stores four
words into that allocation; the next request, `mm_malloc(496)`, follows the
stored `next` link and returns 4376, which is 8 modulo 16. -/
theorem malloc_unaligned_after_client_stores :
    heap0.lo % 16 = 0 ∧
    (session [Call.malloc 100, Call.malloc 240, Call.malloc 1000, Call.free 4352,
      Call.malloc (2 ^ 64 - 31)]).map (fun r => (r.2, r.1.free_list_head))
      = some ([4224, 4352, 4608, 4352], 4352) ∧
    client_store_run.map (fun r => r.2) = some 4376 ∧
    4376 % 16 = 8 := by
  refine ⟨by rfl, by rfl, by rfl, by rfl⟩

/-! ## Resizing with a null address (claim C5) -/

/-- Claim C5 fails on the code: in the state left by `mm_init`, `mm_malloc(8)`
returns 4224, whereas `mm_realloc(NULL, 8)` has no defined result: it has no
test of `ptr`, and after its own `mm_malloc` it reads the tag word at
`NULL - 8`, outside the managed range. -/
theorem realloc_null_reads_outside :
    (mm_malloc init_state 8).map (fun r => r.2) = some 4224 ∧
    (mm_realloc init_state NULL 8).isNone = true := by
  refine ⟨by rfl, by rfl⟩

/-- Whenever the `mm_malloc` of `mm_realloc(NULL, n)` returns an address, in a
range that ends below `2^64`, the call has no defined result: the read of the
tag word at `NULL - 8` is outside the managed range. -/
theorem realloc_null_undefined (σ σ1 : Heap) (n p : Nat)
    (h : mm_malloc σ n = some (σ1, p)) (hp : p ≠ NULL) (hb : σ1.brk < 2 ^ 64) :
    mm_realloc σ NULL n = none := by
  have hv : σ1.valid (psub NULL 8) = false := by
    have e : psub NULL 8 = 2 ^ 64 - 8 := by rfl
    rw [e]
    unfold Heap.valid
    simp only [Bool.and_eq_false_iff, decide_eq_false_iff_not]
    right
    omega
  have hg : GET σ1 (psub NULL 8) = none := by
    unfold GET
    rw [hv]
    rfl
  unfold mm_realloc
  rw [h, Option.some_bind]
  show (if p = NULL then _ else (copySize σ1 NULL n).bind _) = none
  rw [if_neg hp]
  unfold copySize
  rw [hg]
  rfl

/-- In the state left by `mm_init`, `mm_malloc(0)` returns `NULL` and
`mm_realloc(NULL, 0)` returns no address: it ends the process with `exit(1)`,
the exit the source takes when its `mm_malloc` fails. -/
theorem realloc_null_zero_exits :
    (mm_malloc init_state 0).map (fun r => r.2) = some NULL ∧
    (mm_realloc init_state NULL 0).map Outcome.addr = some none := by
  refine ⟨by rfl, by rfl⟩

/-- Whenever `mm_malloc(n)` returns `NULL`, `mm_realloc(ptr, n)` ends the
process with `exit(1)`, in exactly the state `mm_malloc(n)` leaves, whatever
`ptr` is. -/
theorem realloc_exits_when_malloc_fails (σ σ1 : Heap) (ptr n : Nat)
    (h : mm_malloc σ n = some (σ1, NULL)) :
    mm_realloc σ ptr n = some (Outcome.exited σ1) := by
  unfold mm_realloc
  rw [h]
  rfl

/-! ## Failure of the bootstrap growth (claim C12) -/

/-- Claim C12 fails on the code.  With the failure value `(void *)-1`: when
the 16-word request is refused, `mm_init` compares the result with `NULL` only
and stores through it, so it has no defined result; when only the 4-word
request is refused it returns `-1`.  With the failure value `NULL`: a refused
16-word request gives `-1`, but a refused 4-word request passes the test
`(int)block == -1` of `extend_heap`, which then stores through `NULL - 8`. -/
theorem init_misses_one_failure :
    (mm_init (small_heap 64 (2 ^ 64 - 1))).isNone = true ∧
    (mm_init (small_heap 128 (2 ^ 64 - 1))).map (fun r => r.2) = some (-1) ∧
    (mm_init (small_heap 64 0)).map (fun r => r.2) = some (-1) ∧
    (mm_init (small_heap 128 0)).isNone = true ∧
    (mm_init (small_heap 160 (2 ^ 64 - 1))).map (fun r => r.2) = some 0 := by
  refine ⟨by rfl, by rfl, by rfl, by rfl, by rfl⟩

/-! ## The split threshold of `place` (claim C13) -/

/-- Claim C13 fails on the code: the free block at 4224 has size 128 and is
the head of the free list; `place(4224, 80)` leaves a remainder of 48 bytes,
which is at least 32, yet it does not split: the block ends up allocated with
size 128.  The threshold of the code is `16 * WSIZE = 128`. -/
theorem place_keeps_remainder_of_48 :
    reuse_state.free_list_head = 4224 ∧
    GET reuse_state (HDRP 4224) = some 128 ∧
    (place reuse_state 4224 80).bind (fun σ => GET σ (HDRP 4224)) = some 129 ∧
    (place reuse_state 4224 80).bind (fun σ => FTRP σ 4224) = some 4336 ∧
    (place reuse_state 4224 80).bind (fun σ => GET σ 4336) = some 129 ∧
    16 * WSIZE = 128 := by
  refine ⟨by rfl, by rfl, by rfl, by rfl, by rfl, by rfl⟩

/-! ## The seeding growth and the block chain (claim C16) -/

/-- Claim C16 fails on the code for the seeding growth: before it the range
is `[4096, 4224)` and the epilogue tag written by `mm_init` is at 4120; the
header of the new 32-byte block is written at 4216, the last word of the old
range, and the tag at 4120 stays.  The walk from the prologue by block sizes
is the prologue, then the tag at 4120, of size 0: it ends there, not at the
end 4256 of the range, and it does not visit the block at 4224. -/
theorem seeding_growth_leaves_epilogue :
    (mem_sbrk heap0 (16 * WSIZE)).1.brk = 4224 ∧
    GET init_state 4120 = some (set 0 1) ∧
    GET init_state 4216 = some (set 32 0) ∧
    GET init_state 4248 = some (set 0 1) ∧
    init_state.brk = 4256 ∧
    blocks_take 5 init_state (padd init_state.list (2 * WSIZE)) = [(4112, 16, 1), (4128, 0, 1)] ∧
    blocks_take 5 init_state (first_block init_state) = [(4224, 32, 0), (4256, 0, 1)] := by
  refine ⟨by rfl, by rfl, by rfl, by rfl, by rfl, by rfl, by rfl⟩

/-! ## The footer of the prologue (claim C17) -/

/-- Claim C17 fails on the code: `mm_init` writes `set(DSIZE, 1) = 17` into the
header (4104) and the footer (4112) of the prologue, and makes the footer
address the head of the free list; the seeding `coalesce` then inserts the
block 4224, and `insert_in_free_list` stores 4224 as the `prev` link of the old
head, over the footer of the prologue. -/
theorem prologue_footer_overwritten :
    set DSIZE 1 = 17 ∧
    GET init_state (padd init_state.list (1 * WSIZE)) = some 17 ∧
    GET init_state (padd init_state.list (2 * WSIZE)) = some 4224 ∧
    init_state.free_list_head = 4224 := by
  refine ⟨by rfl, by rfl, by rfl, by rfl⟩

/-! ## The consistency checker (claim C18) -/

/-- Claim C18 fails on the code: in the state left by `mm_init`, `list` is the
first address of the range, and the first read of `mm_checkheap`, of the word
at `HDRP(list) = list - 8`, lies outside the managed range: the call has no
defined result, whatever the value of its unassigned variable `block`. -/
theorem checkheap_reads_before_range (block : Nat) :
    init_state.list = init_state.lo ∧ Heap.valid init_state (HDRP init_state.list) = false ∧
    mm_checkheap init_state block = none := by
  refine ⟨by rfl, by rfl, by rfl⟩

/-! ## The cyclic free list (claim C20) -/

/-- A search that starts at a free block too small for the request whose
`next` link is the block itself never ends: no amount of fuel gives a
result. -/
theorem find_fit_loop_self_link (asize : Nat) (σ : Heap) (b s : Nat)
    (ha : GET_ALLOC σ (HDRP b) = some 0) (hs : GET_SIZE σ (HDRP b) = some s) (hlt : s < asize)
    (hn : GET_NEXT_b σ b = some b) (fuel : Nat) : find_fit_loop asize fuel σ b = none := by
  have hle : ¬ asize ≤ s := by omega
  induction fuel with
  | zero => rfl
  | succ k ih =>
    have step : find_fit_loop asize (k + 1) σ b = find_fit_loop asize k σ b := by
      rw [find_fit_loop, ha, Option.some_bind, if_pos rfl, hs, Option.some_bind, if_neg hle, hn,
        Option.some_bind]
    rw [step, ih]

/-- Claim C20 fails on the code: in the state reached by `mm_init`,
`mm_malloc(100)`, `p = mm_malloc(2^64 - 31)`, `mm_free(p)`, the head of the free
list is 4352 and the `next` link of 4352 is 4352: the chain never reaches the
prologue, and the search loop of `find_fit` for 70000 bytes has no result for
any number of iterations. -/
theorem free_list_chain_cyclic (fuel : Nat) :
    cyclic_state.free_list_head = 4352 ∧ GET_NEXT_b cyclic_state 4352 = some 4352 ∧
    find_fit_loop 70000 fuel cyclic_state 4352 = none :=
  ⟨by rfl, by rfl,
    find_fit_loop_self_link 70000 cyclic_state 4352 65440 (by rfl) (by rfl) (by decide)
      (by rfl) fuel⟩

/-! ## First fit (claim C14) -/


theorem FreeList.congr {σ σ1 : Heap} (hm : σ1.mem = σ.mem) (hl : σ1.lo = σ.lo)
    (hb : σ1.brk = σ.brk) {b : Nat} {L : List Nat} (h : FreeList σ b L) : FreeList σ1 b L := by
  have hG : ∀ x, GET σ1 x = GET σ x := by
    intro x; unfold GET Heap.valid; rw [hm, hl, hb]
  have hA : ∀ x, GET_ALLOC σ1 x = GET_ALLOC σ x := by intro x; unfold GET_ALLOC; rw [hG]
  have hN : ∀ x, GET_NEXT_b σ1 x = GET_NEXT_b σ x := by intro x; unfold GET_NEXT_b; rw [hG]
  induction h with
  | nil block a h1 h2 => exact FreeList.nil block a (by rw [hA]; exact h1) h2
  | cons block n L h1 h2 _ ih =>
    exact FreeList.cons block n L (by rw [hA]; exact h1) (by rw [hN]; exact h2) ih

theorem HDRP_congr {b1 b2 : Nat} (h : HDRP b1 = HDRP b2) : padd b1 WSIZE = padd b2 WSIZE := by
  unfold HDRP psub padd WSIZE W64 at *; omega

/-- The chain is a function of the residue of its first block: two chains
whose first headers coincide have the same length. -/
theorem FreeList.length_unique {σ : Heap} {b1 : Nat} {L1 : List Nat} (h1 : FreeList σ b1 L1) :
    ∀ (b2 : Nat) (L2 : List Nat), FreeList σ b2 L2 → HDRP b1 = HDRP b2 →
      L1.length = L2.length := by
  induction h1 with
  | nil block a ha hne =>
    intro b2 L2 h2 he
    cases h2 with
    | nil _ _ _ _ => rfl
    | cons _ n L h0 _ _ =>
      rw [he, h0] at ha
      exact absurd (Option.some.inj ha).symm hne
  | cons block n L h0 hn _ ih =>
    intro b2 L2 h2 he
    cases h2 with
    | nil _ a ha hne =>
      rw [← he, h0] at ha
      exact absurd (Option.some.inj ha).symm hne
    | cons _ n2 L2 _ hn2 hL2 =>
      have : n = n2 := by
        unfold GET_NEXT_b at hn hn2
        rw [HDRP_congr he, hn2] at hn
        exact (Option.some.inj hn).symm
      subst this
      simp only [List.length_cons]
      rw [ih n L2 hL2 rfl]

theorem FreeList.suffix {σ : Heap} {b : Nat} {L : List Nat} (h : FreeList σ b L) :
    ∀ x ∈ L, ∃ Lx, FreeList σ x Lx ∧ Lx.length ≤ L.length := by
  induction h with
  | nil _ _ _ _ => intro x hx; simp at hx
  | cons block n L h0 hn hL ih =>
    intro x hx
    rcases List.mem_cons.1 hx with rfl | hx
    · exact ⟨x :: L, FreeList.cons x n L h0 hn hL, Nat.le_refl _⟩
    · obtain ⟨Lx, h1, h2⟩ := ih x hx
      exact ⟨Lx, h1, by simp only [List.length_cons]; omega⟩

theorem FreeList.nodup {σ : Heap} {b : Nat} {L : List Nat} (h : FreeList σ b L) :
    (L.map HDRP).Nodup := by
  induction h with
  | nil _ _ _ _ => simp
  | cons block n L h0 hn hL ih =>
    rw [List.map_cons, List.nodup_cons]
    refine ⟨?_, ih⟩
    intro hmem
    obtain ⟨x, hx, he⟩ := List.mem_map.1 hmem
    obtain ⟨Lx, h1, h2⟩ := hL.suffix x hx
    have := h1.length_unique block (block :: L) (FreeList.cons block n L h0 hn hL) he
    simp only [List.length_cons] at this
    omega

theorem GET_ALLOC_lt {σ : Heap} {x a : Nat} (h : GET_ALLOC σ x = some a) : x + 8 ≤ σ.brk := by
  unfold GET_ALLOC GET at h
  split at h
  · rename_i hv
    simp only [Heap.valid, Bool.and_eq_true, beq_iff_eq, decide_eq_true_eq] at hv
    omega
  · simp at h

theorem FreeList.headers_lt {σ : Heap} {b : Nat} {L : List Nat} (h : FreeList σ b L) :
    ∀ x ∈ L.map HDRP, x < σ.brk := by
  induction h with
  | nil _ _ _ _ => intro x hx; simp at hx
  | cons block n L h0 _ _ ih =>
    intro x hx
    rw [List.map_cons] at hx
    rcases List.mem_cons.1 hx with he | hx
    · rw [he]; have := GET_ALLOC_lt h0; omega
    · exact ih x hx

/-- A free list has fewer entries than the range has bytes, so the fuel of
`find_fit_search` is enough to walk it. -/
theorem FreeList.length_lt {σ : Heap} {b : Nat} {L : List Nat} (h : FreeList σ b L) :
    L.length < σ.brk + 1 := by
  have hsub : L.map HDRP ⊆ List.range σ.brk := by
    intro x hx
    exact List.mem_range.2 (h.headers_lt x hx)
  have := (List.subperm_of_subset h.nodup hsub).length_le
  simp only [List.length_map, List.length_range] at this
  omega

/-- The result of the search loop on a free list, given enough fuel. -/
theorem find_fit_loop_first_fit (a : Nat) {σ : Heap} {b : Nat} {L : List Nat}
    (h : FreeList σ b L) : ∀ fuel, L.length < fuel →
      find_fit_loop a fuel σ b = some (match first_fit σ a L with
        | some blk => ({ σ with l_s := toInt32 a }, blk)
        | none => (σ, NULL)) := by
  induction h with
  | nil block al h0 hne =>
    intro fuel hf
    obtain ⟨k, rfl⟩ : ∃ k, fuel = k + 1 := ⟨fuel - 1, by omega⟩
    rw [find_fit_loop, h0, Option.some_bind, if_neg hne]
    rfl
  | cons block n L h0 hn _ ih =>
    intro fuel hf
    simp only [List.length_cons] at hf
    obtain ⟨k, rfl⟩ : ∃ k, fuel = k + 1 := ⟨fuel - 1, by omega⟩
    rw [find_fit_loop, h0, Option.some_bind, if_pos rfl]
    have hsz : ∃ s, GET_SIZE σ (HDRP block) = some s := by
      unfold GET_ALLOC at h0
      obtain ⟨w, hw, _⟩ := Option.map_eq_some'.1 h0
      exact ⟨tagSize w, by unfold GET_SIZE; rw [hw]; rfl⟩
    obtain ⟨s, hs⟩ := hsz
    rw [hs, Option.some_bind]
    by_cases hle : a ≤ s
    · rw [if_pos hle]
      simp only [first_fit, hs, Option.getD_some, if_pos hle]
    · rw [if_neg hle, hn, Option.some_bind, ih k (by omega)]
      simp only [first_fit, hs, Option.getD_some, if_neg hle]

theorem first_fit_none_iff (σ : Heap) (a : Nat) (L : List Nat) :
    first_fit σ a L = none ↔ ∀ b ∈ L, ¬ a ≤ (GET_SIZE σ (HDRP b)).getD 0 := by
  induction L with
  | nil => simp [first_fit]
  | cons b L ih =>
    simp only [first_fit, List.mem_cons, forall_eq_or_imp]
    by_cases hle : a ≤ (GET_SIZE σ (HDRP b)).getD 0
    · simp [hle]
    · simp [hle, ih]

theorem first_fit_some {σ : Heap} {a : Nat} {L : List Nat} {blk : Nat}
    (h : first_fit σ a L = some blk) : blk ∈ L := by
  induction L with
  | nil => simp [first_fit] at h
  | cons b L ih =>
    simp only [first_fit] at h
    split at h
    · cases Option.some.inj h; exact List.mem_cons_self _ _
    · exact List.mem_cons_of_mem _ (ih h)

theorem FreeList.ne_null {σ : Heap} (hb : σ.brk < W64) {b : Nat} {L : List Nat}
    (h : FreeList σ b L) : ∀ x ∈ L, x ≠ NULL := by
  induction h with
  | nil _ _ _ _ => intro x hx; simp at hx
  | cons block n L h0 _ _ ih =>
    intro x hx
    rcases List.mem_cons.1 hx with rfl | hx
    · intro hnull
      have hz : x = 0 := hnull
      have := GET_ALLOC_lt h0
      rw [hz] at this
      unfold HDRP psub WSIZE W64 at this
      unfold W64 at hb
      omega
    · exact ih x hx

theorem first_fit_congr {σ σ1 : Heap} (hm : σ1.mem = σ.mem) (hl : σ1.lo = σ.lo)
    (hb : σ1.brk = σ.brk) (a : Nat) (L : List Nat) : first_fit σ1 a L = first_fit σ a L := by
  have hS : ∀ x, GET_SIZE σ1 x = GET_SIZE σ x := by
    intro x; unfold GET_SIZE GET Heap.valid; rw [hm, hl, hb]
  induction L with
  | nil => rfl
  | cons b L ih => simp only [first_fit, hS, ih]

/-- The search of `find_fit` on a state whose free list is `L`: it returns the
first fit and changes at most the counter `l_s`. -/
theorem find_fit_search_first_fit {σ : Heap} {a : Nat} {L : List Nat}
    (hL : FreeList σ σ.free_list_head L) :
    (find_fit_search σ a).map (fun r => r.2) = some ((first_fit σ a L).getD NULL) ∧
    (find_fit_search σ a).map (fun r => (r.1.mem, r.1.lo, r.1.brk, r.1.free_list_head))
      = some (σ.mem, σ.lo, σ.brk, σ.free_list_head) := by
  unfold find_fit_search
  rw [find_fit_loop_first_fit a hL (σ.brk + 1) hL.length_lt]
  cases first_fit σ a L <;> exact ⟨rfl, rfl⟩

/-- Claim C14, amended: in a state whose chain of `next` links from
`free_list_head` is a finite list `L` of free blocks ending at a block tagged
allocated, and in which the repeated-request gate of `find_fit` is closed (the
last served size differs from `(int)a`, or the counter `time` is at most 60),
`find_fit(a)` returns the first block of `L`, in list order, whose size is at
least `a`, returns `NULL` if and only if no block of `L` has size at least
`a`, and changes neither the memory, nor the managed range, nor the head of
the free list. -/
theorem find_fit_is_first_fit (σ : Heap) (a : Nat) (L : List Nat)
    (hL : FreeList σ σ.free_list_head L) (hb : σ.brk < W64)
    (hgate : ¬ (σ.l_s = toInt32 a ∧ σ.time > 60)) :
    (find_fit σ a).map (fun r => r.2) = some ((first_fit σ a L).getD NULL) ∧
    ((first_fit σ a L).getD NULL = NULL ↔
      ∀ b ∈ L, ¬ a ≤ (GET_SIZE σ (HDRP b)).getD 0) ∧
    (find_fit σ a).map (fun r => (r.1.mem, r.1.lo, r.1.brk, r.1.free_list_head))
      = some (σ.mem, σ.lo, σ.brk, σ.free_list_head) := by
  have hiff : ((first_fit σ a L).getD NULL = NULL ↔
      ∀ b ∈ L, ¬ a ≤ (GET_SIZE σ (HDRP b)).getD 0) := by
    rw [← first_fit_none_iff]
    cases hf : first_fit σ a L with
    | none => simp
    | some blk =>
      have := hL.ne_null hb blk (first_fit_some hf)
      simp [this]
  have key : ∀ σ1 : Heap, σ1.mem = σ.mem → σ1.lo = σ.lo → σ1.brk = σ.brk →
      σ1.free_list_head = σ.free_list_head →
      (find_fit_search σ1 a).map (fun r => r.2) = some ((first_fit σ a L).getD NULL) ∧
      (find_fit_search σ1 a).map (fun r => (r.1.mem, r.1.lo, r.1.brk, r.1.free_list_head))
        = some (σ.mem, σ.lo, σ.brk, σ.free_list_head) := by
    intro σ1 hm hl hbr hh
    have hL1 : FreeList σ1 σ1.free_list_head L := by
      rw [hh]; exact FreeList.congr hm hl hbr hL
    have := find_fit_search_first_fit (a := a) hL1
    rw [first_fit_congr hm hl hbr, hm, hl, hbr, hh] at this
    exact this
  unfold find_fit
  by_cases h1 : σ.l_s = toInt32 a
  · rw [if_pos h1]
    have h2 : ¬ σ.time > 60 := fun h => hgate ⟨h1, h⟩
    rw [if_neg h2]
    obtain ⟨k1, k2⟩ := key { σ with time := σ.time + 1 } rfl rfl rfl rfl
    exact ⟨k1, hiff, k2⟩
  · rw [if_neg h1]
    obtain ⟨k1, k2⟩ := key { σ with time := 0 } rfl rfl rfl rfl
    exact ⟨k1, hiff, k2⟩

/-- The amended claim C14 at a concrete input: in `reuse_state` the free list
is 4224 (128 bytes), 4576, and `find_fit(80)` returns 4224. -/
theorem find_fit_is_first_fit_witness :
    FreeList reuse_state reuse_state.free_list_head [4224, 4576] ∧
    (find_fit reuse_state 80).map (fun r => r.2)
      = some ((first_fit reuse_state 80 [4224, 4576]).getD NULL) ∧
    (first_fit reuse_state 80 [4224, 4576]).getD NULL = 4224 :=
  ⟨FreeList.cons 4224 4576 [4576] (by rfl) (by rfl)
      (FreeList.cons 4576 4112 [] (by rfl) (by rfl) (FreeList.nil 4112 1 (by rfl) (by decide))),
    (find_fit_is_first_fit reuse_state 80 [4224, 4576]
      (FreeList.cons 4224 4576 [4576] (by rfl) (by rfl)
        (FreeList.cons 4576 4112 [] (by rfl) (by rfl)
          (FreeList.nil 4112 1 (by rfl) (by decide))))
      (by decide) (fun h => absurd h.2 (by decide))).1,
    by rfl⟩

set_option maxRecDepth 1000000 in
/-- Claim C14 fails on the code as stated: after `mm_init` and 62 cycles
`p = mm_malloc(8); mm_free(p);` the counter `time` is 61 and the last served
size is 32; the free list is the one block 4224 of 32 bytes and the range ends
at 4256.  `find_fit(32)` then grows the range to 4288 instead of searching, and
`find_fit(2^32 + 32)`, whose size is 32 as an `int`, returns the block 4224, of
64 bytes, although no block is large enough. -/
theorem find_fit_gate_grows_range :
    (gate_state.time, gate_state.l_s, gate_state.brk) = (61, 32, 4256) ∧
    free_list_take 3 gate_state gate_state.free_list_head = [4224] ∧
    GET_SIZE gate_state (HDRP 4224) = some 32 ∧
    (find_fit gate_state 32).map (fun r => (r.2, r.1.brk)) = some (4224, 4288) ∧
    (find_fit gate_state (2 ^ 32 + 32)).map (fun r => (r.2, GET_SIZE r.1 (HDRP r.2)))
      = some (4224, some 64) := by
  refine ⟨by rfl, by rfl, by rfl, by rfl, by rfl⟩

/-! ## Tags as arithmetic -/

theorem and_low_mask (r : Nat) (h : r < 16) : r &&& (2 ^ 64 - 16) = 0 := by
  interval_cases r <;> rfl

theorem tagSize_eq (w : Nat) (h : w < 2 ^ 64) : tagSize w = w - w % 16 := by
  have h16 := tagSize_mod w
  have hle : tagSize w ≤ w := Nat.and_le_left
  have hM : (2 ^ 64 - 16) ||| 15 = 2 ^ 64 - 1 := by rfl
  have h1 : w &&& (2 ^ 64 - 1) = w := by
    rw [Nat.and_pow_two_sub_one_eq_mod]; exact Nat.mod_eq_of_lt h
  have h2 : w &&& 15 = w % 16 := Nat.and_pow_two_sub_one_eq_mod w 4
  have h3 : w = (w &&& (2 ^ 64 - 16)) ||| (w &&& 15) := by
    rw [← Nat.and_or_distrib_left, hM, h1]
  have h4 : tagSize w = w &&& (2 ^ 64 - 16) := rfl
  obtain ⟨k, hk⟩ : ∃ k, w &&& (2 ^ 64 - 16) = 2 ^ 4 * k :=
    ⟨(w &&& (2 ^ 64 - 16)) / 16, by rw [← h4]; omega⟩
  rw [hk, h2, ← Nat.mul_add_lt_is_or (by omega : w % 16 < 2 ^ 4)] at h3
  rw [h4, hk]
  omega

theorem tagAlloc_eq (w : Nat) : tagAlloc w = w % 2 := Nat.and_one_is_mod w

theorem set_eq_add (s a : Nat) (hs : s % 16 = 0) (ha : a ≤ 1) : set s a = s + a := by
  unfold set
  obtain ⟨k, rfl⟩ : ∃ k, s = 2 ^ 4 * k := ⟨s / 16, by omega⟩
  rw [Nat.mul_add_lt_is_or (by omega : a < 2 ^ 4)]

/-! ## Execution on a state given by its fields -/

theorem upd_eq (m : Nat → Nat) (a v x : Nat) (h : x = a) : upd m a v x = v := by
  unfold upd; rw [if_pos h]

theorem upd_ne (m : Nat → Nat) (a v x : Nat) (h : x ≠ a) : upd m a v x = m x := by
  unfold upd; rw [if_neg h]

theorem padd_eq (a b : Nat) (h : a + b < 2 ^ 64) : padd a b = a + b := by
  unfold padd W64; exact Nat.mod_eq_of_lt h

theorem psub_eq (a b : Nat) (h1 : b ≤ a) (h2 : a < 2 ^ 64) : psub a b = a - b := by
  unfold psub W64; omega

theorem GET_mk (m : Nat → Nat) (lo B mx f li hd : Nat) (ls t : Int) (x : Nat)
    (h8 : x % 8 = 0) (hl : lo ≤ x) (hb : x + 8 ≤ B) :
    GET ⟨m, lo, B, mx, f, li, hd, ls, t⟩ x = some (m x) := by
  unfold GET Heap.valid
  simp [h8, hl, hb]

theorem PUT_mk (m : Nat → Nat) (lo B mx f li hd : Nat) (ls t : Int) (x v : Nat)
    (h8 : x % 8 = 0) (hl : lo ≤ x) (hb : x + 8 ≤ B) :
    PUT ⟨m, lo, B, mx, f, li, hd, ls, t⟩ x v = some ⟨upd m x v, lo, B, mx, f, li, hd, ls, t⟩ := by
  unfold PUT Heap.valid
  simp [h8, hl, hb]
  rfl

theorem put_tags_mk (m : Nat → Nat) (lo B mx f li hd : Nat) (ls t : Int) (b s a : Nat)
    (hs : s % 16 = 0) (ha : a ≤ 1) (h8 : b % 8 = 0) (hl : lo + 8 ≤ b) (h16 : 16 ≤ s)
    (hb : b + s ≤ B + 8) (hB : B + 16 < 2 ^ 64) :
    put_tags ⟨m, lo, B, mx, f, li, hd, ls, t⟩ b s a =
      some ⟨upd (upd m (b - 8) (s + a)) (b + s - 16) (s + a), lo, B, mx, f, li, hd, ls, t⟩ := by
  have e1 : HDRP b = b - 8 := by unfold HDRP WSIZE; exact psub_eq _ _ (by omega) (by omega)
  have e2 : tagSize (s + a) = s := by rw [tagSize_eq _ (by omega)]; omega
  have e3 : psub (padd b s) DSIZE = b + s - 16 := by
    rw [padd_eq _ _ (by omega)]; unfold DSIZE WSIZE; exact psub_eq _ _ (by omega) (by omega)
  unfold put_tags FTRP GET_SIZE
  rw [e1, set_eq_add s a hs ha, PUT_mk _ _ _ _ _ _ _ _ _ _ _ (by omega) (by omega) (by omega)]
  simp only [Option.some_bind]
  rw [GET_mk _ _ _ _ _ _ _ _ _ _ (by omega) (by omega) (by omega), upd_eq _ _ _ _ rfl]
  simp only [Option.map_some', Option.some_bind, e2, e3]
  rw [PUT_mk _ _ _ _ _ _ _ _ _ _ _ (by omega) (by omega) (by omega)]

theorem insert_mk (m : Nat → Nat) (lo B mx f li hd : Nat) (ls t : Int) (b : Nat)
    (h8 : b % 8 = 0) (hl : lo ≤ b) (hb : b + 16 ≤ B) (hB : B + 16 < 2 ^ 64)
    (g8 : hd % 8 = 0) (gl : lo ≤ hd) (gb : hd + 8 ≤ B) :
    insert_in_free_list ⟨m, lo, B, mx, f, li, hd, ls, t⟩ b =
      some ⟨upd (upd (upd m (b + 8) hd) hd b) b 0, lo, B, mx, f, li, b, ls, t⟩ := by
  have e1 : padd b WSIZE = b + 8 := by unfold WSIZE; exact padd_eq _ _ (by omega)
  unfold insert_in_free_list SET_NEXT_b SET_PREV_b NULL
  rw [e1]
  simp only
  rw [PUT_mk _ _ _ _ _ _ _ _ _ _ _ (by omega) (by omega) (by omega)]
  simp only [Option.some_bind]
  rw [PUT_mk _ _ _ _ _ _ _ _ _ _ _ g8 gl gb]
  simp only [Option.some_bind]
  rw [PUT_mk _ _ _ _ _ _ _ _ _ _ _ h8 hl (by omega)]
  rfl

/-- Removal of the first entry of the free list (its `prev` link is `NULL`). -/
theorem remove_head_mk (m : Nat → Nat) (lo B mx f li hd : Nat) (ls t : Int) (b n : Nat)
    (h8 : b % 8 = 0) (hl : lo ≤ b) (hb : b + 16 ≤ B) (hB : B + 16 < 2 ^ 64)
    (hp : m b = 0) (hn : m (b + 8) = n) (g8 : n % 8 = 0) (gl : lo ≤ n) (gb : n + 8 ≤ B) :
    remove_from_free_list ⟨m, lo, B, mx, f, li, hd, ls, t⟩ b =
      some ⟨upd m n 0, lo, B, mx, f, li, n, ls, t⟩ := by
  have e1 : padd b WSIZE = b + 8 := by unfold WSIZE; exact padd_eq _ _ (by omega)
  unfold remove_from_free_list GET_PREV_b GET_NEXT_b SET_PREV_b SET_NEXT_b
  rw [e1, GET_mk _ _ _ _ _ _ _ _ _ _ h8 hl (by omega),
    GET_mk _ _ _ _ _ _ _ _ _ _ (by omega) (by omega) (by omega), hp, hn]
  simp only [Option.some_bind, ne_eq, not_true_eq_false, if_false]
  rw [GET_mk _ _ _ _ _ _ _ _ _ _ (by omega) (by omega) (by omega),
    GET_mk _ _ _ _ _ _ _ _ _ _ h8 hl (by omega), hp, hn]
  simp only [Option.some_bind]
  rw [PUT_mk _ _ _ _ _ _ _ _ _ _ _ g8 gl gb]

theorem HDRP_eq (b : Nat) (h1 : 8 ≤ b) (h2 : b < 2 ^ 64) : HDRP b = b - 8 := by
  unfold HDRP WSIZE; exact psub_eq _ _ h1 h2

theorem GET_SIZE_mk (m : Nat → Nat) (lo B mx f li hd : Nat) (ls t : Int) (x : Nat)
    (h8 : x % 8 = 0) (hl : lo ≤ x) (hb : x + 8 ≤ B) :
    GET_SIZE ⟨m, lo, B, mx, f, li, hd, ls, t⟩ x = some (tagSize (m x)) := by
  unfold GET_SIZE; rw [GET_mk _ _ _ _ _ _ _ _ _ _ h8 hl hb]; rfl

theorem GET_ALLOC_mk (m : Nat → Nat) (lo B mx f li hd : Nat) (ls t : Int) (x : Nat)
    (h8 : x % 8 = 0) (hl : lo ≤ x) (hb : x + 8 ≤ B) :
    GET_ALLOC ⟨m, lo, B, mx, f, li, hd, ls, t⟩ x = some (tagAlloc (m x)) := by
  unfold GET_ALLOC; rw [GET_mk _ _ _ _ _ _ _ _ _ _ h8 hl hb]; rfl

theorem NEXT_BLK_mk (m : Nat → Nat) (lo B mx f li hd : Nat) (ls t : Int) (b s : Nat)
    (hs : tagSize (m (b - 8)) = s) (h8 : b % 8 = 0) (hl : lo + 8 ≤ b) (hb : b ≤ B)
    (hbs : b + s < 2 ^ 64) (hB : B + 16 < 2 ^ 64) :
    NEXT_BLK ⟨m, lo, B, mx, f, li, hd, ls, t⟩ b = some (b + s) := by
  unfold NEXT_BLK
  rw [HDRP_eq b (by omega) (by omega),
    GET_SIZE_mk _ _ _ _ _ _ _ _ _ _ (by omega) (by omega) (by omega), hs]
  simp only [Option.map_some']
  rw [padd_eq _ _ hbs]

theorem PREV_BLK_mk (m : Nat → Nat) (lo B mx f li hd : Nat) (ls t : Int) (b ps : Nat)
    (hps : tagSize (m (b - 16)) = ps) (h8 : b % 8 = 0) (hl : lo + 16 ≤ b) (hb : b ≤ B + 8)
    (hle : ps ≤ b) (hB : B + 16 < 2 ^ 64) :
    PREV_BLK ⟨m, lo, B, mx, f, li, hd, ls, t⟩ b = some (b - ps) := by
  unfold PREV_BLK DSIZE WSIZE
  rw [psub_eq b (2 * 8) (by omega) (by omega),
    GET_SIZE_mk _ _ _ _ _ _ _ _ _ _ (by omega) (by omega) (by omega), hps]
  simp only [Option.map_some']
  rw [psub_eq _ _ hle (by omega)]

theorem FTRP_mk (m : Nat → Nat) (lo B mx f li hd : Nat) (ls t : Int) (b s : Nat)
    (hs : tagSize (m (b - 8)) = s) (h8 : b % 8 = 0) (hl : lo + 8 ≤ b) (hb : b ≤ B)
    (h16 : 16 ≤ b + s) (hbs : b + s < 2 ^ 64) (hB : B + 16 < 2 ^ 64) :
    FTRP ⟨m, lo, B, mx, f, li, hd, ls, t⟩ b = some (b + s - 16) := by
  unfold FTRP
  rw [HDRP_eq b (by omega) (by omega),
    GET_SIZE_mk _ _ _ _ _ _ _ _ _ _ (by omega) (by omega) (by omega), hs]
  simp only [Option.map_some']
  rw [padd_eq _ _ hbs]
  unfold DSIZE WSIZE
  rw [psub_eq _ _ (by omega) hbs]

/-- The reads of `coalesce` on a state given by its fields. -/
theorem coalesce_mk (m : Nat → Nat) (lo B mx f li hd : Nat) (ls t : Int) (b s ps hs : Nat)
    (es : tagSize (m (b - 8)) = s) (eps : tagSize (m (b - 16)) = ps)
    (ehs : tagSize (m (b - ps - 8)) = hs)
    (h8 : b % 8 = 0) (hl : lo + 16 ≤ b) (hb : b + s ≤ B) (h8s : 8 ≤ s)
    (hp1 : lo + 8 + ps ≤ b) (hp2 : lo + 16 + ps ≤ b + hs) (hp3 : b + hs ≤ B + ps + 8)
    (hB : B + 16 < 2 ^ 64) :
    coalesce ⟨m, lo, B, mx, f, li, hd, ls, t⟩ b =
      (coalesce_cases ⟨m, lo, B, mx, f, li, hd, ls, t⟩ b s (tagAlloc (m (b + s - 8)) != 0)
        (tagAlloc (m (b - ps + hs - 16)) != 0 || b - ps == b)).bind fun r =>
      (insert_in_free_list r.1 r.2).map fun σ1 => (σ1, r.2) := by
  have m16s := tagSize_mod (m (b - 8))
  have m16p := tagSize_mod (m (b - 16))
  have m16h := tagSize_mod (m (b - ps - 8))
  rw [es] at m16s; rw [eps] at m16p; rw [ehs] at m16h
  have a1 : lo + 8 ≤ b := by omega
  have a2 : b ≤ B := by omega
  have a3 : b + s < 2 ^ 64 := by omega
  have n1 := NEXT_BLK_mk m lo B mx f li hd ls t b s es h8 a1 a2 a3 hB
  have a4 : 8 ≤ b + s := by omega
  have n2 := HDRP_eq (b + s) a4 a3
  have a5 : (b + s - 8) % 8 = 0 := by omega
  have a6 : lo ≤ b + s - 8 := by omega
  have a7 : b + s - 8 + 8 ≤ B := by omega
  have n3 := GET_ALLOC_mk m lo B mx f li hd ls t (b + s - 8) a5 a6 a7
  have a8 : b ≤ B + 8 := by omega
  have a9 : ps ≤ b := by omega
  have n4 := PREV_BLK_mk m lo B mx f li hd ls t b ps eps h8 hl a8 a9 hB
  have b1 : (b - ps) % 8 = 0 := by omega
  have b2 : lo + 8 ≤ b - ps := by omega
  have b3 : b - ps ≤ B := by omega
  have b4 : 16 ≤ b - ps + hs := by omega
  have b5 : b - ps + hs < 2 ^ 64 := by omega
  have n5 := FTRP_mk m lo B mx f li hd ls t (b - ps) hs ehs b1 b2 b3 b4 b5 hB
  have c1 : (b - ps + hs - 16) % 8 = 0 := by omega
  have c2 : lo ≤ b - ps + hs - 16 := by omega
  have c3 : b - ps + hs - 16 + 8 ≤ B := by omega
  have n6 := GET_ALLOC_mk m lo B mx f li hd ls t (b - ps + hs - 16) c1 c2 c3
  have d1 : 8 ≤ b := by omega
  have d2 : b < 2 ^ 64 := by omega
  have n7 := HDRP_eq b d1 d2
  have d3 : (b - 8) % 8 = 0 := by omega
  have d4 : lo ≤ b - 8 := by omega
  have d5 : b - 8 + 8 ≤ B := by omega
  have n8 := GET_SIZE_mk m lo B mx f li hd ls t (b - 8) d3 d4 d5
  unfold coalesce
  rw [n1]
  rw [Option.some_bind]
  rw [n2, n3, Option.some_bind]
  rw [n4, Option.some_bind]
  rw [n5, Option.some_bind]
  rw [n6, Option.some_bind]
  rw [n7, n8, es, Option.some_bind]





theorem mem_sbrk_mk (m : Nat → Nat) (lo B mx f li hd : Nat) (ls t : Int) (incr : Nat)
    (h : B + incr ≤ mx) :
    mem_sbrk ⟨m, lo, B, mx, f, li, hd, ls, t⟩ incr =
      (⟨m, lo, B + incr, mx, f, li, hd, ls, t⟩, B) := by
  unfold mem_sbrk
  rw [if_pos h]

theorem toInt32_aligned (p : Nat) (h : p % 8 = 0) : toInt32 p ≠ -1 := by
  unfold toInt32
  split <;> omega

/-- The seeding growth of `mm_init`: `extend_heap(4)` on a range of 128 bytes
whose first four words are initialised and whose word at offset 112 has size
part 0. -/
theorem extend_heap_seed (m : Nat → Nat) (lo mx f : Nat) (ls t : Int)
    (h8 : lo % 8 = 0) (hroom : lo + 160 ≤ mx) (hmax : mx + 16 < 2 ^ 64)
    (hgap : tagSize (m (lo + 112)) = 0) :
    extend_heap ⟨m, lo, lo + 128, mx, f, lo, lo + 16, ls, t⟩ 4 =
      some (⟨upd (upd (upd (upd (upd (upd m (lo + 120) 32) (lo + 144) 32) (lo + 152) 1)
        (lo + 136) (lo + 16)) (lo + 16) (lo + 128)) (lo + 128) 0,
        lo, lo + 160, mx, f, lo, lo + 128, ls, t⟩, lo + 128) := by
  have hB : lo + 160 + 16 < 2 ^ 64 := by omega
  have es : extend_size 4 = 32 := by rfl
  have s1 := mem_sbrk_mk m lo (lo + 128) mx f lo (lo + 16) ls t 32 (by omega)
  have e1 : lo + 128 + 32 = lo + 160 := by omega
  rw [e1] at s1
  have s2 := toInt32_aligned (lo + 128) (by omega)
  have s3 := put_tags_mk m lo (lo + 160) mx f lo (lo + 16) ls t (lo + 128) 32 0 (by rfl)
    (by omega) (by omega) (by omega) (by omega) (by omega) hB
  have e2 : lo + 128 - 8 = lo + 120 := by omega
  have e3 : lo + 128 + 32 - 16 = lo + 144 := by omega
  rw [e2, e3] at s3
  have s4 := NEXT_BLK_mk (upd (upd m (lo + 120) 32) (lo + 144) 32) lo (lo + 160) mx f lo
    (lo + 16) ls t (lo + 128) 32
    (by rw [e2, upd_ne _ _ _ _ (by omega), upd_eq _ _ _ _ rfl]; rfl)
    (by omega) (by omega) (by omega) (by omega) hB
  rw [e1] at s4
  have s5 := HDRP_eq (lo + 160) (by omega) (by omega)
  have e4 : lo + 160 - 8 = lo + 152 := by omega
  rw [e4] at s5
  have s6 := PUT_mk (upd (upd m (lo + 120) 32) (lo + 144) 32) lo (lo + 160) mx f lo
    (lo + 16) ls t (lo + 152) (set 0 1) (by omega) (by omega) (by omega)
  have e5 : set 0 1 = 1 := by rfl
  rw [e5] at s6
  have s7 := coalesce_mk (upd (upd (upd m (lo + 120) 32) (lo + 144) 32) (lo + 152) 1)
    lo (lo + 160) mx f lo (lo + 16) ls t (lo + 128) 32 0 32
    (by rw [e2, upd_ne _ _ _ _ (by omega), upd_ne _ _ _ _ (by omega), upd_eq _ _ _ _ rfl]; rfl)
    (by
      have : lo + 128 - 16 = lo + 112 := by omega
      rw [this, upd_ne _ _ _ _ (by omega), upd_ne _ _ _ _ (by omega),
        upd_ne _ _ _ _ (by omega)]
      exact hgap)
    (by
      have : lo + 128 - 0 - 8 = lo + 120 := by omega
      rw [this, upd_ne _ _ _ _ (by omega), upd_ne _ _ _ _ (by omega), upd_eq _ _ _ _ rfl]
      rfl)
    (by omega) (by omega) (by omega) (by omega) (by omega) (by omega) (by omega) hB
  have e6 : lo + 128 + 32 - 8 = lo + 152 := by omega
  have e7 : lo + 128 - 0 + 32 - 16 = lo + 144 := by omega
  have e8 : lo + 128 - 0 = lo + 128 := by omega
  rw [e6, e7, e8, upd_eq _ _ _ _ rfl, upd_ne _ _ _ _ (by omega), upd_eq _ _ _ _ rfl] at s7
  have s8 := insert_mk (upd (upd (upd m (lo + 120) 32) (lo + 144) 32) (lo + 152) 1)
    lo (lo + 160) mx f lo (lo + 16) ls t (lo + 128) (by omega) (by omega) (by omega) hB
    (by omega) (by omega) (by omega)
  have e9 : lo + 128 + 8 = lo + 136 := by omega
  rw [e9] at s8
  unfold extend_heap
  rw [es, s1]
  simp only
  rw [if_neg s2]
  unfold extend_heap_init
  rw [s3, Option.some_bind, s4, Option.some_bind, s5, e5, s6, Option.some_bind, s7]
  have c : coalesce_cases ⟨upd (upd (upd m (lo + 120) 32) (lo + 144) 32) (lo + 152) 1,
      lo, lo + 160, mx, f, lo, lo + 16, ls, t⟩ (lo + 128) 32 (tagAlloc 1 != 0)
      (tagAlloc 32 != 0 || lo + 128 == lo + 128) =
      some (⟨upd (upd (upd m (lo + 120) 32) (lo + 144) 32) (lo + 152) 1,
      lo, lo + 160, mx, f, lo, lo + 16, ls, t⟩, lo + 128) := by
    have t1 : (tagAlloc 1 != 0) = true := by rfl
    have t2 : (tagAlloc 32 != 0 || lo + 128 == lo + 128) = true := by
      rw [beq_self_eq_true, Bool.or_true]
    rw [t1, t2]
    rfl
  rw [c, Option.some_bind, s8]
  rfl





/-- The whole of `mm_init` on a fresh range whose word at offset 112 has size
part 0 and whose provider grants both growths. -/
theorem mm_init_mk (m : Nat → Nat) (lo mx f : Nat)
    (h8 : lo % 8 = 0) (h0 : 0 < lo) (hroom : lo + 160 ≤ mx) (hmax : mx + 16 < 2 ^ 64)
    (hgap : tagSize (m (lo + 112)) = 0) :
    mm_init (Heap.fresh m lo mx f) =
      some (⟨init_mem m lo, lo, lo + 160, mx, f, lo, lo + 128, 4, 0⟩, 0) := by
  have s1 := mem_sbrk_mk m lo lo mx f 0 0 4 0 (16 * WSIZE) (by unfold WSIZE; omega)
  have e1 : lo + 16 * WSIZE = lo + 128 := by rfl
  rw [e1] at s1
  have hne : ¬ lo = NULL := by unfold NULL; omega
  have p1 := PUT_mk m lo (lo + 128) mx f lo 0 4 0 lo 0 (by omega) (by omega) (by omega)
  have a1 : padd lo (1 * WSIZE) = lo + 8 := by unfold WSIZE; exact padd_eq _ _ (by omega)
  have a2 : padd lo (2 * WSIZE) = lo + 16 := by unfold WSIZE; exact padd_eq _ _ (by omega)
  have a3 : padd lo (3 * WSIZE) = lo + 24 := by unfold WSIZE; exact padd_eq _ _ (by omega)
  have v1 : set DSIZE 1 = 17 := by rfl
  have v2 : set 0 1 = 1 := by rfl
  have p2 := PUT_mk (upd m lo 0) lo (lo + 128) mx f lo 0 4 0 (lo + 8) 17
    (by omega) (by omega) (by omega)
  have p3 := PUT_mk (upd (upd m lo 0) (lo + 8) 17) lo (lo + 128) mx f lo 0 4 0 (lo + 16) 17
    (by omega) (by omega) (by omega)
  have p4 := PUT_mk (upd (upd (upd m lo 0) (lo + 8) 17) (lo + 16) 17) lo (lo + 128) mx f lo 0
    4 0 (lo + 24) 1 (by omega) (by omega) (by omega)
  have g : tagSize ((upd (upd (upd (upd m lo 0) (lo + 8) 17) (lo + 16) 17) (lo + 24) 1)
      (lo + 112)) = 0 := by
    rw [upd_ne _ _ _ _ (by omega), upd_ne _ _ _ _ (by omega), upd_ne _ _ _ _ (by omega),
      upd_ne _ _ _ _ (by omega)]
    exact hgap
  have x := extend_heap_seed (upd (upd (upd (upd m lo 0) (lo + 8) 17) (lo + 16) 17) (lo + 24) 1)
    lo mx f 4 0 h8 hroom hmax g
  unfold mm_init Heap.fresh
  simp only
  rw [s1]
  simp only
  rw [if_neg hne, p1, Option.some_bind]
  simp only
  rw [a1, v1, p2, Option.some_bind]
  simp only
  rw [a2, p3, Option.some_bind]
  simp only
  rw [a3, v2, p4, Option.some_bind]
  simp only
  rw [a2, x]
  simp only [Option.map_some']
  have hne2 : ¬ lo + 128 = NULL := by unfold NULL; omega
  rw [if_neg hne2]
  rfl





theorem init_mem_120 (m : Nat → Nat) (lo : Nat) : init_mem m lo (lo + 120) = 32 := by
  unfold init_mem
  rw [upd_ne _ _ _ _ (by omega), upd_ne _ _ _ _ (by omega), upd_ne _ _ _ _ (by omega),
    upd_ne _ _ _ _ (by omega), upd_ne _ _ _ _ (by omega), upd_eq _ _ _ _ rfl]

theorem init_mem_136 (m : Nat → Nat) (lo : Nat) : init_mem m lo (lo + 136) = lo + 16 := by
  unfold init_mem
  rw [upd_ne _ _ _ _ (by omega), upd_ne _ _ _ _ (by omega), upd_eq _ _ _ _ rfl]

theorem init_mem_8 (m : Nat → Nat) (lo : Nat) : init_mem m lo (lo + 8) = 17 := by
  unfold init_mem
  rw [upd_ne _ _ _ _ (by omega), upd_ne _ _ _ _ (by omega), upd_ne _ _ _ _ (by omega),
    upd_ne _ _ _ _ (by omega), upd_ne _ _ _ _ (by omega), upd_ne _ _ _ _ (by omega),
    upd_ne _ _ _ _ (by omega), upd_ne _ _ _ _ (by omega), upd_eq _ _ _ _ rfl]

theorem init_mem_144 (m : Nat → Nat) (lo : Nat) : init_mem m lo (lo + 144) = 32 := by
  unfold init_mem
  rw [upd_ne _ _ _ _ (by omega), upd_ne _ _ _ _ (by omega), upd_ne _ _ _ _ (by omega),
    upd_ne _ _ _ _ (by omega), upd_eq _ _ _ _ rfl]

theorem init_mem_152 (m : Nat → Nat) (lo : Nat) : init_mem m lo (lo + 152) = 1 := by
  unfold init_mem
  rw [upd_ne _ _ _ _ (by omega), upd_ne _ _ _ _ (by omega), upd_ne _ _ _ _ (by omega),
    upd_eq _ _ _ _ rfl]

theorem init_mem_other (m : Nat → Nat) (lo x : Nat)
    (h : x ∉ [lo, lo + 8, lo + 16, lo + 24, lo + 120, lo + 128, lo + 136, lo + 144, lo + 152]) :
    init_mem m lo x = m x := by
  simp only [List.mem_cons, List.mem_singleton, List.not_mem_nil, or_false, not_or] at h
  obtain ⟨h1, h2, h3, h4, h5, h6, h7, h8, h9⟩ := h
  unfold init_mem
  rw [upd_ne _ _ _ _ h6, upd_ne _ _ _ _ h3, upd_ne _ _ _ _ h7, upd_ne _ _ _ _ h9,
    upd_ne _ _ _ _ h8, upd_ne _ _ _ _ h5, upd_ne _ _ _ _ h4, upd_ne _ _ _ _ h3,
    upd_ne _ _ _ _ h2, upd_ne _ _ _ _ h1]

theorem init_free_list (m : Nat → Nat) (lo mx f : Nat) (h8 : lo % 8 = 0)
    (hmax : lo + 176 < 2 ^ 64) :
    FreeList ⟨init_mem m lo, lo, lo + 160, mx, f, lo, lo + 128, 4, 0⟩ (lo + 128) [lo + 128] := by
  have e1 := HDRP_eq (lo + 128) (by omega) (by omega)
  have e2 : lo + 128 - 8 = lo + 120 := by omega
  have g1 := GET_ALLOC_mk (init_mem m lo) lo (lo + 160) mx f lo (lo + 128) 4 0 (lo + 120)
    (by omega) (by omega) (by omega)
  have e3 : padd (lo + 128) WSIZE = lo + 136 := by
    unfold WSIZE; rw [padd_eq _ _ (by omega)]
  have g2 := GET_mk (init_mem m lo) lo (lo + 160) mx f lo (lo + 128) 4 0 (lo + 136)
    (by omega) (by omega) (by omega)
  have e4 := HDRP_eq (lo + 16) (by omega) (by omega)
  have e5 : lo + 16 - 8 = lo + 8 := by omega
  have g3 := GET_ALLOC_mk (init_mem m lo) lo (lo + 160) mx f lo (lo + 128) 4 0 (lo + 8)
    (by omega) (by omega) (by omega)
  have t1 : tagAlloc 32 = 0 := by rfl
  have t2 : tagAlloc 17 = 1 := by rfl
  rw [init_mem_120, t1, ← e2, ← e1] at g1
  rw [init_mem_136] at g2
  rw [init_mem_8, t2, ← e5, ← e4] at g3
  refine FreeList.cons (lo + 128) (lo + 16) [] g1 ?_ (FreeList.nil (lo + 16) 1 g3 (by decide))
  unfold GET_NEXT_b
  rw [e3]
  exact g2

/-- Claim C19 fails on the code: the memories of `heap0` and of
`dirty_heap` agree on every word `mm_init` writes on `heap0`, yet the runs end
with different heads of the free list (4224 and 4192), different free lists
and different footer tags at 4240 (32 and 64): `coalesce` reads the word at
offset 112, which the allocator has not written. -/
theorem init_depends_on_old_contents :
    ([4096, 4104, 4112, 4120, 4216, 4224, 4232, 4240, 4248].all
      fun a => heap0.mem a == dirty_heap.mem a) = true ∧
    (mm_init heap0).map (fun r => (r.2, r.1.free_list_head)) = some (0, 4224) ∧
    (mm_init dirty_heap).map (fun r => (r.2, r.1.free_list_head)) = some (0, 4192) ∧
    (mm_init heap0).map (fun r => free_list_take 3 r.1 r.1.free_list_head) = some [4224] ∧
    (mm_init dirty_heap).map (fun r => free_list_take 3 r.1 r.1.free_list_head)
      = some [4192, 4152] ∧
    (mm_init heap0).bind (fun r => GET r.1 4240) = some 32 ∧
    (mm_init dirty_heap).bind (fun r => GET r.1 4240) = some 64 := by
  refine ⟨by rfl, by rfl, by rfl, by rfl, by rfl, by rfl, by rfl⟩

/-- The state `mm_init` produces depends on the prior contents of the granted
memory only through the size part of the word at offset 112, which `coalesce`
reads as the footer before the first block although no statement has written
it.  For
every initial memory `m` in which that size part is 0 (and a provider that
grants both growths of a range starting at an 8-aligned non-null address),
`mm_init` returns 0; the head of the free list is 128 bytes after the start of
the range; the free list is that one block; its header and footer encode (32,
free) and the epilogue tag follows it; and the memory is `init_mem m lo`, in
which nine words have values that do not depend on `m` and every other word
`x` keeps its prior contents. -/
theorem init_state_of_empty_gap (m : Nat → Nat) (lo mx f x : Nat)
    (h8 : lo % 8 = 0) (h0 : 0 < lo) (hroom : lo + 160 ≤ mx) (hmax : mx + 16 < 2 ^ 64)
    (hgap : tagSize (m (lo + 112)) = 0)
    (hx : x ∉ [lo, lo + 8, lo + 16, lo + 24, lo + 120, lo + 128, lo + 136, lo + 144, lo + 152]) :
    mm_init (Heap.fresh m lo mx f) =
      some (⟨init_mem m lo, lo, lo + 160, mx, f, lo, lo + 128, 4, 0⟩, 0) ∧
    FreeList ⟨init_mem m lo, lo, lo + 160, mx, f, lo, lo + 128, 4, 0⟩ (lo + 128) [lo + 128] ∧
    init_mem m lo (lo + 120) = set 32 0 ∧ init_mem m lo (lo + 144) = set 32 0 ∧
    init_mem m lo (lo + 152) = set 0 1 ∧ init_mem m lo x = m x :=
  ⟨mm_init_mk m lo mx f h8 h0 hroom hmax hgap, init_free_list m lo mx f h8 (by omega),
    init_mem_120 m lo, init_mem_144 m lo, init_mem_152 m lo, init_mem_other m lo x hx⟩

/-- The theorem `init_state_of_empty_gap` at a concrete input: the zero-filled
range of `heap0` and the unwritten word at offset 112. -/
theorem init_state_of_empty_gap_witness :
    tagSize ((fun _ => 0) (4096 + 112)) = 0 ∧
    mm_init (Heap.fresh (fun _ => 0) 4096 (4096 + 2 ^ 24) (2 ^ 64 - 1)) =
      some (⟨init_mem (fun _ => 0) 4096, 4096, 4096 + 160, 4096 + 2 ^ 24, 2 ^ 64 - 1, 4096,
        4096 + 128, 4, 0⟩, 0) ∧
    init_mem (fun _ => 0) 4096 (4096 + 112) = 0 :=
  ⟨by rfl,
    (init_state_of_empty_gap (fun _ => 0) 4096 (4096 + 2 ^ 24) (2 ^ 64 - 1) (4096 + 112)
      (by decide) (by decide) (by decide) (by decide) (by rfl) (by decide)).1,
    (init_state_of_empty_gap (fun _ => 0) 4096 (4096 + 2 ^ 24) (2 ^ 64 - 1) (4096 + 112)
      (by decide) (by decide) (by decide) (by decide) (by rfl) (by decide)).2.2.2.2.2⟩

/-! ## Steady heaps: one free block that ends the heap -/

theorem tagSize_even (s : Nat) (hs : s % 16 = 0) (hlt : s < 2 ^ 64) : tagSize s = s := by
  rw [tagSize_eq s hlt]; omega

theorem tagAlloc_even (s : Nat) (hs : s % 16 = 0) : tagAlloc s = 0 := by
  rw [tagAlloc_eq]; omega

theorem coalesce_cases_next (σ : Heap) (b s : Nat) :
    coalesce_cases σ b s false true = coalesce_next σ b s := rfl

theorem coalesce_cases_prev (σ : Heap) (b s : Nat) :
    coalesce_cases σ b s true false = coalesce_prev σ b s := rfl

theorem coalesce_cases_none (σ : Heap) (b s : Nat) :
    coalesce_cases σ b s true true = some (σ, b) := rfl

theorem malloc_of_fit (σ σ1 σ2 : Heap) (nn b : Nat) (hn0 : nn ≠ 0) (hb : b ≠ 0)
    (hf : find_fit σ (adjust nn) = some (σ1, b)) (hp : place σ1 b (adjust nn) = some σ2) :
    mm_malloc σ nn = some (σ2, b) := by
  have hb1 : b ≠ NULL := hb
  unfold mm_malloc
  rw [if_neg hn0, hf, Option.some_bind]
  show (if b ≠ NULL then (place σ1 b (adjust nn)).map _ else _) = _
  rw [if_pos hb1, hp]
  rfl

theorem dlist_frame (m m1 : Nat → Nat) (t : Nat) (L : List Nat) :
    ∀ p h, (∀ y ∈ L, m1 y = m y ∧ m1 (y + 8) = m (y + 8)) →
      dlist m t p h L → dlist m1 t p h L := by
  induction L with
  | nil => intro p h _ d; exact d
  | cons y L ih =>
    intro p h hf d
    obtain ⟨d1, d2, d3⟩ := d
    have hy := hf y (List.mem_cons_self y L)
    refine ⟨d1, by rw [hy.1, d2], ?_⟩
    rw [hy.2]
    exact ih y (m (y + 8)) (fun z hz => hf z (List.mem_cons_of_mem y hz)) d3

/-- The chain with the `prev` link of its first entry redirected. -/
theorem dlist_reprev (m m1 : Nat → Nat) (t p p1 h : Nat) (L : List Nat) (hn : L.Nodup)
    (ht : t ∉ L) (h1 : h ≠ t → m1 h = p1)
    (h2 : ∀ y ∈ L, y ≠ h → m1 y = m y)
    (h3 : ∀ y ∈ L, m1 (y + 8) = m (y + 8))
    (d : dlist m t p h L) : dlist m1 t p1 h L := by
  cases L with
  | nil => exact d
  | cons y L =>
    obtain ⟨d1, d2, d3⟩ := d
    subst d1
    have hyL : h ∉ L := (List.nodup_cons.mp hn).1
    have hht : h ≠ t := fun e => ht (e ▸ List.mem_cons_self h L)
    refine ⟨rfl, h1 hht, ?_⟩
    rw [h3 h (List.mem_cons_self h L)]
    refine dlist_frame m m1 t L h (m (h + 8)) ?_ d3
    intro z hz
    have hzh : z ≠ h := fun e => hyL (e ▸ hz)
    exact ⟨h2 z (List.mem_cons_of_mem h hz) hzh, h3 z (List.mem_cons_of_mem h hz)⟩

theorem dlist_start (m : Nat → Nat) (t p h : Nat) (L : List Nat) (d : dlist m t p h L) :
    h = t ∨ h ∈ L := by
  cases L with
  | nil => exact Or.inl d
  | cons y L => exact Or.inr (d.1 ▸ List.mem_cons_self y L)

theorem dlist_next_mem (m : Nat → Nat) (t : Nat) (L : List Nat) :
    ∀ p h x, dlist m t p h L → x ∈ L → m (x + 8) = t ∨ m (x + 8) ∈ L := by
  induction L with
  | nil => intro p h x _ hx; exact absurd hx (List.not_mem_nil x)
  | cons y L ih =>
    intro p h x d hx
    obtain ⟨_, _, d3⟩ := d
    rcases List.mem_cons.mp hx with e | hx1
    · rw [e]
      rcases dlist_start m t y (m (y + 8)) L d3 with h1 | h1
      · exact Or.inl h1
      · exact Or.inr (List.mem_cons_of_mem y h1)
    · rcases ih y (m (y + 8)) x d3 hx1 with h1 | h1
      · exact Or.inl h1
      · exact Or.inr (List.mem_cons_of_mem y h1)

theorem dlist_prev_mem (m : Nat → Nat) (t : Nat) (L : List Nat) :
    ∀ p h x, dlist m t p h L → x ∈ L → (x = h ∧ m x = p) ∨ m x ∈ L := by
  induction L with
  | nil => intro p h x _ hx; exact absurd hx (List.not_mem_nil x)
  | cons y L ih =>
    intro p h x d hx
    obtain ⟨d1, d2, d3⟩ := d
    rcases List.mem_cons.mp hx with e | hx1
    · exact Or.inl ⟨by rw [e, d1], by rw [e, d2]⟩
    · rcases ih y (m (y + 8)) x d3 hx1 with h1 | h1
      · exact Or.inr (by rw [h1.2]; exact List.mem_cons_self y L)
      · exact Or.inr (List.mem_cons_of_mem y h1)

/-- Removal of the entry `x` from the chain: the memory `m1` redirects the
`next` link of the entry before `x` and the `prev` link of the entry after
`x`, and keeps the other links. -/
theorem dlist_erase (m m1 : Nat → Nat) (t x : Nat)
    (h1 : m1 (m (x + 8)) = m x) (L : List Nat) :
    ∀ p h, x ∈ L → L.Nodup → t ∉ L → p ∉ L →
      (m x ∈ L → m1 (m x + 8) = m (x + 8)) →
      (∀ y ∈ L, y ≠ m (x + 8) → m1 y = m y) →
      (∀ y ∈ L, y ≠ m x → m1 (y + 8) = m (y + 8)) →
      dlist m t p h L → dlist m1 t p (if h = x then m (x + 8) else h) (L.erase x) := by
  induction L with
  | nil => intro p h hx; exact absurd hx (List.not_mem_nil x)
  | cons y L ih =>
    intro p h hx hn ht hp h2 h3 h4 d
    obtain ⟨d1, d2, d3⟩ := d
    subst d1
    have hn1 := List.nodup_cons.mp hn
    have htL : t ∉ L := fun e => ht (List.mem_cons_of_mem h e)
    by_cases e : h = x
    · subst e
      rw [if_pos rfl, List.erase_cons_head]
      refine dlist_reprev m m1 t h p (m (h + 8)) L hn1.2 htL (fun _ => by rw [h1, d2]) ?_ ?_ d3
      · intro z hz hne
        exact h3 z (List.mem_cons_of_mem h hz) hne
      · intro z hz
        refine h4 z (List.mem_cons_of_mem h hz) ?_
        intro e
        rw [d2] at e
        exact hp (e ▸ List.mem_cons_of_mem h hz)
    · have hxL : x ∈ L := by
        rcases List.mem_cons.mp hx with e1 | e1
        · exact absurd e1.symm e
        · exact e1
      rw [if_neg e, List.erase_cons_tail (by simpa using e)]
      have hnx : h ≠ m (x + 8) := by
        intro e1
        rcases dlist_next_mem m t L h (m (h + 8)) x d3 hxL with e2 | e2
        · exact ht (by rw [← e2, ← e1]; exact List.mem_cons_self h L)
        · exact hn1.1 (by rw [e1]; exact e2)
      refine ⟨rfl, by rw [h3 h (List.mem_cons_self h L) hnx, d2], ?_⟩
      have key := ih h (m (h + 8)) hxL hn1.2 htL hn1.1
        (fun hm => h2 (List.mem_cons_of_mem h hm))
        (fun z hz => h3 z (List.mem_cons_of_mem h hz))
        (fun z hz => h4 z (List.mem_cons_of_mem h hz)) d3
      have hval : m1 (h + 8) = if m (h + 8) = x then m (x + 8) else m (h + 8) := by
        rcases dlist_prev_mem m t L h (m (h + 8)) x d3 hxL with ⟨e1, e2⟩ | e1
        · rw [if_pos e1.symm, ← e2]
          exact h2 (by rw [e2]; exact List.mem_cons_self h L)
        · have hne : h ≠ m x := fun e2 => hn1.1 (e2 ▸ e1)
          have hne2 : m (h + 8) ≠ x := by
            intro e2
            cases L with
            | nil => exact absurd hxL (List.not_mem_nil x)
            | cons z L =>
              obtain ⟨f1, f2, _⟩ := d3
              rw [e2] at f1
              rw [← f1] at f2
              exact hne f2.symm
          rw [if_neg hne2]
          exact h4 h (List.mem_cons_self h L) hne
      rw [hval]
      exact key

theorem dlist_prev_ne (m : Nat → Nat) (t : Nat) (L : List Nat) :
    ∀ p h x, dlist m t p h L → L.Nodup → p ∉ L → x ∈ L → m x ≠ x := by
  induction L with
  | nil => intro p h x _ _ _ hx; exact absurd hx (List.not_mem_nil x)
  | cons y L ih =>
    intro p h x d hn hp hx
    obtain ⟨_, d2, d3⟩ := d
    have hn1 := List.nodup_cons.mp hn
    rcases List.mem_cons.mp hx with e | hx1
    · subst e
      intro e1
      rw [d2] at e1
      exact hp (e1 ▸ List.mem_cons_self _ L)
    · exact ih y (m (y + 8)) x d3 hn1.2 hn1.1 hx1

/-- The function `remove_from_free_list` on an entry `x` with links `px` and
`nx`. -/
theorem remove_mk (m : Nat → Nat) (lo B mx f li hd : Nat) (ls t : Int) (x px nx : Nat)
    (hp : m x = px) (hn : m (x + 8) = nx)
    (h16 : x % 16 = 0) (hl : lo ≤ x) (hb : x + 16 ≤ B) (hB : B + 16 < 2 ^ 64)
    (p16 : px % 16 = 0) (pl : px ≠ 0 → lo ≤ px ∧ px + 16 ≤ B) (pne : px ≠ x)
    (n16 : nx % 16 = 0) (nl : lo ≤ nx) (nb : nx + 8 ≤ B) :
    remove_from_free_list ⟨m, lo, B, mx, f, li, hd, ls, t⟩ x =
      some ⟨if px ≠ 0 then upd (upd m (px + 8) nx) nx px else upd m nx px,
        lo, B, mx, f, li, if px ≠ 0 then hd else nx, ls, t⟩ := by
  by_cases h0 : px ≠ 0
  · rw [if_pos h0, if_pos h0]
    obtain ⟨pl1, pl2⟩ := pl h0
    have e1 : padd x WSIZE = x + 8 := by unfold WSIZE; exact padd_eq _ _ (by omega)
    have e2 : padd px WSIZE = px + 8 := by unfold WSIZE; exact padd_eq _ _ (by omega)
    have g1 := GET_mk m lo B mx f li hd ls t x (by omega) hl (by omega)
    have g2 := GET_mk m lo B mx f li hd ls t (x + 8) (by omega) (by omega) (by omega)
    have p1 := PUT_mk m lo B mx f li hd ls t (px + 8) nx (by omega) (by omega) (by omega)
    have g3 := GET_mk (upd m (px + 8) nx) lo B mx f li hd ls t (x + 8) (by omega) (by omega)
      (by omega)
    have g4 := GET_mk (upd m (px + 8) nx) lo B mx f li hd ls t x (by omega) hl (by omega)
    have p2 := PUT_mk (upd m (px + 8) nx) lo B mx f li hd ls t nx px (by omega) nl nb
    rw [hp] at g1
    rw [hn] at g2
    rw [upd_ne _ _ _ _ (by omega), hn] at g3
    rw [upd_ne _ _ _ _ (by omega), hp] at g4
    unfold remove_from_free_list GET_PREV_b GET_NEXT_b SET_PREV_b SET_NEXT_b
    rw [e1, g1, Option.some_bind, g2, Option.some_bind, if_pos h0, e2, p1, Option.some_bind, g3,
      Option.some_bind, g4, Option.some_bind, p2]
  · have h00 : px = 0 := by omega
    rw [if_neg h0, if_neg h0, h00]
    rw [h00] at hp
    exact remove_head_mk m lo B mx f li hd ls t x nx (by omega) hl hb hB hp hn (by omega) nl nb

theorem dlist_head_prev (m : Nat → Nat) (t p h : Nat) (L : List Nat) (d : dlist m t p h L)
    (hh : h ∈ L) : m h = p := by
  cases L with
  | nil => exact absurd hh (List.not_mem_nil h)
  | cons y L =>
    obtain ⟨d1, d2, _⟩ := d
    rw [d1]; exact d2

theorem ListOK.zero_not_mem {m : Nat → Nat} {lo B t hd : Nat} {L : List Nat}
    (ok : ListOK m lo B t hd L) : 0 ∉ L := by
  intro h
  have := (ok.node 0 h).lo8
  omega

theorem ListOK.end_not_mem {m : Nat → Nat} {lo B t hd : Nat} {L : List Nat}
    (ok : ListOK m lo B t hd L) : t ∉ L := by
  intro h
  have := (ok.node t h).above
  omega

/-- The header of a list entry is no link of the list. -/
theorem ListOK.quiet_hdr {m : Nat → Nat} {lo B t hd : Nat} {L : List Nat}
    (ok : ListOK m lo B t hd L) {y : Nat} (hy : y ∈ L) :
    (∀ z ∈ L, y - 8 ≠ z ∧ y - 8 ≠ z + 8) ∧ y - 8 ≠ t := by
  have ny := ok.node y hy
  obtain ⟨a1, a2, a3, a4, a5, a6, a7⟩ := ny
  have ht := ok.t16
  refine ⟨?_, by omega⟩
  intro z hz
  obtain ⟨b1, b2, b3, b4, b5, b6, b7⟩ := ok.node z hz
  by_cases e : z = y
  · subst e; omega
  · have := ok.apart z hz y hy e
    omega

/-- The footer of a list entry is no link of the list. -/
theorem ListOK.quiet_ftr {m : Nat → Nat} {lo B t hd : Nat} {L : List Nat}
    (ok : ListOK m lo B t hd L) {y : Nat} (hy : y ∈ L) :
    (∀ z ∈ L, y + m (y - 8) - 16 ≠ z ∧ y + m (y - 8) - 16 ≠ z + 8) ∧
      y + m (y - 8) - 16 ≠ t := by
  have ny := ok.node y hy
  obtain ⟨a1, a2, a3, a4, a5, a6, a7⟩ := ny
  have ht := ok.t16
  refine ⟨?_, by omega⟩
  intro z hz
  obtain ⟨b1, b2, b3, b4, b5, b6, b7⟩ := ok.node z hz
  by_cases e : z = y
  · subst e; omega
  · have := ok.apart z hz y hy e
    omega

/-- The header of the block that ends the list is no link of the list. -/
theorem ListOK.quiet_end {m : Nat → Nat} {lo B t hd : Nat} {L : List Nat}
    (ok : ListOK m lo B t hd L) :
    (∀ z ∈ L, t - 8 ≠ z ∧ t - 8 ≠ z + 8) ∧ t - 8 ≠ t := by
  have ht := ok.t16
  have h2 := ok.tlo
  refine ⟨?_, by omega⟩
  intro z hz
  obtain ⟨b1, b2, b3, b4, b5, b6, b7⟩ := ok.node z hz
  omega

/-- A memory that agrees with `m` on the links and the tags of the list
entries and on the header of the block that ends the list carries the same
well-formed list. -/
theorem ListOK.transfer {m m1 : Nat → Nat} {lo B t hd : Nat} {L : List Nat}
    (ok : ListOK m lo B t hd L)
    (h : ∀ y ∈ L, m1 y = m y ∧ m1 (y + 8) = m (y + 8) ∧ m1 (y - 8) = m (y - 8) ∧
      m1 (y + m (y - 8) - 16) = m (y + m (y - 8) - 16))
    (ht : m1 (t - 8) = m (t - 8)) : ListOK m1 lo B t hd L := by
  refine ⟨?_, ok.nodup, ?_, ?_, ok.t16, ok.tlo, ok.thi, by rw [ht]; exact ok.talloc⟩
  · exact dlist_frame m m1 t L 0 hd (fun y hy => ⟨(h y hy).1, (h y hy).2.1⟩) ok.links
  · intro y hy
    obtain ⟨a1, a2, a3, a4, a5, a6, a7⟩ := ok.node y hy
    obtain ⟨_, _, c3, c4⟩ := h y hy
    exact ⟨a1, a2, by rw [c3]; exact a3, by rw [c3]; exact a4, by rw [c3]; exact a5,
      by rw [c3, c4]; exact a6, a7⟩
  · intro x hx y hy hne
    rw [(h x hx).2.2.1, (h y hy).2.2.1]
    exact ok.apart x hx y hy hne

/-- The function `remove_from_free_list` on an entry `x` of a well-formed
list: the list without `x` is well formed, and only links of list entries and
of the block that ends the list are written. -/
theorem list_remove (m : Nat → Nat) (lo B mx f li hd : Nat) (ls tm : Int) (t x : Nat)
    (L : List Nat) (ok : ListOK m lo B t hd L) (hx : x ∈ L) (hB : B + 16 < 2 ^ 64) :
    ∃ (m1 : Nat → Nat) (hd1 : Nat),
      remove_from_free_list ⟨m, lo, B, mx, f, li, hd, ls, tm⟩ x =
        some ⟨m1, lo, B, mx, f, li, hd1, ls, tm⟩ ∧
      ListOK m1 lo B t hd1 (L.erase x) ∧
      (∀ a, (∀ y ∈ L, a ≠ y ∧ a ≠ y + 8) → a ≠ t → m1 a = m a) := by
  have h0L := ok.zero_not_mem
  have htL := ok.end_not_mem
  have nx := ok.node x hx
  have hpx := dlist_prev_mem m t L 0 hd x ok.links hx
  have hnx := dlist_next_mem m t L 0 hd x ok.links hx
  have hpne := dlist_prev_ne m t L 0 hd x ok.links ok.nodup h0L hx
  have t16 := ok.t16
  have tlo := ok.tlo
  have thi := ok.thi
  -- facts on the two links of `x`
  have p16 : m x % 16 = 0 := by
    rcases hpx with ⟨_, e⟩ | e
    · rw [e]
    · exact (ok.node _ e).al
  have pl : m x ≠ 0 → lo ≤ m x ∧ m x + 16 ≤ B := by
    intro h
    rcases hpx with ⟨_, e⟩ | e
    · exact absurd e h
    · obtain ⟨_, c2, _, c4, c5, _, _⟩ := ok.node _ e
      exact ⟨by omega, by omega⟩
  have n16 : m (x + 8) % 16 = 0 := by
    rcases hnx with e | e
    · rw [e]; exact t16
    · exact (ok.node _ e).al
  have nl : lo ≤ m (x + 8) ∧ m (x + 8) + 8 ≤ B := by
    rcases hnx with e | e
    · rw [e]; omega
    · obtain ⟨_, c2, _, c4, c5, _, _⟩ := ok.node _ e
      exact ⟨by omega, by omega⟩
  obtain ⟨x1, x2, x3, x4, x5, x6, x7⟩ := nx
  have rm := remove_mk m lo B mx f li hd ls tm x (m x) (m (x + 8)) rfl rfl x1
    (by omega) (by omega) hB p16 pl hpne n16 nl.1 nl.2
  -- the written memory
  have hm1 : ∀ a, a ≠ m (x + 8) → (m x ≠ 0 → a ≠ m x + 8) →
      (if m x ≠ 0 then upd (upd m (m x + 8) (m (x + 8))) (m (x + 8)) (m x)
        else upd m (m (x + 8)) (m x)) a = m a := by
    intro a h1 h2
    by_cases h : m x ≠ 0
    · rw [if_pos h, upd_ne _ _ _ _ h1, upd_ne _ _ _ _ (h2 h)]
    · rw [if_neg h, upd_ne _ _ _ _ h1]
  have hm2 : (if m x ≠ 0 then upd (upd m (m x + 8) (m (x + 8))) (m (x + 8)) (m x)
        else upd m (m (x + 8)) (m x)) (m (x + 8)) = m x := by
    by_cases h : m x ≠ 0
    · rw [if_pos h, upd_eq _ _ _ _ rfl]
    · rw [if_neg h, upd_eq _ _ _ _ rfl]
  have hm3 : m x ≠ 0 → (if m x ≠ 0 then upd (upd m (m x + 8) (m (x + 8))) (m (x + 8)) (m x)
        else upd m (m (x + 8)) (m x)) (m x + 8) = m (x + 8) := by
    intro h
    rw [if_pos h, upd_ne _ _ _ _ (by omega), upd_eq _ _ _ _ rfl]
  have frame : ∀ a, (∀ y ∈ L, a ≠ y ∧ a ≠ y + 8) → a ≠ t →
      (if m x ≠ 0 then upd (upd m (m x + 8) (m (x + 8))) (m (x + 8)) (m x)
        else upd m (m (x + 8)) (m x)) a = m a := by
    intro a ha hat
    refine hm1 a ?_ ?_
    · rcases hnx with e | e
      · rw [e]; exact hat
      · exact (ha _ e).1
    · intro h
      rcases hpx with ⟨_, e⟩ | e
      · exact absurd e h
      · exact (ha _ e).2
  refine ⟨_, _, rm, ?_, frame⟩
  have hsub : ∀ y, y ∈ L.erase x → y ∈ L := fun y hy => List.mem_of_mem_erase hy
  refine ⟨?_, ok.nodup.erase x, ?_, ?_, t16, tlo, thi, ?_⟩
  · have hhd : (if m x ≠ 0 then hd else m (x + 8)) = (if hd = x then m (x + 8) else hd) := by
      by_cases e : hd = x
      · have : m x = 0 := by
          have := dlist_head_prev m t 0 hd L ok.links (e ▸ hx)
          rw [e] at this; exact this
        rw [if_pos e, if_neg (by omega)]
      · rcases hpx with ⟨e1, _⟩ | e1
        · exact absurd e1.symm e
        · have : m x ≠ 0 := fun h => h0L (h ▸ e1)
          rw [if_neg e, if_pos this]
    rw [hhd]
    refine dlist_erase m _ t x hm2 L 0 hd hx ok.nodup htL h0L ?_ ?_ ?_ ok.links
    · intro hmem
      exact hm3 (fun h => h0L (h ▸ hmem))
    · intro y hy hne
      refine hm1 y hne ?_
      intro _
      have := (ok.node y hy).al
      omega
    · intro y hy hne
      refine hm1 (y + 8) ?_ ?_
      · have := (ok.node y hy).al
        omega
      · intro _; omega
  · intro y hy
    have hyL := hsub y hy
    obtain ⟨a1, a2, a3, a4, a5, a6, a7⟩ := ok.node y hyL
    have q1 := ok.quiet_hdr hyL
    have q2 := ok.quiet_ftr hyL
    have e1 := frame (y - 8) q1.1 q1.2
    have e2 := frame (y + m (y - 8) - 16) q2.1 q2.2
    exact ⟨a1, a2, by rw [e1]; exact a3, by rw [e1]; exact a4, by rw [e1]; exact a5,
      by rw [e1, e2]; exact a6, a7⟩
  · intro y hy z hz hne
    have q1 := ok.quiet_hdr (hsub y hy)
    have q2 := ok.quiet_hdr (hsub z hz)
    rw [frame (y - 8) q1.1 q1.2, frame (z - 8) q2.1 q2.2]
    exact ok.apart y (hsub y hy) z (hsub z hz) hne
  · have q := ok.quiet_end
    rw [frame (t - 8) q.1 q.2]
    exact ok.talloc

theorem ListOK.head_facts {m : Nat → Nat} {lo B t hd : Nat} {L : List Nat}
    (ok : ListOK m lo B t hd L) : hd % 16 = 0 ∧ lo ≤ hd ∧ hd + 8 ≤ B ∧ (hd = t ∨ hd ∈ L) := by
  have t16 := ok.t16
  have tlo := ok.tlo
  have thi := ok.thi
  rcases dlist_start m t 0 hd L ok.links with e | e
  · rw [e]; exact ⟨t16, by omega, thi, Or.inl rfl⟩
  · obtain ⟨c1, c2, c3, c4, c5, c6, c7⟩ := ok.node _ e
    exact ⟨c1, by omega, by omega, Or.inr e⟩

/-- Writing the tags `(S, free)` of a block `r` that does not overlap the list
entries keeps the list well formed. -/
theorem list_tags (m : Nat → Nat) (lo B t hd r S : Nat) (L : List Nat)
    (ok : ListOK m lo B t hd L)
    (r16 : r % 16 = 0) (rlo : lo + 8 ≤ r) (S16 : S % 16 = 0) (S32 : 32 ≤ S) (rhi : r + S ≤ B)
    (rt : t + 16 ≤ r) (ap : ∀ y ∈ L, r + S ≤ y ∨ y + m (y - 8) ≤ r) :
    ListOK (upd (upd m (r - 8) S) (r + S - 16) S) lo B t hd L ∧
    FreeNode (upd (upd m (r - 8) S) (r + S - 16) S) lo B t r ∧
    (∀ y ∈ L, r + S ≤ y ∨ y + (upd (upd m (r - 8) S) (r + S - 16) S) (y - 8) ≤ r) := by
  have t16 := ok.t16
  have tlo := ok.tlo
  have key : ∀ y ∈ L, (upd (upd m (r - 8) S) (r + S - 16) S) y = m y ∧
      (upd (upd m (r - 8) S) (r + S - 16) S) (y + 8) = m (y + 8) ∧
      (upd (upd m (r - 8) S) (r + S - 16) S) (y - 8) = m (y - 8) ∧
      (upd (upd m (r - 8) S) (r + S - 16) S) (y + m (y - 8) - 16) = m (y + m (y - 8) - 16) := by
    intro y hy
    obtain ⟨c1, c2, c3, c4, c5, c6, c7⟩ := ok.node y hy
    have := ap y hy
    refine ⟨?_, ?_, ?_, ?_⟩
    · rw [upd_ne _ _ _ _ (by omega), upd_ne _ _ _ _ (by omega)]
    · rw [upd_ne _ _ _ _ (by omega), upd_ne _ _ _ _ (by omega)]
    · rw [upd_ne _ _ _ _ (by omega), upd_ne _ _ _ _ (by omega)]
    · rw [upd_ne _ _ _ _ (by omega), upd_ne _ _ _ _ (by omega)]
  have e1 : (upd (upd m (r - 8) S) (r + S - 16) S) (r - 8) = S := by
    rw [upd_ne _ _ _ _ (by omega), upd_eq _ _ _ _ rfl]
  refine ⟨ok.transfer key ?_, ?_, ?_⟩
  · rw [upd_ne _ _ _ _ (by omega), upd_ne _ _ _ _ (by omega)]
  · refine ⟨r16, rlo, by rw [e1]; exact S16, by rw [e1]; exact S32, by rw [e1]; exact rhi, ?_,
      rt⟩
    rw [e1, upd_eq _ _ _ _ rfl]
  · intro y hy
    rw [(key y hy).2.2.1]
    exact ap y hy

/-- The function `insert_in_free_list` on a free block `r` that is not on the
well-formed list and does not overlap its entries: `r` is the new head. -/
theorem list_insert (m : Nat → Nat) (lo B mx f li hd : Nat) (ls tm : Int) (t r : Nat)
    (L : List Nat) (ok : ListOK m lo B t hd L) (hB : B + 16 < 2 ^ 64)
    (nr : FreeNode m lo B t r) (rL : r ∉ L)
    (ap : ∀ y ∈ L, r + m (r - 8) ≤ y ∨ y + m (y - 8) ≤ r) :
    ∃ m1 : Nat → Nat,
      insert_in_free_list ⟨m, lo, B, mx, f, li, hd, ls, tm⟩ r =
        some ⟨m1, lo, B, mx, f, li, r, ls, tm⟩ ∧
      ListOK m1 lo B t r (r :: L) ∧ m1 (r - 8) = m (r - 8) := by
  have t16 := ok.t16
  have tlo := ok.tlo
  have thi := ok.thi
  have htL := ok.end_not_mem
  obtain ⟨g1, g2, g3, g4⟩ := ok.head_facts
  obtain ⟨r1, r2, r3, r4, r5, r6, r7⟩ := nr
  have hdr : hd ≠ r := by
    rcases g4 with e | e
    · omega
    · intro e1; exact rL (e1 ▸ e)
  have hdf : r + m (r - 8) - 16 ≠ hd := by
    rcases g4 with e | e
    · omega
    · obtain ⟨c1, c2, c3, c4, c5, c6, c7⟩ := ok.node _ e
      have := ap hd e
      omega
  have ins := insert_mk m lo B mx f li hd ls tm r (by omega) (by omega) (by omega) hB
    (by omega) g2 g3
  have key : ∀ y ∈ L, (y ≠ hd → (upd (upd (upd m (r + 8) hd) hd r) r 0) y = m y) ∧
      (upd (upd (upd m (r + 8) hd) hd r) r 0) (y + 8) = m (y + 8) ∧
      (upd (upd (upd m (r + 8) hd) hd r) r 0) (y - 8) = m (y - 8) ∧
      (upd (upd (upd m (r + 8) hd) hd r) r 0) (y + m (y - 8) - 16) =
        m (y + m (y - 8) - 16) := by
    intro y hy
    obtain ⟨c1, c2, c3, c4, c5, c6, c7⟩ := ok.node y hy
    have := ap y hy
    have hyr : y ≠ r := fun e => rL (e ▸ hy)
    refine ⟨?_, ?_, ?_, ?_⟩
    · intro hne
      rw [upd_ne _ _ _ _ hyr, upd_ne _ _ _ _ hne, upd_ne _ _ _ _ (by omega)]
    · rw [upd_ne _ _ _ _ (by omega), upd_ne _ _ _ _ (by omega), upd_ne _ _ _ _ (by omega)]
    · rw [upd_ne _ _ _ _ (by omega), upd_ne _ _ _ _ (by omega), upd_ne _ _ _ _ (by omega)]
    · have hf : y + m (y - 8) - 16 ≠ hd := by
        rcases g4 with e | e
        · omega
        · by_cases e1 : hd = y
          · omega
          · obtain ⟨d1, d2, d3, d4, d5, d6, d7⟩ := ok.node _ e
            have := ok.apart hd e y hy e1
            omega
      rw [upd_ne _ _ _ _ (by omega), upd_ne _ _ _ _ hf, upd_ne _ _ _ _ (by omega)]
  have e1 : (upd (upd (upd m (r + 8) hd) hd r) r 0) (r - 8) = m (r - 8) := by
    rw [upd_ne _ _ _ _ (by omega), upd_ne _ _ _ _ (by omega), upd_ne _ _ _ _ (by omega)]
  have e2 : (upd (upd (upd m (r + 8) hd) hd r) r 0) (r + m (r - 8) - 16) =
      m (r + m (r - 8) - 16) := by
    rw [upd_ne _ _ _ _ (by omega), upd_ne _ _ _ _ hdf, upd_ne _ _ _ _ (by omega)]
  have e3 : (upd (upd (upd m (r + 8) hd) hd r) r 0) (r + 8) = hd := by
    rw [upd_ne _ _ _ _ (by omega), upd_ne _ _ _ _ (by omega), upd_eq _ _ _ _ rfl]
  refine ⟨_, ins, ?_, e1⟩
  refine ⟨?_, List.nodup_cons.mpr ⟨rL, ok.nodup⟩, ?_, ?_, t16, tlo, thi, ?_⟩
  · refine ⟨rfl, upd_eq _ _ _ _ rfl, ?_⟩
    rw [e3]
    refine dlist_reprev m _ t 0 r hd L ok.nodup htL ?_ ?_ ?_ ok.links
    · intro _
      rw [upd_ne _ _ _ _ hdr, upd_eq _ _ _ _ rfl]
    · intro y hy hne
      exact (key y hy).1 hne
    · intro y hy
      exact (key y hy).2.1
  · intro y hy
    rcases List.mem_cons.mp hy with e | e
    · rw [e]
      exact ⟨r1, r2, by rw [e1]; exact r3, by rw [e1]; exact r4, by rw [e1]; exact r5,
        by rw [e1, e2]; exact r6, r7⟩
    · obtain ⟨c1, c2, c3, c4, c5, c6, c7⟩ := ok.node y e
      obtain ⟨_, _, k3, k4⟩ := key y e
      exact ⟨c1, c2, by rw [k3]; exact c3, by rw [k3]; exact c4, by rw [k3]; exact c5,
        by rw [k3, k4]; exact c6, c7⟩
  · intro y hy z hz hne
    rcases List.mem_cons.mp hy with e | e
    · rcases List.mem_cons.mp hz with e' | e'
      · exact absurd (e.trans e'.symm) hne
      · rw [e, e1, (key z e').2.2.1]
        exact ap z e'
    · rcases List.mem_cons.mp hz with e' | e'
      · rw [e', e1, (key y e).2.2.1]
        exact (ap y e).symm
      · rw [(key y e).2.2.1, (key z e').2.2.1]
        exact ok.apart y e z e' hne
  · rw [upd_ne _ _ _ _ (by omega), upd_ne _ _ _ _ (by omega), upd_ne _ _ _ _ (by omega)]
    exact ok.talloc

/-- The chain of a well-formed list is the free list the search loop walks. -/
theorem dlist_free_list (m : Nat → Nat) (lo B mx f li hd0 : Nat) (ls tm : Int) (t : Nat)
    (hB : B + 16 < 2 ^ 64) (t16 : t % 16 = 0) (tlo : lo + 8 ≤ t) (thi : t + 8 ≤ B)
    (ta : tagAlloc (m (t - 8)) = 1) (L : List Nat) :
    ∀ p h, dlist m t p h L → (∀ x ∈ L, FreeNode m lo B t x) →
      FreeList ⟨m, lo, B, mx, f, li, hd0, ls, tm⟩ h L := by
  induction L with
  | nil =>
    intro p h d _
    have e : h = t := d
    rw [e]
    refine FreeList.nil t 1 ?_ (by decide)
    rw [HDRP_eq t (by omega) (by omega),
      GET_ALLOC_mk m lo B mx f li hd0 ls tm (t - 8) (by omega) (by omega) (by omega), ta]
  | cons y L ih =>
    intro p h d hn
    obtain ⟨d1, d2, d3⟩ := d
    obtain ⟨c1, c2, c3, c4, c5, c6, c7⟩ := hn y (List.mem_cons_self y L)
    rw [d1]
    refine FreeList.cons y (m (y + 8)) L ?_ ?_
      (ih y (m (y + 8)) d3 (fun x hx => hn x (List.mem_cons_of_mem y hx)))
    · rw [HDRP_eq y (by omega) (by omega),
        GET_ALLOC_mk m lo B mx f li hd0 ls tm (y - 8) (by omega) (by omega) (by omega),
        tagAlloc_even _ c3]
    · unfold GET_NEXT_b WSIZE
      rw [padd_eq _ _ (by omega),
        GET_mk m lo B mx f li hd0 ls tm (y + 8) (by omega) (by omega) (by omega)]

theorem coalesce_cases_both (σ : Heap) (b s : Nat) :
    coalesce_cases σ b s false false = coalesce_both σ b s := rfl

/-- The statements `PUT(HDRP(r), set(S, 0)); PUT(FTRP(r), set(S, 0));
insert_in_free_list(r);` that end `coalesce`, on a well-formed list whose
entries do not overlap the merged block `r` of size `S`. -/
theorem list_merge (m : Nat → Nat) (lo B mx f li hd : Nat) (ls tm : Int) (t r S : Nat)
    (L : List Nat) (ok : ListOK m lo B t hd L) (hB : B + 16 < 2 ^ 64)
    (r16 : r % 16 = 0) (rlo : lo + 8 ≤ r) (S16 : S % 16 = 0) (S32 : 32 ≤ S) (rhi : r + S ≤ B)
    (rt : t + 16 ≤ r) (rL : r ∉ L) (ap : ∀ y ∈ L, r + S ≤ y ∨ y + m (y - 8) ≤ r) :
    ∃ m3 m4 : Nat → Nat,
      put_tags ⟨m, lo, B, mx, f, li, hd, ls, tm⟩ r S 0 =
        some ⟨m3, lo, B, mx, f, li, hd, ls, tm⟩ ∧
      insert_in_free_list ⟨m3, lo, B, mx, f, li, hd, ls, tm⟩ r =
        some ⟨m4, lo, B, mx, f, li, r, ls, tm⟩ ∧
      ListOK m4 lo B t r (r :: L) ∧ m4 (r - 8) = S := by
  have pt := put_tags_mk m lo B mx f li hd ls tm r S 0 S16 (by omega) (by omega) rlo (by omega)
    (by omega) hB
  have z : S + 0 = S := by omega
  rw [z] at pt
  obtain ⟨ok3, n3, ap3⟩ := list_tags m lo B t hd r S L ok r16 rlo S16 S32 rhi rt ap
  have e1 : (upd (upd m (r - 8) S) (r + S - 16) S) (r - 8) = S := by
    rw [upd_ne _ _ _ _ (by omega), upd_eq _ _ _ _ rfl]
  obtain ⟨m4, ins, ok4, e4⟩ := list_insert _ lo B mx f li hd ls tm t r L ok3 hB n3 rL
    (by rw [e1]; exact ap3)
  exact ⟨_, m4, pt, ins, ok4, by rw [e4, e1]⟩

/-- The reads of `coalesce` on a free block `b` of a well-formed heap whose
previous block counts as allocated: the word before the header of `b` has
size part 0, or it is the footer of an allocated block. -/
theorem coalesce_read_alloc (m : Nat → Nat) (lo B mx f li hd : Nat) (ls tm : Int) (t b : Nat)
    (hB : B + 16 < 2 ^ 64) (nb : FreeNode m lo B t b) (tlo : lo + 8 ≤ t)
    (hpa : tagSize (m (b - 16)) = 0 ∨
      (16 ≤ tagSize (m (b - 16)) ∧ lo + 8 + tagSize (m (b - 16)) ≤ b ∧
        m (b - tagSize (m (b - 16)) - 8) = m (b - 16) ∧ tagAlloc (m (b - 16)) ≠ 0)) :
    coalesce ⟨m, lo, B, mx, f, li, hd, ls, tm⟩ b =
      (coalesce_cases ⟨m, lo, B, mx, f, li, hd, ls, tm⟩ b (m (b - 8))
        (tagAlloc (m (b + m (b - 8) - 8)) != 0) true).bind fun r =>
      (insert_in_free_list r.1 r.2).map fun σ1 => (σ1, r.2) := by
  obtain ⟨b1, b2, b3, b4, b5, b6, b7⟩ := nb
  have es : tagSize (m (b - 8)) = m (b - 8) := tagSize_even _ b3 (by omega)
  rcases hpa with h0 | ⟨h1, h2, h3, h4⟩
  · have ehs : tagSize (m (b - 0 - 8)) = m (b - 8) := by
      have : b - 0 - 8 = b - 8 := by omega
      rw [this]; exact es
    have c := coalesce_mk m lo B mx f li hd ls tm b (m (b - 8)) 0 (m (b - 8)) es h0 ehs
      (by omega) (by omega) b5 (by omega) (by omega) (by omega) (by omega) hB
    have t2 : (tagAlloc (m (b - 0 + m (b - 8) - 16)) != 0 || b - 0 == b) = true := by
      have : b - 0 = b := by omega
      rw [this, beq_self_eq_true, Bool.or_true]
    rw [c, t2]
  · have m16 := tagSize_mod (m (b - 16))
    have ehs : tagSize (m (b - tagSize (m (b - 16)) - 8)) = tagSize (m (b - 16)) := by rw [h3]
    have c := coalesce_mk m lo B mx f li hd ls tm b (m (b - 8)) (tagSize (m (b - 16)))
      (tagSize (m (b - 16))) es rfl ehs (by omega) (by omega) b5 (by omega) h2 (by omega)
      (by omega) hB
    have t2 : (tagAlloc (m (b - tagSize (m (b - 16)) + tagSize (m (b - 16)) - 16)) != 0
        || b - tagSize (m (b - 16)) == b) = true := by
      have : b - tagSize (m (b - 16)) + tagSize (m (b - 16)) - 16 = b - 16 := by omega
      rw [this]
      have : (tagAlloc (m (b - 16)) != 0) = true := by
        rw [bne_iff_ne]; exact h4
      rw [this, Bool.true_or]
    rw [c, t2]

/-- The reads of `coalesce` on a free block `b` of a well-formed heap whose
previous block is free. -/
theorem coalesce_read_free (m : Nat → Nat) (lo B mx f li hd : Nat) (ls tm : Int) (t b : Nat)
    (hB : B + 16 < 2 ^ 64) (nb : FreeNode m lo B t b) (tlo : lo + 8 ≤ t)
    (h1 : 16 ≤ tagSize (m (b - 16))) (h2 : lo + 8 + tagSize (m (b - 16)) ≤ b)
    (h3 : m (b - tagSize (m (b - 16)) - 8) = m (b - 16)) (h4 : tagAlloc (m (b - 16)) = 0) :
    coalesce ⟨m, lo, B, mx, f, li, hd, ls, tm⟩ b =
      (coalesce_cases ⟨m, lo, B, mx, f, li, hd, ls, tm⟩ b (m (b - 8))
        (tagAlloc (m (b + m (b - 8) - 8)) != 0) false).bind fun r =>
      (insert_in_free_list r.1 r.2).map fun σ1 => (σ1, r.2) := by
  obtain ⟨b1, b2, b3, b4, b5, b6, b7⟩ := nb
  have es : tagSize (m (b - 8)) = m (b - 8) := tagSize_even _ b3 (by omega)
  have m16 := tagSize_mod (m (b - 16))
  have ehs : tagSize (m (b - tagSize (m (b - 16)) - 8)) = tagSize (m (b - 16)) := by rw [h3]
  have c := coalesce_mk m lo B mx f li hd ls tm b (m (b - 8)) (tagSize (m (b - 16)))
    (tagSize (m (b - 16))) es rfl ehs (by omega) (by omega) b5 (by omega) h2 (by omega)
    (by omega) hB
  have t2 : (tagAlloc (m (b - tagSize (m (b - 16)) + tagSize (m (b - 16)) - 16)) != 0
      || b - tagSize (m (b - 16)) == b) = false := by
    have e : b - tagSize (m (b - 16)) + tagSize (m (b - 16)) - 16 = b - 16 := by omega
    have ne : (b - tagSize (m (b - 16)) == b) = false := by rw [beq_eq_false_iff_ne]; omega
    rw [e, h4, ne]
    rfl
  rw [c, t2]

/-- The end of `coalesce` when both neighbours of `b` count as allocated. -/
theorem run_alone (m : Nat → Nat) (lo B mx f li hd : Nat) (ls tm : Int) (t b : Nat)
    (L : List Nat) (ok : ListOK m lo B t hd L) (hB : B + 16 < 2 ^ 64)
    (nb : FreeNode m lo B t b) (fresh : b ∉ L)
    (apb : ∀ y ∈ L, b + m (b - 8) ≤ y ∨ y + m (y - 8) ≤ b) :
    ∃ m4 : Nat → Nat,
      ((coalesce_cases ⟨m, lo, B, mx, f, li, hd, ls, tm⟩ b (m (b - 8)) true true).bind fun r =>
        (insert_in_free_list r.1 r.2).map fun σ1 => (σ1, r.2)) =
        some (⟨m4, lo, B, mx, f, li, b, ls, tm⟩, b) ∧
      ListOK m4 lo B t b (b :: L) ∧ m4 (b - 8) = m (b - 8) := by
  obtain ⟨m4, ins, ok4, e4⟩ := list_insert m lo B mx f li hd ls tm t b L ok hB nb fresh apb
  refine ⟨m4, ?_, ok4, e4⟩
  rw [coalesce_cases_none, Option.some_bind]
  show (insert_in_free_list ⟨m, lo, B, mx, f, li, hd, ls, tm⟩ b).map _ = _
  rw [ins]
  rfl

/-- The end of `coalesce` when the next block is free and the previous block
counts as allocated. -/
theorem run_next (m : Nat → Nat) (lo B mx f li hd : Nat) (ls tm : Int) (t b : Nat)
    (L : List Nat) (ok : ListOK m lo B t hd L) (hB : B + 16 < 2 ^ 64)
    (nb : FreeNode m lo B t b) (fresh : b ∉ L)
    (apb : ∀ y ∈ L, b + m (b - 8) ≤ y ∨ y + m (y - 8) ≤ b)
    (hn : b + m (b - 8) ∈ L) :
    ∃ m4 : Nat → Nat,
      ((coalesce_cases ⟨m, lo, B, mx, f, li, hd, ls, tm⟩ b (m (b - 8)) false true).bind fun r =>
        (insert_in_free_list r.1 r.2).map fun σ1 => (σ1, r.2)) =
        some (⟨m4, lo, B, mx, f, li, b, ls, tm⟩, b) ∧
      ListOK m4 lo B t b (b :: L.erase (b + m (b - 8))) ∧
      m4 (b - 8) = m (b - 8) + m (b + m (b - 8) - 8) := by
  obtain ⟨b1, b2, b3, b4, b5, b6, b7⟩ := nb
  obtain ⟨c1, c2, c3, c4, c5, c6, c7⟩ := ok.node _ hn
  have tlo := ok.tlo
  have es : tagSize (m (b - 8)) = m (b - 8) := tagSize_even _ b3 (by omega)
  have n1 := NEXT_BLK_mk m lo B mx f li hd ls tm b (m (b - 8)) es (by omega) (by omega)
    (by omega) (by omega) hB
  have n2 := HDRP_eq (b + m (b - 8)) (by omega) (by omega)
  have n3 := GET_SIZE_mk m lo B mx f li hd ls tm (b + m (b - 8) - 8) (by omega) (by omega)
    (by omega)
  rw [tagSize_even _ c3 (by omega)] at n3
  obtain ⟨m1, hd1, rm, ok1, fr1⟩ := list_remove m lo B mx f li hd ls tm t (b + m (b - 8)) L ok
    hn hB
  have n4 : padd (m (b - 8)) (m (b + m (b - 8) - 8)) = m (b - 8) + m (b + m (b - 8) - 8) :=
    padd_eq _ _ (by omega)
  have hsub : ∀ y, y ∈ L.erase (b + m (b - 8)) → y ∈ L ∧ y ≠ b + m (b - 8) := by
    intro y hy
    exact ⟨List.mem_of_mem_erase hy, fun e => (List.Nodup.mem_erase_iff ok.nodup).mp hy |>.1 e⟩
  obtain ⟨m3, m4, pt, ins, ok4, e4⟩ := list_merge m1 lo B mx f li hd1 ls tm t b
    (m (b - 8) + m (b + m (b - 8) - 8)) (L.erase (b + m (b - 8))) ok1 hB b1 b2 (by omega)
    (by omega) (by omega) b7 (fun h => fresh (hsub b h).1)
    (by
      intro y hy
      obtain ⟨hyL, hne⟩ := hsub y hy
      have q := ok.quiet_hdr hyL
      rw [fr1 (y - 8) q.1 q.2]
      obtain ⟨d1, d2, d3, d4, d5, d6, d7⟩ := ok.node y hyL
      have a1 := apb y hyL
      have a2 := ok.apart y hyL _ hn hne
      omega)
  refine ⟨m4, ?_, ok4, e4⟩
  rw [coalesce_cases_next]
  unfold coalesce_next
  rw [n1, Option.some_bind, n2, n3, Option.some_bind, Option.some_bind, rm, Option.some_bind,
    n4, pt, Option.map_some', Option.some_bind]
  show (insert_in_free_list ⟨m3, lo, B, mx, f, li, hd1, ls, tm⟩ b).map _ = _
  rw [ins]
  rfl

/-- The end of `coalesce` when the previous block is free and the next block
is allocated. -/
theorem run_prev (m : Nat → Nat) (lo B mx f li hd : Nat) (ls tm : Int) (t b ps : Nat)
    (L : List Nat) (ok : ListOK m lo B t hd L) (hB : B + 16 < 2 ^ 64)
    (nb : FreeNode m lo B t b) (fresh : b ∉ L)
    (apb : ∀ y ∈ L, b + m (b - 8) ≤ y ∨ y + m (y - 8) ≤ b)
    (hps : tagSize (m (b - 16)) = ps) (hp : b - ps ∈ L) (hh : m (b - ps - 8) = m (b - 16)) :
    ∃ m4 : Nat → Nat,
      ((coalesce_cases ⟨m, lo, B, mx, f, li, hd, ls, tm⟩ b (m (b - 8)) true false).bind fun r =>
        (insert_in_free_list r.1 r.2).map fun σ1 => (σ1, r.2)) =
        some (⟨m4, lo, B, mx, f, li, b - ps, ls, tm⟩, b - ps) ∧
      ListOK m4 lo B t (b - ps) ((b - ps) :: L.erase (b - ps)) ∧
      m4 (b - ps - 8) = m (b - 8) + ps := by
  obtain ⟨b1, b2, b3, b4, b5, b6, b7⟩ := nb
  obtain ⟨c1, c2, c3, c4, c5, c6, c7⟩ := ok.node _ hp
  have tlo := ok.tlo
  rw [hh] at c3 c4 c5 c6
  have ew : tagSize (m (b - 16)) = m (b - 16) := tagSize_even _ c3 (by omega)
  have eps : m (b - 16) = ps := by rw [← ew]; exact hps
  rw [eps] at c3 c4 c5 c6
  have hne : b - ps ≠ b := fun e => fresh (e ▸ hp)
  have hbp : b - ps + ps = b := by
    have := apb _ hp
    rw [hh, eps] at this
    omega
  have n1 := PREV_BLK_mk m lo B mx f li hd ls tm b ps hps (by omega) (by omega) (by omega)
    (by omega) hB
  have n2 := HDRP_eq (b - ps) (by omega) (by omega)
  have n3 := GET_SIZE_mk m lo B mx f li hd ls tm (b - ps - 8) (by omega) (by omega) (by omega)
  rw [hh, hps] at n3
  obtain ⟨m1, hd1, rm, ok1, fr1⟩ := list_remove m lo B mx f li hd ls tm t (b - ps) L ok hp hB
  have n4 : padd (m (b - 8)) ps = m (b - 8) + ps := padd_eq _ _ (by omega)
  have hsub : ∀ y, y ∈ L.erase (b - ps) → y ∈ L ∧ y ≠ b - ps := by
    intro y hy
    exact ⟨List.mem_of_mem_erase hy, fun e => (List.Nodup.mem_erase_iff ok.nodup).mp hy |>.1 e⟩
  obtain ⟨m3, m4, pt, ins, ok4, e4⟩ := list_merge m1 lo B mx f li hd1 ls tm t (b - ps)
    (m (b - 8) + ps) (L.erase (b - ps)) ok1 hB c1 c2 (by omega) (by omega) (by omega) c7
    (fun h => (hsub _ h).2 rfl)
    (by
      intro y hy
      obtain ⟨hyL, hne⟩ := hsub y hy
      have q := ok.quiet_hdr hyL
      rw [fr1 (y - 8) q.1 q.2]
      obtain ⟨d1, d2, d3, d4, d5, d6, d7⟩ := ok.node y hyL
      have a1 := apb y hyL
      have a2 := ok.apart y hyL _ hp hne
      rw [hh, eps] at a2
      omega)
  refine ⟨m4, ?_, ok4, e4⟩
  rw [coalesce_cases_prev]
  unfold coalesce_prev
  rw [n1, Option.some_bind, n2, n3, Option.some_bind, rm, Option.some_bind, n4, pt,
    Option.map_some', Option.some_bind]
  show (insert_in_free_list ⟨m3, lo, B, mx, f, li, hd1, ls, tm⟩ (b - ps)).map _ = _
  rw [ins]
  rfl

/-- The end of `coalesce` when both neighbours are free. -/
theorem run_both (m : Nat → Nat) (lo B mx f li hd : Nat) (ls tm : Int) (t b ps : Nat)
    (L : List Nat) (ok : ListOK m lo B t hd L) (hB : B + 16 < 2 ^ 64)
    (nb : FreeNode m lo B t b) (fresh : b ∉ L)
    (apb : ∀ y ∈ L, b + m (b - 8) ≤ y ∨ y + m (y - 8) ≤ b)
    (hps : tagSize (m (b - 16)) = ps) (hp : b - ps ∈ L) (hh : m (b - ps - 8) = m (b - 16))
    (hn : b + m (b - 8) ∈ L) :
    ∃ m4 : Nat → Nat,
      ((coalesce_cases ⟨m, lo, B, mx, f, li, hd, ls, tm⟩ b (m (b - 8)) false false).bind
        fun r => (insert_in_free_list r.1 r.2).map fun σ1 => (σ1, r.2)) =
        some (⟨m4, lo, B, mx, f, li, b - ps, ls, tm⟩, b - ps) ∧
      ListOK m4 lo B t (b - ps) ((b - ps) :: (L.erase (b - ps)).erase (b + m (b - 8))) ∧
      m4 (b - ps - 8) = m (b - 8) + ps + m (b + m (b - 8) - 8) := by
  obtain ⟨b1, b2, b3, b4, b5, b6, b7⟩ := nb
  obtain ⟨c1, c2, c3, c4, c5, c6, c7⟩ := ok.node _ hp
  obtain ⟨k1, k2, k3, k4, k5, k6, k7⟩ := ok.node _ hn
  have tlo := ok.tlo
  rw [hh] at c3 c4 c5 c6
  have ew : tagSize (m (b - 16)) = m (b - 16) := tagSize_even _ c3 (by omega)
  have eps : m (b - 16) = ps := by rw [← ew]; exact hps
  rw [eps] at c3 c4 c5 c6
  have hne : b - ps ≠ b := fun e => fresh (e ▸ hp)
  have hbp : b - ps + ps = b := by
    have := apb _ hp
    rw [hh, eps] at this
    omega
  have es : tagSize (m (b - 8)) = m (b - 8) := tagSize_even _ b3 (by omega)
  have hpn : b + m (b - 8) ≠ b - ps := by omega
  have n1 := PREV_BLK_mk m lo B mx f li hd ls tm b ps hps (by omega) (by omega) (by omega)
    (by omega) hB
  have n2 := HDRP_eq (b - ps) (by omega) (by omega)
  have n3 := GET_SIZE_mk m lo B mx f li hd ls tm (b - ps - 8) (by omega) (by omega) (by omega)
  rw [hh, hps] at n3
  have n5 := NEXT_BLK_mk m lo B mx f li hd ls tm b (m (b - 8)) es (by omega) (by omega)
    (by omega) (by omega) hB
  have n6 := HDRP_eq (b + m (b - 8)) (by omega) (by omega)
  have n7 := GET_SIZE_mk m lo B mx f li hd ls tm (b + m (b - 8) - 8) (by omega) (by omega)
    (by omega)
  rw [tagSize_even _ k3 (by omega)] at n7
  obtain ⟨m1, hd1, rm1, ok1, fr1⟩ := list_remove m lo B mx f li hd ls tm t (b - ps) L ok hp hB
  -- the header of `b` and the footer before it are no links of the list
  have qb : (∀ y ∈ L, b - 8 ≠ y ∧ b - 8 ≠ y + 8) ∧ b - 8 ≠ t := by
    have t16 := ok.t16
    refine ⟨?_, by omega⟩
    intro y hy
    obtain ⟨d1, d2, d3, d4, d5, d6, d7⟩ := ok.node y hy
    have := apb y hy
    omega
  have qf : (∀ y ∈ L, b - 16 ≠ y ∧ b - 16 ≠ y + 8) ∧ b - 16 ≠ t := by
    have q := ok.quiet_ftr hp
    rw [hh, eps] at q
    have e : b - ps + ps - 16 = b - 16 := by omega
    rw [e] at q
    exact q
  have hnL1 : b + m (b - 8) ∈ L.erase (b - ps) :=
    (List.mem_erase_of_ne hpn).mpr hn
  have e1 : m1 (b - 8) = m (b - 8) := fr1 (b - 8) qb.1 qb.2
  have n8 := NEXT_BLK_mk m1 lo B mx f li hd1 ls tm b (m (b - 8)) (by rw [e1]; exact es)
    (by omega) (by omega) (by omega) (by omega) hB
  obtain ⟨m2, hd2, rm2, ok2, fr2⟩ := list_remove m1 lo B mx f li hd1 ls tm t (b + m (b - 8))
    (L.erase (b - ps)) ok1 hnL1 hB
  have hsub1 : ∀ y, y ∈ L.erase (b - ps) → y ∈ L ∧ y ≠ b - ps := by
    intro y hy
    exact ⟨List.mem_of_mem_erase hy, fun e => (List.Nodup.mem_erase_iff ok.nodup).mp hy |>.1 e⟩
  have hsub2 : ∀ y, y ∈ (L.erase (b - ps)).erase (b + m (b - 8)) →
      y ∈ L.erase (b - ps) ∧ y ≠ b + m (b - 8) := by
    intro y hy
    exact ⟨List.mem_of_mem_erase hy,
      fun e => (List.Nodup.mem_erase_iff ok1.nodup).mp hy |>.1 e⟩
  have fr12 : ∀ a, (∀ y ∈ L, a ≠ y ∧ a ≠ y + 8) → a ≠ t → m2 a = m a := by
    intro a ha hat
    rw [fr2 a (fun y hy => ha y (hsub1 y hy).1) hat]
    exact fr1 a ha hat
  have e2 : m2 (b - 16) = m (b - 16) := fr12 (b - 16) qf.1 qf.2
  have n9 := PREV_BLK_mk m2 lo B mx f li hd2 ls tm b ps (by rw [e2]; exact hps) (by omega)
    (by omega) (by omega) (by omega) hB
  have n4 : padd (m (b - 8)) (padd ps (m (b + m (b - 8) - 8))) =
      m (b - 8) + ps + m (b + m (b - 8) - 8) := by
    rw [padd_eq ps _ (by omega), padd_eq _ _ (by omega)]
    omega
  obtain ⟨m3, m4, pt, ins, ok4, e4⟩ := list_merge m2 lo B mx f li hd2 ls tm t (b - ps)
    (m (b - 8) + ps + m (b + m (b - 8) - 8)) ((L.erase (b - ps)).erase (b + m (b - 8))) ok2 hB
    c1 c2 (by omega) (by omega) (by omega) c7
    (fun h => (hsub1 _ (hsub2 _ h).1).2 rfl)
    (by
      intro y hy
      obtain ⟨hy1, hne2⟩ := hsub2 y hy
      obtain ⟨hyL, hne1⟩ := hsub1 y hy1
      have q := ok.quiet_hdr hyL
      rw [fr12 (y - 8) q.1 q.2]
      obtain ⟨d1, d2, d3, d4, d5, d6, d7⟩ := ok.node y hyL
      have a1 := apb y hyL
      have a2 := ok.apart y hyL _ hp hne1
      have a3 := ok.apart y hyL _ hn hne2
      rw [hh, eps] at a2
      omega)
  refine ⟨m4, ?_, ok4, e4⟩
  rw [coalesce_cases_both]
  unfold coalesce_both
  rw [n1, Option.some_bind, n2, n3, Option.some_bind, n5, Option.some_bind, n6, n7,
    Option.some_bind, rm1, Option.some_bind, n8, Option.some_bind, rm2, Option.some_bind, n9,
    Option.some_bind, n4, pt, Option.map_some', Option.some_bind]
  show (insert_in_free_list ⟨m3, lo, B, mx, f, li, hd2, ls, tm⟩ (b - ps)).map _ = _
  rw [ins]
  rfl

/-- The properties of the state after `coalesce`, from a well-formed list
that starts with the merged block `r`. -/
theorem merge_bundle (m4 : Nat → Nat) (lo B mx f li : Nat) (ls tm : Int) (t r S : Nat)
    (L1 : List Nat) (hB : B + 16 < 2 ^ 64) (ok4 : ListOK m4 lo B t r (r :: L1))
    (e4 : m4 (r - 8) = S) :
    m4 (r - 8) = set S 0 ∧ m4 (r + S - 16) = set S 0 ∧
    FreeList ⟨m4, lo, B, mx, f, li, r, ls, tm⟩ r (r :: L1) ∧ (r :: L1).Nodup := by
  have nr := ok4.node r (List.mem_cons_self r L1)
  obtain ⟨c1, c2, c3, c4, c5, c6, c7⟩ := nr
  rw [e4] at c3 c6
  have hs : set S 0 = S := by rw [set_eq_add S 0 c3 (by omega)]; omega
  rw [hs]
  exact ⟨e4, c6, dlist_free_list m4 lo B mx f li r ls tm t hB ok4.t16 ok4.tlo ok4.thi ok4.talloc
    (r :: L1) 0 r ok4.links ok4.node, ok4.nodup⟩

/-! ## Merging free neighbours (claim C15) -/

/-- Claim C15: in a well-formed heap, for a block `b` tagged free that is not
yet on the free list `L`, `coalesce(b)` returns the block `r` that is the
preceding block if that block is free and `b` otherwise; the size of `r` is
the size of `b` plus the sizes of its free neighbours; header and footer of `r`
both hold `set(size, 0)`; the head of the free list is `r`; the free list is
`r` followed by the entries of `L` other than the absorbed neighbours; it has
no repetition, so `r` is on it exactly once, and an absorbed following block is
not on it. -/
theorem coalesce_merges_free_neighbours (σ : Heap) (b t : Nat) (L : List Nat)
    (wf : WellFormedAt σ b t L) :
    ∃ σ1 : Heap, coalesce σ b = some (σ1, merged_addr σ b) ∧
      σ1.mem (merged_addr σ b - 8) = set (merged_size σ b) 0 ∧
      σ1.mem (merged_addr σ b + merged_size σ b - 16) = set (merged_size σ b) 0 ∧
      σ1.free_list_head = merged_addr σ b ∧
      FreeList σ1 σ1.free_list_head (merged_addr σ b :: merged_rest σ b L) ∧
      (merged_addr σ b :: merged_rest σ b L).Nodup ∧
      (next_free σ b = true →
        b + tagSize (σ.mem (b - 8)) ∉ merged_addr σ b :: merged_rest σ b L) := by
  obtain ⟨m, lo, B, mx, f, li, hd, ls, tm⟩ := σ
  obtain ⟨top, ok, nb, fresh, apb, hnext, hprev⟩ := wf
  dsimp only at top ok nb fresh apb hnext hprev
  have nb1 := nb
  obtain ⟨b1, b2, b3, b4, b5, b6, b7⟩ := nb1
  have tlo := ok.tlo
  have es : tagSize (m (b - 8)) = m (b - 8) := tagSize_even _ b3 (by omega)
  -- the conclusion from a run that ends in a well-formed list
  have finish : ∀ (m4 : Nat → Nat) (r S : Nat) (L1 : List Nat),
      coalesce ⟨m, lo, B, mx, f, li, hd, ls, tm⟩ b =
        some (⟨m4, lo, B, mx, f, li, r, ls, tm⟩, r) →
      ListOK m4 lo B t r (r :: L1) → m4 (r - 8) = S →
      merged_addr ⟨m, lo, B, mx, f, li, hd, ls, tm⟩ b = r →
      merged_size ⟨m, lo, B, mx, f, li, hd, ls, tm⟩ b = S →
      merged_rest ⟨m, lo, B, mx, f, li, hd, ls, tm⟩ b L = L1 →
      (next_free ⟨m, lo, B, mx, f, li, hd, ls, tm⟩ b = true →
        b + tagSize (m (b - 8)) ∉ r :: L1) →
      ∃ σ1 : Heap, coalesce ⟨m, lo, B, mx, f, li, hd, ls, tm⟩ b =
          some (σ1, merged_addr ⟨m, lo, B, mx, f, li, hd, ls, tm⟩ b) ∧
        σ1.mem (merged_addr ⟨m, lo, B, mx, f, li, hd, ls, tm⟩ b - 8) =
          set (merged_size ⟨m, lo, B, mx, f, li, hd, ls, tm⟩ b) 0 ∧
        σ1.mem (merged_addr ⟨m, lo, B, mx, f, li, hd, ls, tm⟩ b +
          merged_size ⟨m, lo, B, mx, f, li, hd, ls, tm⟩ b - 16) =
          set (merged_size ⟨m, lo, B, mx, f, li, hd, ls, tm⟩ b) 0 ∧
        σ1.free_list_head = merged_addr ⟨m, lo, B, mx, f, li, hd, ls, tm⟩ b ∧
        FreeList σ1 σ1.free_list_head (merged_addr ⟨m, lo, B, mx, f, li, hd, ls, tm⟩ b ::
          merged_rest ⟨m, lo, B, mx, f, li, hd, ls, tm⟩ b L) ∧
        (merged_addr ⟨m, lo, B, mx, f, li, hd, ls, tm⟩ b ::
          merged_rest ⟨m, lo, B, mx, f, li, hd, ls, tm⟩ b L).Nodup ∧
        (next_free ⟨m, lo, B, mx, f, li, hd, ls, tm⟩ b = true →
          b + tagSize ((⟨m, lo, B, mx, f, li, hd, ls, tm⟩ : Heap).mem (b - 8)) ∉
            merged_addr ⟨m, lo, B, mx, f, li, hd, ls, tm⟩ b ::
              merged_rest ⟨m, lo, B, mx, f, li, hd, ls, tm⟩ b L) := by
    intro m4 r S L1 hrun ok4 e4 hr hS hL habs
    obtain ⟨g1, g2, g3, g4⟩ := merge_bundle m4 lo B mx f li ls tm t r S L1 top ok4 e4
    rw [hr, hS, hL]
    exact ⟨_, hrun, g1, g2, rfl, g3, g4, habs⟩
  by_cases hnf : tagAlloc (m (b + m (b - 8) - 8)) = 0
  · -- the next block is free
    have hn := hnext hnf
    have na : (tagAlloc (m (b + m (b - 8) - 8)) != 0) = false := by rw [hnf]; rfl
    have hnfree : next_free ⟨m, lo, B, mx, f, li, hd, ls, tm⟩ b = true := by
      unfold next_free
      show (tagAlloc (m (b + tagSize (m (b - 8)) - 8)) == 0) = true
      rw [es, hnf]; rfl
    obtain ⟨k1, k2, k3, k4, k5, k6, k7⟩ := ok.node _ hn
    have ens : tagSize (m (b + m (b - 8) - 8)) = m (b + m (b - 8) - 8) :=
      tagSize_even _ k3 (by omega)
    by_cases hpf : tagSize (m (b - 16)) ≠ 0 ∧ tagAlloc (m (b - 16)) = 0
    · -- both neighbours are free
      obtain ⟨hp0, hpa⟩ := hpf
      rcases hprev with hg | ⟨p1, p2, p3, p4⟩
      · exact absurd hg hp0
      · have hp := p4 hpa
        have rd := coalesce_read_free m lo B mx f li hd ls tm t b top nb tlo p1 p2 p3 hpa
        obtain ⟨m4, run, ok4, e4⟩ := run_both m lo B mx f li hd ls tm t b
          (tagSize (m (b - 16))) L ok top nb fresh apb rfl hp p3 hn
        rw [na] at rd
        have hpfree : prev_free ⟨m, lo, B, mx, f, li, hd, ls, tm⟩ b = true := by
          unfold prev_free
          show (tagSize (m (b - 16)) != 0 && tagAlloc (m (b - 16)) == 0) = true
          rw [hpa, bne_iff_ne.mpr hp0]; rfl
        refine finish m4 _ _ _ (rd.trans run) ok4 e4 ?_ ?_ ?_ ?_
        · unfold merged_addr; rw [hpfree]; rfl
        · unfold merged_size; rw [hpfree, hnfree]
          show tagSize (m (b - 8)) + tagSize (m (b - 16)) +
            tagSize (m (b + tagSize (m (b - 8)) - 8)) = _
          rw [es, ens]
        · unfold merged_rest; rw [hpfree, hnfree]
          show (L.erase (b - tagSize (m (b - 16)))).erase (b + tagSize (m (b - 8))) = _
          rw [es]
        · intro _
          rw [es]
          intro hmem
          rcases List.mem_cons.mp hmem with e | e
          · omega
          · exact ((List.Nodup.mem_erase_iff (ok.nodup.erase _)).mp e).1 rfl
    · -- the previous block counts as allocated
      have hpa : tagSize (m (b - 16)) = 0 ∨
          (16 ≤ tagSize (m (b - 16)) ∧ lo + 8 + tagSize (m (b - 16)) ≤ b ∧
            m (b - tagSize (m (b - 16)) - 8) = m (b - 16) ∧ tagAlloc (m (b - 16)) ≠ 0) := by
        rcases hprev with hg | ⟨p1, p2, p3, _⟩
        · exact Or.inl hg
        · refine Or.inr ⟨p1, p2, p3, ?_⟩
          intro h
          exact hpf ⟨by omega, h⟩
      have rd := coalesce_read_alloc m lo B mx f li hd ls tm t b top nb tlo hpa
      obtain ⟨m4, run, ok4, e4⟩ := run_next m lo B mx f li hd ls tm t b L ok top nb fresh apb hn
      rw [na] at rd
      have hpfree : prev_free ⟨m, lo, B, mx, f, li, hd, ls, tm⟩ b = false := by
        unfold prev_free
        show (tagSize (m (b - 16)) != 0 && tagAlloc (m (b - 16)) == 0) = false
        rcases hpa with hg | ⟨_, _, _, h4⟩
        · rw [hg]; rfl
        · rw [beq_eq_false_iff_ne.mpr h4, Bool.and_false]
      refine finish m4 _ _ _ (rd.trans run) ok4 e4 ?_ ?_ ?_ ?_
      · unfold merged_addr; rw [hpfree]; rfl
      · unfold merged_size; rw [hpfree, hnfree]
        show tagSize (m (b - 8)) + 0 + tagSize (m (b + tagSize (m (b - 8)) - 8)) = _
        rw [es, ens]; omega
      · unfold merged_rest; rw [hpfree, hnfree]
        show L.erase (b + tagSize (m (b - 8))) = _
        rw [es]
      · intro _
        rw [es]
        intro hmem
        rcases List.mem_cons.mp hmem with e | e
        · omega
        · exact ((List.Nodup.mem_erase_iff ok.nodup).mp e).1 rfl
  · -- the next block is allocated
    have na : (tagAlloc (m (b + m (b - 8) - 8)) != 0) = true := bne_iff_ne.mpr hnf
    have hnfree : next_free ⟨m, lo, B, mx, f, li, hd, ls, tm⟩ b = false := by
      unfold next_free
      show (tagAlloc (m (b + tagSize (m (b - 8)) - 8)) == 0) = false
      rw [es]; exact beq_eq_false_iff_ne.mpr hnf
    by_cases hpf : tagSize (m (b - 16)) ≠ 0 ∧ tagAlloc (m (b - 16)) = 0
    · -- the previous block is free
      obtain ⟨hp0, hpa⟩ := hpf
      rcases hprev with hg | ⟨p1, p2, p3, p4⟩
      · exact absurd hg hp0
      · have hp := p4 hpa
        have rd := coalesce_read_free m lo B mx f li hd ls tm t b top nb tlo p1 p2 p3 hpa
        obtain ⟨m4, run, ok4, e4⟩ := run_prev m lo B mx f li hd ls tm t b
          (tagSize (m (b - 16))) L ok top nb fresh apb rfl hp p3
        rw [na] at rd
        have hpfree : prev_free ⟨m, lo, B, mx, f, li, hd, ls, tm⟩ b = true := by
          unfold prev_free
          show (tagSize (m (b - 16)) != 0 && tagAlloc (m (b - 16)) == 0) = true
          rw [hpa, bne_iff_ne.mpr hp0]; rfl
        refine finish m4 _ _ _ (rd.trans run) ok4 e4 ?_ ?_ ?_ ?_
        · unfold merged_addr; rw [hpfree]; rfl
        · unfold merged_size; rw [hpfree, hnfree]
          show tagSize (m (b - 8)) + tagSize (m (b - 16)) + 0 = _
          rw [es]; omega
        · unfold merged_rest; rw [hpfree, hnfree]; rfl
        · intro h; rw [hnfree] at h; exact absurd h (by decide)
    · -- both neighbours count as allocated
      have hpa : tagSize (m (b - 16)) = 0 ∨
          (16 ≤ tagSize (m (b - 16)) ∧ lo + 8 + tagSize (m (b - 16)) ≤ b ∧
            m (b - tagSize (m (b - 16)) - 8) = m (b - 16) ∧ tagAlloc (m (b - 16)) ≠ 0) := by
        rcases hprev with hg | ⟨p1, p2, p3, _⟩
        · exact Or.inl hg
        · refine Or.inr ⟨p1, p2, p3, ?_⟩
          intro h
          exact hpf ⟨by omega, h⟩
      have rd := coalesce_read_alloc m lo B mx f li hd ls tm t b top nb tlo hpa
      obtain ⟨m4, run, ok4, e4⟩ := run_alone m lo B mx f li hd ls tm t b L ok top nb fresh apb
      rw [na] at rd
      have hpfree : prev_free ⟨m, lo, B, mx, f, li, hd, ls, tm⟩ b = false := by
        unfold prev_free
        show (tagSize (m (b - 16)) != 0 && tagAlloc (m (b - 16)) == 0) = false
        rcases hpa with hg | ⟨_, _, _, h4⟩
        · rw [hg]; rfl
        · rw [beq_eq_false_iff_ne.mpr h4, Bool.and_false]
      refine finish m4 _ _ _ (rd.trans run) ok4 e4 ?_ ?_ ?_ ?_
      · unfold merged_addr; rw [hpfree]; rfl
      · unfold merged_size; rw [hpfree, hnfree]
        show tagSize (m (b - 8)) + 0 + 0 = _
        rw [es]; omega
      · unfold merged_rest; rw [hpfree, hnfree]; rfl
      · intro h; rw [hnfree] at h; exact absurd h (by decide)

/-- The state `merge_state` is a well-formed heap around the block 4352: the
free list is 4480, 4224 and ends at the prologue payload 4112. -/
theorem merge_state_well_formed : WellFormedAt merge_state 4352 4112 [4480, 4224] := by
  have hlo : merge_state.lo = 4096 := by rfl
  have hbrk : merge_state.brk = 69792 := by rfl
  have hhd : merge_state.free_list_head = 4480 := by rfl
  have w1 : merge_state.mem 4104 = 17 := by rfl
  have w2 : merge_state.mem 4216 = 128 := by rfl
  have w3 : merge_state.mem 4224 = 4480 := by rfl
  have w4 : merge_state.mem 4232 = 4112 := by rfl
  have w5 : merge_state.mem 4336 = 128 := by rfl
  have w6 : merge_state.mem 4344 = 128 := by rfl
  have w7 : merge_state.mem 4464 = 128 := by rfl
  have w8 : merge_state.mem 4472 = 65312 := by rfl
  have w9 : merge_state.mem 4480 = 0 := by rfl
  have w10 : merge_state.mem 4488 = 4224 := by rfl
  have w11 : merge_state.mem 69776 = 65312 := by rfl
  have t1 : tagSize 128 = 128 := by rfl
  have t2 : tagAlloc 128 = 0 := by rfl
  have t3 : tagAlloc 65312 = 0 := by rfl
  have t4 : tagAlloc 17 = 1 := by rfl
  have n1 : FreeNode merge_state.mem merge_state.lo merge_state.brk 4112 4480 := by
    refine ⟨by decide, ?_, ?_, ?_, ?_, ?_, by decide⟩ <;> simp [hlo, hbrk, w8, w11]
  have n2 : FreeNode merge_state.mem merge_state.lo merge_state.brk 4112 4224 := by
    refine ⟨by decide, ?_, ?_, ?_, ?_, ?_, by decide⟩ <;> simp [hlo, hbrk, w2, w5]
  have n3 : FreeNode merge_state.mem merge_state.lo merge_state.brk 4112 4352 := by
    refine ⟨by decide, ?_, ?_, ?_, ?_, ?_, by decide⟩ <;> simp [hlo, hbrk, w6, w7]
  refine ⟨by rw [hbrk]; decide, ?_, n3, by decide, ?_, ?_, ?_⟩
  · refine ⟨?_, by decide, ?_, ?_, by decide, ?_, ?_, ?_⟩
    · simp [dlist, hhd, w3, w4, w9, w10]
    · intro x hx
      simp at hx
      rcases hx with e | e
      · rw [e]; exact n1
      · rw [e]; exact n2
    · simp [w2, w8]
    · rw [hlo]; decide
    · rw [hbrk]; decide
    · simp [w1, t4]
  · simp [w2, w6, w8]
  · intro _
    simp [w6]
  · right
    simp [w5, t1, t2, hlo, w2]

/-- Claim C15 at a concrete input: in `merge_state` the block 4352 has the free
neighbours 4224 and 4480; `coalesce(4352)` returns 4224, the merged block has
size 65568, and the free list is the one block 4224. -/
theorem coalesce_merges_free_neighbours_witness :
    WellFormedAt merge_state 4352 4112 [4480, 4224] ∧
    (merged_addr merge_state 4352, merged_size merge_state 4352,
      merged_rest merge_state 4352 [4480, 4224]) = (4224, 65568, []) ∧
    ∃ σ1 : Heap, coalesce merge_state 4352 = some (σ1, merged_addr merge_state 4352) ∧
      σ1.mem (merged_addr merge_state 4352 - 8) = set (merged_size merge_state 4352) 0 ∧
      σ1.mem (merged_addr merge_state 4352 + merged_size merge_state 4352 - 16) =
        set (merged_size merge_state 4352) 0 ∧
      σ1.free_list_head = merged_addr merge_state 4352 ∧
      FreeList σ1 σ1.free_list_head
        (merged_addr merge_state 4352 :: merged_rest merge_state 4352 [4480, 4224]) ∧
      (merged_addr merge_state 4352 :: merged_rest merge_state 4352 [4480, 4224]).Nodup ∧
      (next_free merge_state 4352 = true →
        4352 + tagSize (merge_state.mem (4352 - 8)) ∉
          merged_addr merge_state 4352 :: merged_rest merge_state 4352 [4480, 4224]) :=
  ⟨merge_state_well_formed, by rfl,
    coalesce_merges_free_neighbours merge_state 4352 4112 [4480, 4224] merge_state_well_formed⟩

end MM
